import Mathlib

/-!
# Publish requests of the PubNub Go client

A shallow embedding of `publish_request.go`: option validation, construction of the
request path and body (with the optional encryption step), and decoding of the
server's answer.

Conventions of the embedding.

* Go `string` and `[]byte` values are modelled by `String` (UTF-8 text); the
  conversions `string(b)` and `[]byte(s)` are the identity.
* A Go `int` has 64 bits and is modelled by `Int`; the range matters in `Atoi` only.
* A Go `error` result is an `Option Error`, `none` standing for `nil`.
* A Go function with several results returns the tuple of its results.
* Code that can panic returns an `Outcome`.
* Calls to the logger (`o.pubnub.Config.Log.Println`) have no effect on the results
  and are left out, except for the evaluation of their arguments when that can panic.
* A `map[string]interface{}` is a reference: a function that assigns into the
  caller's map returns the options value as it stands after the call.
* The functions of the standard library the file calls (`strconv.Atoi`,
  `strconv.Itoa`, `fmt.Sprintf`, `json.Marshal`, `json.Unmarshal`) are modelled here
  as executable functions. The functions of package `utils` (URL encoding and the
  cipher) are parameters of the request functions.
-/

set_option autoImplicit false

namespace Pubnub

/-! ## Values and errors -/

/-- The run-time panics of the modelled code. -/
inductive Panic where
  /-- An index out of range: `[index]` with length `length` -/
  | indexOutOfRange (index length : Nat)
  /-- A failed interface conversion: the interface holds `dynamicType`, not `asserted` -/
  | interfaceConversion (dynamicType asserted : String)
  /-- An invalid memory address or nil pointer dereference -/
  | nilDereference
  deriving DecidableEq, Repr

/-- Result of running Go code that either returns normally or panics. -/
inductive Outcome (α : Type) where
  | ret (a : α)
  | panic (p : Panic)
  deriving DecidableEq, Repr

/-- Dynamic Go values a caller can hand over as `interface{}` (message, metadata).
`nil` is the nil interface; `slice` is a non-nil `[]interface{}` and `nilSlice` the
nil `[]interface{}`; `map` is a non-nil `map[string]interface{}` given by its entries
(keys pairwise distinct, order irrelevant) and `nilMap` the nil
`map[string]interface{}`; `struct` is a struct value given by its exported fields
under their JSON names, in declaration order; `chan` stands for a value of a kind
that `encoding/json` cannot encode. A string is a valid UTF-8 text. Floating-point
values are not part of the model. -/
inductive GoValue where
  | nil
  | bool (b : Bool)
  | int (n : Int)
  | str (s : String)
  | slice (xs : List GoValue)
  | nilSlice
  | map (entries : List (String × GoValue))
  | nilMap
  | struct (fields : List (String × GoValue))
  | chan
  deriving Repr

/-- Modelled from the spec: the message constants `StrMissingPubKey`,
`StrMissingSubKey`, `StrMissingChannel` and `StrMissingMessage` are declared outside
the shown sources; each names the required field that is missing. -/
inductive ValidationMessage where
  | StrMissingPubKey
  | StrMissingSubKey
  | StrMissingChannel
  | StrMissingMessage
  deriving DecidableEq, Repr

/-- Error values that reach the caller of a publish request. -/
inductive Error where
  /-- The error built by `newValidationError(o, msg)` -/
  | validation (msg : ValidationMessage)
  /-- The error built by `pnerr.NewBuildRequestError(msg)` -/
  | buildRequest (msg : String)
  /-- The error built by `pnerr.NewResponseParsingError(msg, body, cause)` -/
  | responseParsing (msg : String) (body : String) (cause : Error)
  /-- A `*json.SyntaxError` -/
  | jsonSyntax
  /-- A `*json.UnmarshalTypeError` with its `Value` field -/
  | jsonUnmarshalType (value : String)
  /-- A `*json.UnsupportedTypeError` -/
  | jsonUnsupportedType
  /-- A `*strconv.NumError` wrapping `strconv.ErrSyntax` -/
  | numSyntax (fn : String) (num : String)
  /-- A `*strconv.NumError` wrapping `strconv.ErrRange` -/
  | numRange (fn : String) (num : String)
  /-- An error value produced by a package outside the shown sources -/
  | external (msg : String)
  deriving DecidableEq, Repr

/-! ## Client configuration and publish options -/

/-- The fields of the client configuration read by a publish request. -/
structure Config where
  PublishKey : String
  SubscribeKey : String
  CipherKey : String
  DisablePNOtherProcessing : Bool
  Uuid : String
  NonSubscribeRequestTimeout : Int
  ConnectTimeout : Int
  deriving Repr

/-- Handle of the client's `TelemetryManager`. -/
abbrev TelemetryManager := Nat

/-- The client a request belongs to: its configuration, its telemetry manager, and
the state of its publish sequence, which `getPublishSequence` reads and advances. -/
structure PubNub where
  Config : Config
  telemetryManager : TelemetryManager
  publishSequence : Int
  deriving Repr

/-- Handle of an `http.RoundTripper`. -/
abbrev RoundTripper := Nat

/-- Handle of a request `Context`. -/
abbrev Context := Nat

/-- The type `publishOpts`. -/
structure publishOpts where
  pubnub : PubNub
  Ttl : Int
  Channel : String
  Message : GoValue
  Meta : GoValue
  UsePost : Bool
  ShouldStore : Bool
  Serialize : Bool
  DoNotReplicate : Bool
  Transport : Option RoundTripper
  ctx : Option Context
  setTtl : Bool
  setShouldStore : Bool
  deriving Repr

/-- The type `PublishResponse`. -/
structure PublishResponse where
  Timestamp : Int
  deriving DecidableEq, Repr

/-- The variable `emptyPublishResponse`, a nil `*PublishResponse`. -/
def emptyPublishResponse : Option PublishResponse := none

/-- The test `v == nil` on an interface value. -/
def GoValue.isNil : GoValue → Bool
  | .nil => true
  | _ => false

/-- The type assertion `v.(string)` in its two-result form. -/
def GoValue.asString : GoValue → String × Bool
  | .str s => (s, true)
  | _ => ("", false)

/-- The method `publishOpts.config`. -/
def publishOpts.config (o : publishOpts) : Config :=
  o.pubnub.Config

/-- The function `newValidationError`. -/
def newValidationError (_o : publishOpts) (msg : ValidationMessage) : Error :=
  .validation msg

/-- The method `publishOpts.validate`. -/
def publishOpts.validate (o : publishOpts) : Option Error :=
  if o.config.PublishKey = "" then
    some (newValidationError o .StrMissingPubKey)
  else if o.config.SubscribeKey = "" then
    some (newValidationError o .StrMissingSubKey)
  else if o.Channel = "" then
    some (newValidationError o .StrMissingChannel)
  else if o.Message.isNil then
    some (newValidationError o .StrMissingMessage)
  else
    none

/-! ## Package `strconv` -/

/-- The ASCII digit of a value below ten. -/
def digitChar (d : Nat) : Char := Char.ofNat (48 + d)

/-- The loop of `strconv.formatBits` for base ten: the digits of `u` are written in
front of `acc`, least significant first. `fuel` is the size of the digit buffer. -/
def formatBits : Nat → Nat → List Char → List Char
  | 0, _, acc => acc
  | fuel + 1, u, acc =>
    if u < 10 then digitChar u :: acc
    else formatBits fuel (u / 10) (digitChar (u % 10) :: acc)

/-- The function `strconv.FormatInt(i, 10)`; the buffer holds 65 bytes. -/
def FormatInt (i : Int) : String :=
  if i < 0 then String.mk ('-' :: formatBits 65 i.natAbs [])
  else String.mk (formatBits 65 i.natAbs [])

/-- The function `strconv.Itoa`. -/
def Itoa (i : Int) : String := FormatInt i

/-- The size in bits of a Go `int`. -/
def intSize : Nat := 64

/-- The loop of `strconv.ParseUint(s, 10, 64)` over the characters still to read,
`n` being the value read so far: `none` is a syntax error, `some (v, true)` a range
error with the clamped value `v`, `some (v, false)` the value read. -/
def parseUintLoop : List Char → Nat → Option (Nat × Bool)
  | [], n => some (n, false)
  | c :: cs, n =>
    if '0' ≤ c ∧ c ≤ '9' then
      let d := c.toNat - 48
      if n ≥ (2 ^ 64 - 1) / 10 + 1 then some (2 ^ 64 - 1, true)
      else if n * 10 + d > 2 ^ 64 - 1 then some (2 ^ 64 - 1, true)
      else parseUintLoop cs (n * 10 + d)
    else none

/-- The function `strconv.Atoi`, through `ParseInt(s, 10, 0)`; the fast path taken
for short inputs computes the same results. -/
def Atoi (s : String) : Int × Option Error :=
  match s.toList with
  | [] => (0, some (.numSyntax "Atoi" s))
  | c :: cs =>
    let neg := c = '-'
    let digits := if c = '+' ∨ c = '-' then cs else c :: cs
    if digits = [] then (0, some (.numSyntax "Atoi" s))
    else
      match parseUintLoop digits 0 with
      | none => (0, some (.numSyntax "Atoi" s))
      | some (un, _) =>
        let cutoff : Nat := 2 ^ (intSize - 1)
        if ¬ neg ∧ un ≥ cutoff then (((cutoff - 1 : Nat) : Int), some (.numRange "Atoi" s))
        else if neg ∧ un > cutoff then (-(cutoff : Int), some (.numRange "Atoi" s))
        else if neg then (-(un : Int), none)
        else ((un : Int), none)

/-! ## Maps with string keys -/

/-- The index expression `m[key]` on a `map[string]interface{}`: the nil interface
when the key is absent. -/
def mapIndex : List (String × GoValue) → String → GoValue
  | [], _ => .nil
  | (k, v) :: rest, key => if k = key then v else mapIndex rest key

/-- The assignment `m[key] = value`: the entry of `key` is overwritten, or added. -/
def mapAssign {α : Type} : List (String × α) → String → α → List (String × α)
  | [], key, value => [(key, value)]
  | (k, v) :: rest, key, value =>
    if k = key then (k, value) :: rest else (k, v) :: mapAssign rest key value

/-! ## Package `encoding/json`: encoding -/

/-- The lower-case hexadecimal digit of a value below sixteen. -/
def hexChar (n : Nat) : Char :=
  if n < 10 then Char.ofNat (48 + n) else Char.ofNat (87 + n)

/-- The encoding of one character of a string, with HTML escaping on as in
`json.Marshal`: the quote and the backslash are escaped, line feed, carriage return
and tab have their short escapes, the other control characters and `<`, `>`, `&` are
written `\u00XX`, and U+2028, U+2029 are written `\\u2028`, `\\u2029`. -/
def encodeChar (c : Char) : List Char :=
  if c = '"' then ['\\', '"']
  else if c = '\\' then ['\\', '\\']
  else if c = '\n' then ['\\', 'n']
  else if c = '\r' then ['\\', 'r']
  else if c = '\t' then ['\\', 't']
  else if c.toNat < 32 ∨ c = '<' ∨ c = '>' ∨ c = '&' then
    ['\\', 'u', '0', '0', hexChar (c.toNat / 16), hexChar (c.toNat % 16)]
  else if c.toNat = 8232 ∨ c.toNat = 8233 then
    ['\\', 'u', '2', '0', '2', hexChar (c.toNat % 16)]
  else [c]

/-- The JSON string literal of a string. -/
def encodeString (s : String) : List Char :=
  '"' :: (s.toList.flatMap encodeChar ++ ['"'])

/-- The order of Go strings: lexicographic on the bytes, which for UTF-8 text is
lexicographic on the code points. -/
def stringLess : List Char → List Char → Bool
  | _, [] => false
  | [], _ :: _ => true
  | a :: as, b :: bs =>
    if a.toNat < b.toNat then true
    else if b.toNat < a.toNat then false
    else stringLess as bs

/-- Insertion of an encoded entry into a list sorted by key. -/
def insertEntry (e : String × List Char) : List (String × List Char) → List (String × List Char)
  | [] => [e]
  | f :: rest =>
    if stringLess e.1.toList f.1.toList then e :: f :: rest else f :: insertEntry e rest

/-- The encoded entries sorted by key, as `encoding/json` orders the keys of a map. -/
def sortEntries : List (String × List Char) → List (String × List Char)
  | [] => []
  | e :: rest => insertEntry e (sortEntries rest)

/-- The members of an object, separated by commas. -/
def joinEntries : List (String × List Char) → List Char
  | [] => []
  | [(k, v)] => encodeString k ++ (':' :: v)
  | (k, v) :: e :: rest => encodeString k ++ (':' :: v) ++ (',' :: joinEntries (e :: rest))

/-- The elements of an array, separated by commas. -/
def joinElements : List (List Char) → List Char
  | [] => []
  | [v] => v
  | v :: w :: rest => v ++ (',' :: joinElements (w :: rest))

mutual
/-- The JSON text of a value, or `none` when a part of it has no encoding. -/
def encodeValue : GoValue → Option (List Char)
  | .nil => some "null".toList
  | .bool b => some (if b then "true".toList else "false".toList)
  | .int n => some (FormatInt n).toList
  | .str s => some (encodeString s)
  | .slice xs => (encodeElements xs).map fun vs => '[' :: (joinElements vs ++ [']'])
  | .nilSlice => some "null".toList
  | .map entries =>
    (encodeEntries entries).map fun es => '\x7b' :: (joinEntries (sortEntries es) ++ ['\x7d'])
  | .nilMap => some "null".toList
  | .struct fields =>
    (encodeEntries fields).map fun es => '\x7b' :: (joinEntries es ++ ['\x7d'])
  | .chan => none
/-- The JSON texts of the elements of a slice. -/
def encodeElements : List GoValue → Option (List (List Char))
  | [] => some []
  | x :: xs =>
    match encodeValue x, encodeElements xs with
    | some v, some vs => some (v :: vs)
    | _, _ => none
/-- The JSON texts of the values of the entries of a map or the fields of a struct. -/
def encodeEntries : List (String × GoValue) → Option (List (String × List Char))
  | [] => some []
  | (k, x) :: rest =>
    match encodeValue x, encodeEntries rest with
    | some v, some es => some ((k, v) :: es)
    | _, _ => none
end

/-- The function `json.Marshal`: the JSON text and a nil error, or no bytes and an
unsupported-type error. -/
def Marshal (v : GoValue) : String × Option Error :=
  match encodeValue v with
  | some cs => (String.mk cs, none)
  | none => ("", some .jsonUnsupportedType)

/-! ## Package `encoding/json`: decoding -/

/-- The value tree `json.Unmarshal` stores in an `interface{}`: nil, `bool`,
`float64`, `string`, `[]interface{}` and `map[string]interface{}`. A `float64` is
kept as the number literal that denotes it. -/
inductive JSONValue where
  | null
  | bool (b : Bool)
  | number (literal : String)
  | string (s : String)
  | array (elements : List JSONValue)
  | object (entries : List (String × JSONValue))
  deriving Repr

/-- Result of reading a piece of JSON text from the front of the input. -/
inductive Parse (α : Type) where
  | ok (a : α) (rest : List Char)
  | syntaxError
  | outOfFuel
  deriving Repr

/-- The white space of JSON. -/
def isSpace (c : Char) : Bool :=
  c = ' ' || c = '\t' || c = '\r' || c = '\n'

/-- The input after its leading white space. -/
def skipSpace : List Char → List Char
  | [] => []
  | c :: cs => if isSpace c then skipSpace cs else c :: cs

/-- The value of a hexadecimal digit. -/
def hexVal (c : Char) : Option Nat :=
  if '0' ≤ c ∧ c ≤ '9' then some (c.toNat - 48)
  else if 'a' ≤ c ∧ c ≤ 'f' then some (c.toNat - 87)
  else if 'A' ≤ c ∧ c ≤ 'F' then some (c.toNat - 55)
  else none

/-- The function `getu4`, on the four characters that follow `\u`. -/
def getu4 (a b c d : Char) : Option Nat :=
  match hexVal a, hexVal b, hexVal c, hexVal d with
  | some x, some y, some z, some w => some (((x * 16 + y) * 16 + z) * 16 + w)
  | _, _, _, _ => none

/-- The function `utf16.IsSurrogate`. -/
def isSurrogate (r : Nat) : Bool :=
  55296 ≤ r && r < 57344

/-- The function `utf16.DecodeRune`; `none` stands for the replacement character
returned for an invalid pair. -/
def decodeRune (r1 r2 : Nat) : Option Nat :=
  if 55296 ≤ r1 ∧ r1 < 56320 ∧ 56320 ≤ r2 ∧ r2 < 57344 then
    some ((r1 - 55296) * 1024 + (r2 - 56320) + 65536)
  else none

/-- The character U+FFFD. -/
def replacementChar : Char := Char.ofNat 65533

/-- The character a single-letter escape stands for. -/
def unescape (e : Char) : Option Char :=
  if e = '"' then some '"'
  else if e = '\\' then some '\\'
  else if e = '/' then some '/'
  else if e = 'b' then some (Char.ofNat 8)
  else if e = 'f' then some (Char.ofNat 12)
  else if e = 'n' then some '\n'
  else if e = 'r' then some '\r'
  else if e = 't' then some '\t'
  else none

/-- Decodes the escape whose backslash has just been read, as `unquote` does: the
result is the character it stands for and the number of characters it takes after
the backslash. A `\\u` escape holding a surrogate half is combined with a following
`\\u` escape when the two form a valid pair, and stands for U+FFFD otherwise. -/
def scanEscape : List Char → Option (Char × Nat)
  | [] => none
  | e :: r =>
    if e = 'u' then
      match r with
      | h1 :: h2 :: h3 :: h4 :: r1 =>
        match getu4 h1 h2 h3 h4 with
        | none => none
        | some rr =>
          if isSurrogate rr then
            match r1 with
            | b :: u :: g1 :: g2 :: g3 :: g4 :: _ =>
              match (if b = '\\' ∧ u = 'u' then getu4 g1 g2 g3 g4 else none) with
              | some rr1 =>
                match decodeRune rr rr1 with
                | some dec => some (Char.ofNat dec, 11)
                | none => some (replacementChar, 5)
              | none => some (replacementChar, 5)
            | _ => some (replacementChar, 5)
          else some (Char.ofNat rr, 5)
      | _ => none
    else
      match unescape e with
      | some ch => some (ch, 1)
      | none => none

/-- Reads a string literal after its opening quote: the scanner's check of the
literal together with `unquote`. `skip` counts the characters of an escape already
decoded that are still to be passed over, and `acc` holds the characters decoded so
far, last first. The result is the decoded string and the input after the closing
quote. -/
def scanString : List Char → Nat → List Char → Parse (List Char)
  | [], _, _ => .syntaxError
  | _ :: cs, skip + 1, acc => scanString cs skip acc
  | c :: cs, 0, acc =>
    if c = '"' then .ok acc.reverse cs
    else if c = '\\' then
      match scanEscape cs with
      | some (ch, k) => scanString cs k (ch :: acc)
      | none => .syntaxError
    else if c.toNat < 32 then .syntaxError
    else scanString cs 0 (c :: acc)

/-- The leading decimal digits of the input, and what follows them. -/
def spanDigits : List Char → List Char × List Char
  | [] => ([], [])
  | c :: cs =>
    if '0' ≤ c ∧ c ≤ '9' then ((spanDigits cs).1.cons c, (spanDigits cs).2)
    else ([], c :: cs)

/-- The number denoted by a list of decimal digits read after the value `n`. -/
def digitsValue : List Char → Nat → Nat
  | [], n => n
  | c :: cs, n => digitsValue cs (n * 10 + (c.toNat - 48))

/-- A number literal taken apart: its text, and the number it denotes as
`± mantissa * 10 ^ exponent`. -/
structure NumberLiteral where
  text : List Char
  mantissa : Nat
  exponent : Int
  deriving Repr

/-- Reads the integer part of a number literal: `0`, or a digit from 1 to 9 followed
by digits. -/
def scanIntegerPart : List Char → Parse (List Char)
  | [] => .syntaxError
  | d :: cs =>
    if d = '0' then .ok ['0'] cs
    else if '1' ≤ d ∧ d ≤ '9' then .ok (d :: (spanDigits cs).1) (spanDigits cs).2
    else .syntaxError

/-- Reads the optional fraction of a number literal: a dot followed by at least one
digit. -/
def scanFraction : List Char → Parse (List Char)
  | '.' :: cs =>
    if (spanDigits cs).1 = [] then .syntaxError else .ok (spanDigits cs).1 (spanDigits cs).2
  | cs => .ok [] cs

/-- Reads the optional exponent of a number literal: `e` or `E`, an optional sign and
at least one digit. The result is the text read and the exponent's value. -/
def scanExponent : List Char → Parse (List Char × Int)
  | [] => .ok ([], 0) []
  | e :: cs =>
    if e = 'e' ∨ e = 'E' then
      match cs with
      | [] => .syntaxError
      | s :: cs1 =>
        if s = '+' ∨ s = '-' then
          if (spanDigits cs1).1 = [] then .syntaxError
          else
            .ok (e :: s :: (spanDigits cs1).1,
                 if s = '-' then -(digitsValue (spanDigits cs1).1 0 : Int)
                 else (digitsValue (spanDigits cs1).1 0 : Int))
              (spanDigits cs1).2
        else if (spanDigits (s :: cs1)).1 = [] then .syntaxError
        else
          .ok (e :: (spanDigits (s :: cs1)).1, (digitsValue (spanDigits (s :: cs1)).1 0 : Int))
            (spanDigits (s :: cs1)).2
    else .ok ([], 0) (e :: cs)

/-- Reads a number literal. -/
def scanNumber (cs : List Char) : Parse NumberLiteral :=
  let sign : List Char := match cs with
    | '-' :: _ => ['-']
    | _ => []
  let afterSign : List Char := match cs with
    | '-' :: r => r
    | _ => cs
  match scanIntegerPart afterSign with
  | .ok ip r1 =>
    match scanFraction r1 with
    | .ok fp r2 =>
      match scanExponent r2 with
      | .ok (et, ev) r3 =>
        .ok { text := sign ++ ip ++ (if fp = [] then [] else '.' :: fp) ++ et,
              mantissa := digitsValue (ip ++ fp) 0,
              exponent := ev - fp.length } r3
      | .syntaxError => .syntaxError
      | .outOfFuel => .outOfFuel
    | .syntaxError => .syntaxError
    | .outOfFuel => .outOfFuel
  | .syntaxError => .syntaxError
  | .outOfFuel => .outOfFuel

/-- The least magnitude that `strconv.ParseFloat(s, 64)` rounds to infinity,
`2^1024 - 2^970`, half a unit in the last place above the largest `float64`. -/
def float64Overflow : Nat :=
  179769313486231580793728971405303415079934132710037826936173778980444968292764750946649017977587207096330286416692887910946555547851940402630657488671505820681908902000708383676273854845817711531764475730270069855571366959622842914819860834936475292719074168444365510704342711559699508093042880177904174497792

/-- Whether `strconv.ParseFloat(s, 64)` reports a range error for the literal: the
number it denotes rounds to infinity. -/
def floatOutOfRange (n : NumberLiteral) : Bool :=
  if 0 ≤ n.exponent then
    decide (float64Overflow ≤ n.mantissa * 10 ^ n.exponent.toNat)
  else
    decide (float64Overflow * 10 ^ (-n.exponent).toNat ≤ n.mantissa)

/-- The error kept by `saveError`: the first one. -/
def firstError (a b : Option Error) : Option Error :=
  match a with
  | some e => some e
  | none => b

/-- The value stored for a number literal and the error saved for it:
`convertNumber` fails with an `UnmarshalTypeError` when the literal is out of the
range of `float64`, and nil is stored then. -/
def convertNumber (n : NumberLiteral) : JSONValue × Option Error :=
  if floatOutOfRange n then
    (.null, some (.jsonUnmarshalType (String.mk ("number ".toList ++ n.text))))
  else (.number (String.mk n.text), none)

/-- Reads one JSON value whose first character is at the front of the input, and
gives the tree `Unmarshal` stores for it in an `interface{}` with the first error
saved on the way. `elements` and `members` read the inside of an array and of an
object. -/
def valueStep (elements : List Char → Parse (List JSONValue × Option Error))
    (members : List Char → List (String × JSONValue) →
      Parse (List (String × JSONValue) × Option Error))
    (cs : List Char) : Parse (JSONValue × Option Error) :=
  match cs with
  | [] => .syntaxError
  | c :: r =>
    if c = '"' then
      match scanString r 0 [] with
      | .ok s r1 => .ok (.string (String.mk s), none) r1
      | .syntaxError => .syntaxError
      | .outOfFuel => .outOfFuel
    else if c = '[' then
      match skipSpace r with
      | [] => .syntaxError
      | d :: r1 =>
        if d = ']' then .ok (.array [], none) r1
        else
          match elements (d :: r1) with
          | .ok (xs, e) r2 => .ok (.array xs, e) r2
          | .syntaxError => .syntaxError
          | .outOfFuel => .outOfFuel
    else if c = '\x7b' then
      match skipSpace r with
      | [] => .syntaxError
      | d :: r1 =>
        if d = '\x7d' then .ok (.object [], none) r1
        else
          match members (d :: r1) [] with
          | .ok (es, e) r2 => .ok (.object es, e) r2
          | .syntaxError => .syntaxError
          | .outOfFuel => .outOfFuel
    else if c = 't' then
      match r with
      | 'r' :: 'u' :: 'e' :: r1 => .ok (.bool true, none) r1
      | _ => .syntaxError
    else if c = 'f' then
      match r with
      | 'a' :: 'l' :: 's' :: 'e' :: r1 => .ok (.bool false, none) r1
      | _ => .syntaxError
    else if c = 'n' then
      match r with
      | 'u' :: 'l' :: 'l' :: r1 => .ok (.null, none) r1
      | _ => .syntaxError
    else
      match scanNumber (c :: r) with
      | .ok n r1 => .ok (convertNumber n) r1
      | .syntaxError => .syntaxError
      | .outOfFuel => .outOfFuel

/-- Reads the elements of an array up to its closing bracket; the input starts at
the first character of an element. `value` reads one value and `elements` the
elements after a comma. -/
def elementsStep (value : List Char → Parse (JSONValue × Option Error))
    (elements : List Char → Parse (List JSONValue × Option Error))
    (cs : List Char) : Parse (List JSONValue × Option Error) :=
  match value cs with
  | .ok (x, e1) r =>
    match skipSpace r with
    | [] => .syntaxError
    | d :: r1 =>
      if d = ',' then
        match elements (skipSpace r1) with
        | .ok (xs, e2) r2 => .ok (x :: xs, firstError e1 e2) r2
        | .syntaxError => .syntaxError
        | .outOfFuel => .outOfFuel
      else if d = ']' then .ok ([x], e1) r1
      else .syntaxError
  | .syntaxError => .syntaxError
  | .outOfFuel => .outOfFuel

/-- Reads the members of an object up to its closing brace; the input starts at the
first character of a key, and `acc` holds the entries stored so far. A key met again
overwrites its entry. `value` reads one value and `members` the members after a
comma. -/
def membersStep (value : List Char → Parse (JSONValue × Option Error))
    (members : List Char → List (String × JSONValue) →
      Parse (List (String × JSONValue) × Option Error))
    (cs : List Char) (acc : List (String × JSONValue)) :
    Parse (List (String × JSONValue) × Option Error) :=
  match cs with
  | [] => .syntaxError
  | q :: r =>
    if q = '"' then
      match scanString r 0 [] with
      | .ok k r1 =>
        match skipSpace r1 with
        | [] => .syntaxError
        | colon :: r2 =>
          if colon = ':' then
            match value (skipSpace r2) with
            | .ok (x, e1) r3 =>
              match skipSpace r3 with
              | [] => .syntaxError
              | d :: r4 =>
                if d = ',' then
                  match members (skipSpace r4) (mapAssign acc (String.mk k) x) with
                  | .ok (es, e2) r5 => .ok (es, firstError e1 e2) r5
                  | .syntaxError => .syntaxError
                  | .outOfFuel => .outOfFuel
                else if d = '\x7d' then .ok (mapAssign acc (String.mk k) x, e1) r4
                else .syntaxError
            | .syntaxError => .syntaxError
            | .outOfFuel => .outOfFuel
          else .syntaxError
      | .syntaxError => .syntaxError
      | .outOfFuel => .outOfFuel
    else .syntaxError

mutual
/-- The reader of a value, by recursive descent; `fuel` bounds the depth of the
calls, and `2 * n + 1` is enough for an input of `n` characters. -/
def parseValue : Nat → List Char → Parse (JSONValue × Option Error)
  | 0, _ => .outOfFuel
  | fuel + 1, cs => valueStep (parseElements fuel) (parseMembers fuel) cs
/-- The reader of the elements of an array. -/
def parseElements : Nat → List Char → Parse (List JSONValue × Option Error)
  | 0, _ => .outOfFuel
  | fuel + 1, cs => elementsStep (parseValue fuel) (parseElements fuel) cs
/-- The reader of the members of an object. -/
def parseMembers : Nat → List Char → List (String × JSONValue) →
    Parse (List (String × JSONValue) × Option Error)
  | 0, _, _ => .outOfFuel
  | fuel + 1, cs, acc => membersStep (parseValue fuel) (parseMembers fuel) cs acc
end

/-- The function `json.Unmarshal(data, &value)` for a nil `value` of type
`[]interface{}`: the slice stored in `value` and the error returned. A syntax error
leaves `value` nil; the text `null` stores a nil slice; a value that is not an array
is a type error. -/
def Unmarshal (data : String) : List JSONValue × Option Error :=
  match parseValue (2 * (skipSpace data.toList).length + 1) (skipSpace data.toList) with
  | .ok (v, e) rest =>
    if skipSpace rest = [] then
      match v with
      | .array xs => (xs, e)
      | .null => ([], none)
      | .bool _ => ([], some (.jsonUnmarshalType "bool"))
      | .number _ => ([], some (.jsonUnmarshalType "number"))
      | .string _ => ([], some (.jsonUnmarshalType "string"))
      | .object _ => ([], some (.jsonUnmarshalType "object"))
    else ([], some .jsonSyntax)
  | .syntaxError => ([], some .jsonSyntax)
  | .outOfFuel => ([], some .jsonSyntax)

/-- The name of the dynamic type of a decoded value, as a failed type assertion
prints it. -/
def JSONValue.typeName : JSONValue → String
  | .null => "nil"
  | .bool _ => "bool"
  | .number _ => "float64"
  | .string _ => "string"
  | .array _ => "[]interface \x7b\x7d"
  | .object _ => "map[string]interface \x7b\x7d"


/-! ## Package `fmt` -/

/-- The operands left over at the end of a format, as `fmt` reports them. -/
def sprintfExtra : List String → List Char
  | [] => []
  | [a] => "string=".toList ++ a.toList
  | a :: b :: rest => "string=".toList ++ a.toList ++ ", ".toList ++ sprintfExtra (b :: rest)

/-- Expansion of a format whose only verb is `%s`, applied to string operands. -/
def sprintfAux : List Char → List String → List Char
  | '%' :: 's' :: rest, a :: args => a.toList ++ sprintfAux rest args
  | '%' :: 's' :: rest, [] => "%!s(MISSING)".toList ++ sprintfAux rest []
  | c :: rest, args => c :: sprintfAux rest args
  | [], [] => []
  | [], a :: args => "%!(EXTRA ".toList ++ sprintfExtra (a :: args) ++ [')']

/-- The function `fmt.Sprintf`, for formats whose only verb is `%s` and string
operands, which is how this file uses it. -/
def Sprintf (format : String) (args : List String) : String :=
  String.mk (sprintfAux format.toList args)

/-! ## Package `utils` -/

/-- The functions of package `utils` called by a publish request. The package lies
outside the shown sources, and the request functions take it as a parameter: what
is proved of them holds whatever these functions compute. -/
structure Utils where
  /-- The function `utils.UrlEncode` -/
  UrlEncode : String → String
  /-- The function `utils.SerializeAndEncrypt(msg, cipherKey, serialize)` -/
  SerializeAndEncrypt : GoValue → String → Bool → String × Option Error
  /-- The function `utils.SerializeEncryptAndSerialize(msg, cipherKey, serialize)` -/
  SerializeEncryptAndSerialize : GoValue → String → Bool → String × Option Error
  /-- The function `utils.ValueAsString` -/
  ValueAsString : GoValue → String × Option Error

/-! ## The publish request -/

/-- The constant `PUBLISH_GET_PATH`. -/
def PUBLISH_GET_PATH : String := "/publish/%s/%s/0/%s/%s/%s"

/-- The constant `PUBLISH_POST_PATH`. -/
def PUBLISH_POST_PATH : String := "/publish/%s/%s/0/%s/%s"

/-- The type `publishBuilder`. -/
structure publishBuilder where
  opts : publishOpts

/-- The function `newPublishResponse`. The index expression `value[2]` panics on a
slice shorter than three, and the type assertion `value[2].(string)` panics on an
element that is not a string. -/
def newPublishResponse {σ : Type} (jsonBytes : String) (status : σ) :
    Outcome (Option PublishResponse × σ × Option Error) :=
  match Unmarshal jsonBytes with
  | (_, some err) =>
    .ret (emptyPublishResponse, status,
      some (.responseParsing "Error unmarshalling response" jsonBytes err))
  | (value, none) =>
    match value.get? 2 with
    | none => .panic (.indexOutOfRange 2 value.length)
    | some (.string timeString) =>
      match Atoi timeString with
      | (_, some err) => .ret (emptyPublishResponse, status, some err)
      | (timestamp, none) => .ret (some { Timestamp := timestamp }, status, none)
    | some v => .panic (.interfaceConversion v.typeName "string")

/-- The method `publishBuilder.Execute`. The function `executeRequest`, which sends
the request, lies outside the shown sources and is a parameter. -/
def publishBuilder.Execute {σ : Type}
    (executeRequest : publishOpts → String × σ × Option Error) (b : publishBuilder) :
    Outcome (Option PublishResponse × σ × Option Error) :=
  match executeRequest b.opts with
  | (_, status, some err) => .ret (emptyPublishResponse, status, some err)
  | (rawJson, status, none) => newPublishResponse rawJson status

/-- The method `publishOpts.encryptProcessing`. The result holds the options as they
stand after the call: the assignment `v["pn_other"] = encMsg` writes into the map the
message refers to. With `DisablePNOtherProcessing` unset, the logging call evaluates
`reflect.TypeOf(o.Message).Kind()`, which panics on a nil message. A nil map is of
the type of the first case of the type switch and has no `pn_other` entry. -/
def publishOpts.encryptProcessing (u : Utils) (o : publishOpts) (cipherKey : String) :
    Outcome (publishOpts × String × Option Error) :=
  if o.pubnub.Config.DisablePNOtherProcessing then
    match u.SerializeEncryptAndSerialize o.Message cipherKey o.Serialize with
    | (_, some errJsonMarshal) => .ret (o, "", some errJsonMarshal)
    | (msg, none) => .ret (o, msg, none)
  else
    match o.Message with
    | .nil => .panic .nilDereference
    | .map v =>
      match (mapIndex v "pn_other").asString with
      | (msgPart, true) =>
        match u.SerializeAndEncrypt (.str msgPart) cipherKey o.Serialize with
        | (_, some errJsonMarshal) => .ret (o, "", some errJsonMarshal)
        | (encMsg, none) =>
          match Marshal (.map (mapAssign v "pn_other" (.str encMsg))) with
          | (_, some errEnc) =>
            .ret ({ o with Message := .map (mapAssign v "pn_other" (.str encMsg)) }, "",
              some errEnc)
          | (jsonEncBytes, none) =>
            .ret ({ o with Message := .map (mapAssign v "pn_other" (.str encMsg)) },
              jsonEncBytes, none)
      | (_, false) =>
        match u.SerializeEncryptAndSerialize o.Message cipherKey o.Serialize with
        | (_, some errJsonMarshal) => .ret (o, "", some errJsonMarshal)
        | (msg, none) => .ret (o, msg, none)
    | .nilMap =>
      match u.SerializeEncryptAndSerialize o.Message cipherKey o.Serialize with
      | (_, some errJsonMarshal) => .ret (o, "", some errJsonMarshal)
      | (msg, none) => .ret (o, msg, none)
    | _ =>
      match u.SerializeEncryptAndSerialize o.Message cipherKey o.Serialize with
      | (_, some errJsonMarshal) => .ret (o, "", some errJsonMarshal)
      | (msg, none) => .ret (o, msg, none)

/-- The last statement of `buildPath`: the GET path around the payload `msg`. -/
def publishOpts.getPath (u : Utils) (o : publishOpts) (msg : String) : String :=
  Sprintf PUBLISH_GET_PATH
    [o.pubnub.Config.PublishKey, o.pubnub.Config.SubscribeKey, u.UrlEncode o.Channel, "0",
      u.UrlEncode msg]

/-- The method `publishOpts.buildPath`; the result holds the options as they stand
after the call. -/
def publishOpts.buildPath (u : Utils) (o : publishOpts) :
    Outcome (publishOpts × String × Option Error) :=
  if o.UsePost = true then
    .ret (o,
      Sprintf PUBLISH_POST_PATH
        [o.pubnub.Config.PublishKey, o.pubnub.Config.SubscribeKey, u.UrlEncode o.Channel, "0"],
      none)
  else if o.pubnub.Config.CipherKey ≠ "" then
    match o.encryptProcessing u o.pubnub.Config.CipherKey with
    | .panic p => .panic p
    | .ret (o1, _, some errJsonMarshal) => .ret (o1, "", some errJsonMarshal)
    | .ret (o1, msg, none) => .ret (o1, o1.getPath u msg, none)
  else if o.Serialize then
    match Marshal o.Message with
    | (_, some errEnc) => .ret (o, "", some errEnc)
    | (jsonEncBytes, none) => .ret (o, o.getPath u jsonEncBytes, none)
  else
    match o.Message.asString with
    | (serializedMsg, true) => .ret (o, o.getPath u serializedMsg, none)
    | (_, false) =>
      .ret (o, "", some (.buildRequest "buildpath: Message is not JSON serialized."))

/-- The method `publishOpts.buildBody`; the result holds the options as they stand
after the call. -/
def publishOpts.buildBody (u : Utils) (o : publishOpts) :
    Outcome (publishOpts × String × Option Error) :=
  if o.UsePost then
    if o.pubnub.Config.CipherKey ≠ "" then
      match o.encryptProcessing u o.pubnub.Config.CipherKey with
      | .panic p => .panic p
      | .ret (o1, _, some errJsonMarshal) => .ret (o1, "", some errJsonMarshal)
      | .ret (o1, msg, none) => .ret (o1, msg, none)
    else if o.Serialize then
      match Marshal o.Message with
      | (_, some errEnc) => .ret (o, "", some errEnc)
      | (jsonEncBytes, none) => .ret (o, jsonEncBytes, none)
    else
      match o.Message.asString with
      | (serializedMsg, true) => .ret (o, serializedMsg, none)
      | (_, false) =>
        .ret (o, "", some (.buildRequest "buildBody: Message is not JSON serialized."))
  else .ret (o, "", none)

/-- The method `publishOpts.httpMethod`. -/
def publishOpts.httpMethod (o : publishOpts) : String :=
  if o.UsePost then "POST" else "GET"

/-- The options after a call, with the `UsePost` flag replaced. -/
def Outcome.withUsePost (post : Bool) :
    Outcome (publishOpts × String × Option Error) → Outcome (publishOpts × String × Option Error)
  | .ret (o, msg, err) => .ret ({ o with UsePost := post }, msg, err)
  | .panic p => .panic p

/-- The result of `encryptProcessing` in encrypt-everything mode: what
`SerializeEncryptAndSerialize` returns for the whole message, its error next to an
empty payload when it fails. -/
def publishOpts.encryptEverything (u : Utils) (o : publishOpts) (cipherKey : String) :
    Outcome (publishOpts × String × Option Error) :=
  match u.SerializeEncryptAndSerialize o.Message cipherKey o.Serialize with
  | (_, some err) => .ret (o, "", some err)
  | (msg, none) => .ret (o, msg, none)

/-! ## The query -/

/-- The type `url.Values`, a map from a key to a list of values, given by its
entries. -/
abbrev Values := List (String × List String)

/-- The method `Values.Set`: the key gets the single value `value`. -/
def Values.Set (q : Values) (key value : String) : Values :=
  mapAssign q key [value]

/-- The functions of the client called by `buildQuery`. They lie outside the shown
sources and are parameters: what is proved of `buildQuery` holds whatever they
compute. -/
structure Client where
  /-- The function `defaultQuery(uuid, telemetryManager)` -/
  defaultQuery : String → TelemetryManager → Values
  /-- The method `PubNub.getPublishSequence`: the value drawn from the sequence and
  the client after the call -/
  getPublishSequence : PubNub → Int × PubNub

/-- The statements of `buildQuery` that follow the block on `Meta`, from the query
`q` built so far. -/
def publishOpts.finishQuery (c : Client) (o : publishOpts) (q : Values) :
    publishOpts × Values × Option Error :=
  let q1 :=
    if o.setShouldStore then
      if o.ShouldStore then Values.Set q "store" "1" else Values.Set q "store" "0"
    else q
  let q2 :=
    if o.setTtl then
      if o.Ttl > 0 then Values.Set q1 "ttl" (Itoa o.Ttl) else q1
    else q1
  let seqn := Itoa (c.getPublishSequence o.pubnub).1
  let q3 := Values.Set q2 "seqn" seqn
  let q4 := if o.DoNotReplicate = true then Values.Set q3 "norep" "true" else q3
  ({ o with pubnub := (c.getPublishSequence o.pubnub).2 }, q4, none)

/-- The method `publishOpts.buildQuery`; the result holds the options as they stand
after the call, with the client whose publish sequence has advanced. -/
def publishOpts.buildQuery (c : Client) (u : Utils) (o : publishOpts) :
    publishOpts × Values × Option Error :=
  if o.Meta.isNil then
    o.finishQuery c (c.defaultQuery o.pubnub.Config.Uuid o.pubnub.telemetryManager)
  else
    match u.ValueAsString o.Meta with
    | (_, some err) => (o, [], some err)
    | (metaText, none) =>
      o.finishQuery c
        (Values.Set (c.defaultQuery o.pubnub.Config.Uuid o.pubnub.telemetryManager)
          "meta" metaText)

/-! ## The builder -/

/-- The function `newPublishBuilder`. -/
def newPublishBuilder (pubnub : PubNub) : publishBuilder :=
  { opts :=
      { pubnub := pubnub, Ttl := 0, Channel := "", Message := .nil, Meta := .nil,
        UsePost := false, ShouldStore := false, Serialize := true,
        DoNotReplicate := false, Transport := none, ctx := none, setTtl := false,
        setShouldStore := false } }

/-- The function `newPublishBuilderWithContext`. -/
def newPublishBuilderWithContext (pubnub : PubNub) (context : Option Context) :
    publishBuilder :=
  { opts :=
      { pubnub := pubnub, Ttl := 0, Channel := "", Message := .nil, Meta := .nil,
        UsePost := false, ShouldStore := false, Serialize := false,
        DoNotReplicate := false, Transport := none, ctx := context, setTtl := false,
        setShouldStore := false } }

/-- The method `publishBuilder.Ttl`. -/
def publishBuilder.Ttl (b : publishBuilder) (ttl : Int) : publishBuilder :=
  { opts := { b.opts with Ttl := ttl, setTtl := true } }

/-- The method `publishBuilder.Channel`. -/
def publishBuilder.Channel (b : publishBuilder) (ch : String) : publishBuilder :=
  { opts := { b.opts with Channel := ch } }

/-- The method `publishBuilder.Message`. -/
def publishBuilder.Message (b : publishBuilder) (msg : GoValue) : publishBuilder :=
  { opts := { b.opts with Message := msg } }

/-- The method `publishBuilder.Meta`. -/
def publishBuilder.Meta (b : publishBuilder) (metadata : GoValue) : publishBuilder :=
  { opts := { b.opts with Meta := metadata } }

/-- The method `publishBuilder.UsePost`. -/
def publishBuilder.UsePost (b : publishBuilder) (post : Bool) : publishBuilder :=
  { opts := { b.opts with UsePost := post } }

/-- The method `publishBuilder.ShouldStore`. -/
def publishBuilder.ShouldStore (b : publishBuilder) (store : Bool) : publishBuilder :=
  { opts :=
      { b.opts with
        ShouldStore := store, setShouldStore := if store then true else false } }

/-- The method `publishBuilder.Serialize`. -/
def publishBuilder.Serialize (b : publishBuilder) (serialize : Bool) : publishBuilder :=
  { opts := { b.opts with Serialize := serialize } }

/-- The method `publishBuilder.DoNotReplicate`. -/
def publishBuilder.DoNotReplicate (b : publishBuilder) (repl : Bool) : publishBuilder :=
  { opts := { b.opts with DoNotReplicate := repl } }

/-- The method `publishBuilder.Transport`. -/
def publishBuilder.Transport (b : publishBuilder) (tr : Option RoundTripper) :
    publishBuilder :=
  { opts := { b.opts with Transport := tr } }

/-- A call of a setter of the builder, with its argument. -/
inductive SetterCall where
  | Ttl (ttl : Int)
  | Channel (ch : String)
  | Message (msg : GoValue)
  | Meta (metadata : GoValue)
  | UsePost (post : Bool)
  | ShouldStore (store : Bool)
  | Serialize (serialize : Bool)
  | DoNotReplicate (repl : Bool)
  | Transport (tr : Option RoundTripper)

/-- The builder after a setter call. -/
def SetterCall.run (call : SetterCall) (b : publishBuilder) : publishBuilder :=
  match call with
  | .Ttl ttl => b.Ttl ttl
  | .Channel ch => b.Channel ch
  | .Message msg => b.Message msg
  | .Meta metadata => b.Meta metadata
  | .UsePost post => b.UsePost post
  | .ShouldStore store => b.ShouldStore store
  | .Serialize serialize => b.Serialize serialize
  | .DoNotReplicate repl => b.DoNotReplicate repl
  | .Transport tr => b.Transport tr

/-- The builder after a sequence of setter calls, made from left to right. -/
def runCalls (b : publishBuilder) : List SetterCall → publishBuilder
  | [] => b
  | call :: rest => runCalls (call.run b) rest

/-- Whether a setter call is a call of `Ttl`. -/
def SetterCall.isTtl : SetterCall → Bool
  | .Ttl _ => true
  | _ => false

/-- Whether a setter call is a call of `Serialize`. -/
def SetterCall.isSerialize : SetterCall → Bool
  | .Serialize _ => true
  | _ => false

/-! ## Decoding a payload -/

/-- The function `json.Unmarshal(data, &v)` for a nil `v` of type `interface{}`: the
value stored in `v` and the error returned. A syntax error leaves `v` nil. -/
def UnmarshalInterface (data : String) : JSONValue × Option Error :=
  match parseValue (2 * (skipSpace data.toList).length + 1) (skipSpace data.toList) with
  | .ok (v, e) rest => if skipSpace rest = [] then (v, e) else (.null, some .jsonSyntax)
  | .syntaxError => (.null, some .jsonSyntax)
  | .outOfFuel => (.null, some .jsonSyntax)

/-- Whether the keys of a list of entries are pairwise distinct. -/
def distinctKeys {α : Type} : List (String × α) → Bool
  | [] => true
  | (k, _) :: rest => !(rest.any fun e => e.1 == k) && distinctKeys rest

mutual
/-- Whether a value is made of the kinds of values that decoding into an
`interface{}` produces, numbers apart: nil, booleans, strings, `[]interface{}` and
`map[string]interface{}` (with pairwise distinct keys, as in any map). -/
def GoValue.isJSONValue : GoValue → Bool
  | .nil => true
  | .bool _ => true
  | .int _ => false
  | .str _ => true
  | .slice xs => isJSONElements xs
  | .nilSlice => false
  | .map entries => distinctKeys entries && isJSONEntries entries
  | .nilMap => false
  | .struct _ => false
  | .chan => false
/-- Whether the elements of a slice are such values. -/
def isJSONElements : List GoValue → Bool
  | [] => true
  | x :: xs => x.isJSONValue && isJSONElements xs
/-- Whether the values of the entries of a map are such values. -/
def isJSONEntries : List (String × GoValue) → Bool
  | [] => true
  | (_, x) :: rest => x.isJSONValue && isJSONEntries rest
end

mutual
/-- Equality of a value handed to `Marshal` with a value stored by `Unmarshal`, as
`reflect.DeepEqual` decides it: the two have the same dynamic type and equal
contents. An `int` is never equal to a `float64`, nor a nil slice or map to the nil
interface, nor a struct to a map. -/
def deepEqual : GoValue → JSONValue → Bool
  | .nil, d => match d with
    | .null => true
    | _ => false
  | .bool a, d => match d with
    | .bool b => a == b
    | _ => false
  | .str s, d => match d with
    | .string t => s == t
    | _ => false
  | .slice xs, d => match d with
    | .array ys => deepEqualElements xs ys
    | _ => false
  | .map entries, d => match d with
    | .object decoded => entries.length == decoded.length && deepEqualEntries entries decoded
    | _ => false
  | .int _, _ => false
  | .nilSlice, _ => false
  | .nilMap, _ => false
  | .struct _, _ => false
  | .chan, _ => false
/-- Equality of two slices: same length and equal elements. -/
def deepEqualElements : List GoValue → List JSONValue → Bool
  | [], ys => ys.isEmpty
  | x :: xs, ys => match ys with
    | [] => false
    | y :: rest => deepEqual x y && deepEqualElements xs rest
/-- Each entry of the first map has an equal value under its key in the second. -/
def deepEqualEntries : List (String × GoValue) → List (String × JSONValue) → Bool
  | [], _ => true
  | (k, x) :: rest, decoded =>
    (match List.lookup k decoded with
      | some y => deepEqual x y
      | none => false) && deepEqualEntries rest decoded
end

/-- The number of low bits a `float64` cannot hold of a natural number: the least
`s` with `n / 2 ^ s < 2 ^ 53`, searched up to `fuel`. -/
def float64Shift : Nat → Nat → Nat
  | 0, _ => 0
  | fuel + 1, n => if n < 9007199254740992 then 0 else float64Shift fuel (n / 2) + 1

/-- The `float64` nearest to a natural number below `2 ^ 64`, ties going to the even
significand, as `strconv.ParseFloat` rounds: the number itself up to `2 ^ 53`. -/
def float64OfNat (n : Nat) : Nat :=
  let s := float64Shift 64 n
  let q := n / 2 ^ s
  let r := n % 2 ^ s
  if 2 ^ s < 2 * r ∨ (2 * r = 2 ^ s ∧ q % 2 = 1) then (q + 1) * 2 ^ s else q * 2 ^ s

/-- The `float64` nearest to an `int`, which is an integer. -/
def float64OfInt (i : Int) : Int :=
  if i < 0 then -(float64OfNat i.natAbs : Int) else (float64OfNat i.natAbs : Int)

/-- The value of the `float64` that `Unmarshal` stores for a number literal which is
the decimal text of an `int`; `none` for a literal of another form, whose value is
not modelled. -/
def integerLiteralValue (literal : String) : Option Int :=
  match Atoi literal with
  | (m, none) => some (float64OfInt m)
  | (_, some _) => none

mutual
/-- Equality of a value handed to `Marshal` with a value stored by `Unmarshal` up to
the type of numbers: as `reflect.DeepEqual`, except that an `int` equals the
`float64` of the same numeric value. A nil slice or map is not equal to the nil
interface, nor a struct to a map. -/
def equalValue : GoValue → JSONValue → Bool
  | .nil, d => match d with
    | .null => true
    | _ => false
  | .bool a, d => match d with
    | .bool b => a == b
    | _ => false
  | .int n, d => match d with
    | .number literal => integerLiteralValue literal == some n
    | _ => false
  | .str s, d => match d with
    | .string t => s == t
    | _ => false
  | .slice xs, d => match d with
    | .array ys => equalElements xs ys
    | _ => false
  | .map entries, d => match d with
    | .object decoded => entries.length == decoded.length && equalEntries entries decoded
    | _ => false
  | .nilSlice, _ => false
  | .nilMap, _ => false
  | .struct _, _ => false
  | .chan, _ => false
/-- Equality of two slices up to the type of numbers. -/
def equalElements : List GoValue → List JSONValue → Bool
  | [], ys => ys.isEmpty
  | x :: xs, ys => match ys with
    | [] => false
    | y :: rest => equalValue x y && equalElements xs rest
/-- Each entry of the first map has a value under its key in the second that is equal
to its own up to the type of numbers. -/
def equalEntries : List (String × GoValue) → List (String × JSONValue) → Bool
  | [], _ => true
  | (k, x) :: rest, decoded =>
    (match List.lookup k decoded with
      | some y => equalValue x y
      | none => false) && equalEntries rest decoded
end

mutual
/-- Whether a value is made of nil, booleans, `int`s of magnitude at most `2 ^ 53`,
strings, non-nil `[]interface{}` and non-nil `map[string]interface{}` (with pairwise
distinct keys, as in any map). -/
def GoValue.roundTrips : GoValue → Bool
  | .nil => true
  | .bool _ => true
  | .int n => decide (-9007199254740992 ≤ n ∧ n ≤ 9007199254740992)
  | .str _ => true
  | .slice xs => roundTripElements xs
  | .nilSlice => false
  | .map entries => distinctKeys entries && roundTripEntries entries
  | .nilMap => false
  | .struct _ => false
  | .chan => false
/-- Whether the elements of a slice are such values. -/
def roundTripElements : List GoValue → Bool
  | [] => true
  | x :: xs => x.roundTrips && roundTripElements xs
/-- Whether the values of the entries of a map are such values. -/
def roundTripEntries : List (String × GoValue) → Bool
  | [] => true
  | (_, x) :: rest => x.roundTrips && roundTripEntries rest
end

/-- The decimal digits of a natural number as `FormatInt` writes them: `0`, or a digit
from 1 to 9 followed by digits. -/
def canonicalDigits (ip : List Char) : Prop :=
  ip = ['0'] ∨ ∃ d ds, ip = d :: ds ∧ ('1' ≤ d ∧ d ≤ '9') ∧ ∀ c ∈ ds, '0' ≤ c ∧ c ≤ '9'

/-- The first characters of the JSON text of a value. -/
def valueStart (c : Char) : Bool :=
  c = '"' || c = '[' || c = '\x7b' || c = 'n' || c = 't' || c = 'f' || c = '-'
    || ('0' ≤ c && c ≤ '9')

/-- Whether the input that follows a value is what follows a value in a JSON text:
its end, a comma, or a closing bracket or brace. -/
def valueEnd : List Char → Bool
  | [] => true
  | c :: _ => c = ',' || c = ']' || c = '\x7d'

/-- The text `cs` is read as the value `d`: it starts as a value does, and in front of
any input `rest` that can follow a value the reader, with the fuel `2 * n + 1` for
the `n` characters of `cs` or more, stores `d`, saves no error and leaves `rest`. -/
def Decodes (cs : List Char) (d : JSONValue) : Prop :=
  (∃ c tail, cs = c :: tail ∧ valueStart c = true)
  ∧ ∀ rest fuel, valueEnd rest = true → 2 * cs.length + 1 ≤ fuel →
      parseValue fuel (cs ++ rest) = .ok (d, none) rest

/-! ## Changes to the options -/

/-- The one change `encryptProcessing` makes to the options: with
`DisablePNOtherProcessing` unset and a mapping message whose `pn_other` entry is a
string, that entry of the caller's mapping is overwritten with what
`SerializeAndEncrypt` made of it; `o1` are the options after the call. -/
def publishOpts.pnOtherOverwritten (u : Utils) (o o1 : publishOpts) (cipherKey : String) :
    Prop :=
  ∃ v p enc, o.pubnub.Config.DisablePNOtherProcessing = false
    ∧ o.Message = .map v
    ∧ mapIndex v "pn_other" = .str p
    ∧ u.SerializeAndEncrypt (.str p) cipherKey o.Serialize = (enc, none)
    ∧ o1 = { o with Message := .map (mapAssign v "pn_other" (.str enc)) }

/-! ## Sample values

Concrete values on which the theorems below are exercised. The sample instance of
`Utils` is arbitrary: the theorems hold for every instance. -/

/-- A sample percent-encoding: letters, digits, `-`, `_`, `.` and `~` are kept, any
other character of code `n` below 256 is written `%XX`. -/
def samplePercent (c : Char) : List Char :=
  if c.isAlphanum ∨ c = '-' ∨ c = '_' ∨ c = '.' ∨ c = '~' then [c]
  else ['%', (hexChar (c.toNat / 16 % 16)).toUpper, (hexChar (c.toNat % 16)).toUpper]

/-- A sample stand-in for a cipher: the text reversed, behind a tag made of the key. -/
def sampleEncrypt (cipherKey text : String) : String :=
  String.mk (cipherKey.toList ++ '$' :: text.toList.reverse)

/-- A sample instance of `Utils`. -/
def sampleUtils : Utils where
  UrlEncode s := String.mk (s.toList.flatMap samplePercent)
  SerializeAndEncrypt msg cipherKey serialize :=
    if serialize then
      match Marshal msg with
      | (_, some e) => ("", some e)
      | (j, none) => (sampleEncrypt cipherKey j, none)
    else
      match msg.asString with
      | (s, true) => (sampleEncrypt cipherKey s, none)
      | (_, false) => ("", some (.buildRequest "Message is not JSON serialized."))
  SerializeEncryptAndSerialize msg cipherKey serialize :=
    if serialize then
      match Marshal msg with
      | (_, some e) => ("", some e)
      | (j, none) => ((Marshal (.str (sampleEncrypt cipherKey j))).1, none)
    else
      match msg.asString with
      | (s, true) => ((Marshal (.str (sampleEncrypt cipherKey s))).1, none)
      | (_, false) => ("", some (.buildRequest "Message is not JSON serialized."))
  ValueAsString v := Marshal v

/-- A sample client configuration, without cipher key. -/
def sampleConfig : Config where
  PublishKey := "pub-key"
  SubscribeKey := "sub-key"
  CipherKey := ""
  DisablePNOtherProcessing := false
  Uuid := "client-1"
  NonSubscribeRequestTimeout := 10
  ConnectTimeout := 5

/-- Sample publish options: the options of a fresh builder with a channel and a
string message. -/
def sampleOpts : publishOpts where
  pubnub := { Config := sampleConfig, telemetryManager := 0, publishSequence := 0 }
  Ttl := 0
  Channel := "my channel"
  Message := .str "hi!"
  Meta := .nil
  UsePost := false
  ShouldStore := false
  Serialize := true
  DoNotReplicate := false
  Transport := none
  ctx := none
  setTtl := false
  setShouldStore := false

/-- Sample publish options of a client with the cipher key `enigma`, for the message
`{"pn_other": "secret", "route": "A"}`. -/
def sampleCipherOpts : publishOpts :=
  { sampleOpts with
    pubnub := { sampleOpts.pubnub with Config := { sampleConfig with CipherKey := "enigma" } },
    Message := .map [("pn_other", .str "secret"), ("route", .str "A")] }

/-- Sample publish options of a client with the cipher key `enigma`, for the message
`{"pn_other": 5, "route": "A"}`, whose `pn_other` entry is a number. -/
def sampleNumberOpts : publishOpts :=
  { sampleCipherOpts with Message := .map [("pn_other", .int 5), ("route", .str "A")] }

/-- A sample instance of `Client`: the default query holds the client's identifier,
and the publish sequence counts from 1 to 65535 and starts again at 1. -/
def sampleClient : Client where
  defaultQuery uuid _ := [("pnsdk", ["PubNub-Go/4.0.0"]), ("uuid", [uuid])]
  getPublishSequence pn :=
    (if pn.publishSequence ≥ 65535 then 1 else pn.publishSequence + 1,
     { pn with
       publishSequence := if pn.publishSequence ≥ 65535 then 1 else pn.publishSequence + 1 })

/-- Sample publish options without cipher key whose message is an `int` above
`2 ^ 53`. -/
def sampleBigIntOpts : publishOpts :=
  { sampleOpts with Message := .int 9007199254740993 }

/-- Sample publish options without cipher key whose message is a mapping that holds
a string that looks like JSON, numbers and a slice. -/
def sampleNestedOpts : publishOpts :=
  { sampleOpts with
    Message := .map [("name", .str "\x7b\"name\": \"Alex\"\x7d"), ("age", .int 123),
      ("tags", .slice [.nil, .bool true, .int (-5)])] }

/-- Sample publish options without cipher key whose message is the number 5. -/
def sampleIntOpts : publishOpts :=
  { sampleOpts with Message := .int 5 }

/-- A sample sequence of setter calls: a channel and a mapping message, the
`Serialize` option left at its default. -/
def sampleCalls : List SetterCall :=
  [.Channel "my channel", .Message (.map [("route", .str "A")])]

/-! ## Theorems -/

theorem GoValue.isNil_iff (v : GoValue) : v.isNil = true ↔ v = .nil := by
  cases v <;> simp [GoValue.isNil]

/-- C1: `validate` reports the first failing check in the order publish key,
subscribe key, channel, message, and returns nil exactly when all four pass. -/
theorem validate_first_failing_check (o : publishOpts) :
    (o.config.PublishKey = "" →
        o.validate = some (.validation .StrMissingPubKey))
    ∧ (o.config.PublishKey ≠ "" → o.config.SubscribeKey = "" →
        o.validate = some (.validation .StrMissingSubKey))
    ∧ (o.config.PublishKey ≠ "" → o.config.SubscribeKey ≠ "" → o.Channel = "" →
        o.validate = some (.validation .StrMissingChannel))
    ∧ (o.config.PublishKey ≠ "" → o.config.SubscribeKey ≠ "" → o.Channel ≠ "" →
        o.Message = .nil →
        o.validate = some (.validation .StrMissingMessage))
    ∧ (o.validate = none ↔
        o.config.PublishKey ≠ "" ∧ o.config.SubscribeKey ≠ "" ∧ o.Channel ≠ ""
          ∧ o.Message ≠ .nil) := by
  have hnil := GoValue.isNil_iff o.Message
  refine ⟨?_, ?_, ?_, ?_, ?_⟩
  · intro h1
    simp [publishOpts.validate, newValidationError, h1]
  · intro h1 h2
    simp [publishOpts.validate, newValidationError, h1, h2]
  · intro h1 h2 h3
    simp [publishOpts.validate, newValidationError, h1, h2, h3]
  · intro h1 h2 h3 h4
    simp [publishOpts.validate, newValidationError, h1, h2, h3, h4, GoValue.isNil]
  · unfold publishOpts.validate
    by_cases h1 : o.config.PublishKey = ""
    · simp [h1]
    · by_cases h2 : o.config.SubscribeKey = ""
      · simp [h1, h2]
      · by_cases h3 : o.Channel = ""
        · simp [h1, h2, h3]
        · by_cases h4 : o.Message.isNil = true
          · simp [h1, h2, h3, h4]
            exact hnil.mp h4
          · have h5 : o.Message ≠ .nil := fun h => h4 (hnil.mpr h)
            simp [h1, h2, h3, h4, h5]


/-- Counterexample to a nil message always being reported as the missing message:
with a nil message and an empty publish key, `validate` reports the publish key. -/
theorem validate_nil_message_counterexample :
    ({ sampleOpts with
        pubnub := { sampleOpts.pubnub with Config := { sampleConfig with PublishKey := "" } },
        Message := .nil } : publishOpts).Message = .nil
    ∧ ({ sampleOpts with
        pubnub := { sampleOpts.pubnub with Config := { sampleConfig with PublishKey := "" } },
        Message := .nil } : publishOpts).validate
      ≠ some (.validation .StrMissingMessage) :=
  ⟨rfl, by decide⟩

/-- C2, amended: a nil message always fails validation, with a validation error and
never with nil; the error is `StrMissingMessage` when the publish key, the subscribe
key and the channel are present, and the error of an earlier check otherwise. -/
theorem validate_nil_message (o : publishOpts) (h : o.Message = .nil) :
    (∃ m, o.validate = some (.validation m))
    ∧ o.validate ≠ none
    ∧ (o.config.PublishKey ≠ "" → o.config.SubscribeKey ≠ "" → o.Channel ≠ "" →
        o.validate = some (.validation .StrMissingMessage))
    ∧ (o.validate ≠ some (.validation .StrMissingMessage) →
        o.config.PublishKey = "" ∨ o.config.SubscribeKey = "" ∨ o.Channel = "") := by
  unfold publishOpts.validate newValidationError
  rw [h]
  by_cases h1 : o.config.PublishKey = "" <;> by_cases h2 : o.config.SubscribeKey = ""
    <;> by_cases h3 : o.Channel = "" <;> simp [h1, h2, h3, GoValue.isNil]

theorem validate_nil_message_witness :
    (∃ m, ({ sampleOpts with Message := .nil } : publishOpts).validate
        = some (.validation m))
    ∧ ({ sampleOpts with Message := .nil } : publishOpts).validate ≠ none
    ∧ (sampleConfig.PublishKey ≠ "" → sampleConfig.SubscribeKey ≠ "" →
        sampleOpts.Channel ≠ "" →
        ({ sampleOpts with Message := .nil } : publishOpts).validate
          = some (.validation .StrMissingMessage))
    ∧ (({ sampleOpts with Message := .nil } : publishOpts).validate
          ≠ some (.validation .StrMissingMessage) →
        sampleConfig.PublishKey = "" ∨ sampleConfig.SubscribeKey = ""
          ∨ sampleOpts.Channel = "") :=
  validate_nil_message { sampleOpts with Message := .nil } rfl

theorem getPath_eq (u : Utils) (o : publishOpts) (msg : String) :
    o.getPath u msg =
      "/publish/" ++ o.pubnub.Config.PublishKey ++ "/" ++ o.pubnub.Config.SubscribeKey
        ++ "/0/" ++ u.UrlEncode o.Channel ++ "/0/" ++ u.UrlEncode msg := by
  apply String.ext
  simp [publishOpts.getPath, Sprintf, PUBLISH_GET_PATH, sprintfAux, String.data_append]

theorem postPath_eq (a b c : String) :
    Sprintf PUBLISH_POST_PATH [a, b, c, "0"] =
      "/publish/" ++ a ++ "/" ++ b ++ "/0/" ++ c ++ "/0" := by
  apply String.ext
  simp [Sprintf, PUBLISH_POST_PATH, sprintfAux, String.data_append]

/-- C3: without POST and without cipher key, with `Serialize` set and a message whose
JSON text is `j`, `buildPath` returns, with a nil error, the path
`/publish/<pubKey>/<subKey>/0/<UrlEncode(channel)>/0/<UrlEncode(j)>`. -/
theorem buildPath_get_serialized (u : Utils) (o : publishOpts) (j : String)
    (hpost : o.UsePost = false) (hkey : o.pubnub.Config.CipherKey = "")
    (hser : o.Serialize = true) (hjson : Marshal o.Message = (j, none)) :
    o.buildPath u =
      .ret (o,
        "/publish/" ++ o.pubnub.Config.PublishKey ++ "/" ++ o.pubnub.Config.SubscribeKey
          ++ "/0/" ++ u.UrlEncode o.Channel ++ "/0/" ++ u.UrlEncode j,
        none) := by
  simp [publishOpts.buildPath, hpost, hkey, hser, hjson, getPath_eq]

theorem buildPath_get_serialized_witness :
    sampleOpts.buildPath sampleUtils =
      .ret (sampleOpts, "/publish/pub-key/sub-key/0/my%20channel/0/%22hi%21%22", none) :=
  buildPath_get_serialized sampleUtils sampleOpts "\"hi!\"" rfl rfl rfl (by decide)

/-- C4: with `UsePost` set, `buildPath` returns, with a nil error, the path
`/publish/<pubKey>/<subKey>/0/<UrlEncode(channel)>/0`, without payload segment; the
result is the same whatever the message, the cipher key and the `Serialize` flag. -/
theorem buildPath_post (u : Utils) (o : publishOpts) (hpost : o.UsePost = true) :
    o.buildPath u =
      .ret (o,
        "/publish/" ++ o.pubnub.Config.PublishKey ++ "/" ++ o.pubnub.Config.SubscribeKey
          ++ "/0/" ++ u.UrlEncode o.Channel ++ "/0",
        none)
    ∧ ∀ (message : GoValue) (cipherKey : String) (serialize : Bool),
        ({ o with
            Message := message, Serialize := serialize,
            pubnub := { o.pubnub with Config := { o.pubnub.Config with CipherKey := cipherKey } } }
          : publishOpts).buildPath u
          = .ret ({ o with
                Message := message, Serialize := serialize,
                pubnub := { o.pubnub with Config := { o.pubnub.Config with CipherKey := cipherKey } } },
              "/publish/" ++ o.pubnub.Config.PublishKey ++ "/"
                ++ o.pubnub.Config.SubscribeKey ++ "/0/" ++ u.UrlEncode o.Channel ++ "/0",
              none) := by
  constructor
  · simp [publishOpts.buildPath, hpost, postPath_eq]
  · intro message cipherKey serialize
    simp [publishOpts.buildPath, hpost, postPath_eq]

theorem buildPath_post_witness :
    ({ sampleOpts with UsePost := true } : publishOpts).buildPath sampleUtils
      = .ret ({ sampleOpts with UsePost := true },
          "/publish/pub-key/sub-key/0/my%20channel/0", none) :=
  (buildPath_post sampleUtils { sampleOpts with UsePost := true } rfl).1

theorem encryptProcessing_usePost (u : Utils) (o : publishOpts) (cipherKey : String)
    (post : Bool) :
    ({ o with UsePost := post } : publishOpts).encryptProcessing u cipherKey
      = (o.encryptProcessing u cipherKey).withUsePost post := by
  unfold publishOpts.encryptProcessing
  simp only []
  split
  · split <;> simp_all [Outcome.withUsePost]
  · cases hm : o.Message with
    | map v =>
      simp only []
      split
      · split
        · simp_all [Outcome.withUsePost]
        · split <;> simp_all [Outcome.withUsePost]
      · split <;> simp_all [Outcome.withUsePost]
    | nil => simp [Outcome.withUsePost]
    | bool b => simp only []; split <;> simp_all [Outcome.withUsePost]
    | int n => simp only []; split <;> simp_all [Outcome.withUsePost]
    | str s => simp only []; split <;> simp_all [Outcome.withUsePost]
    | slice xs => simp only []; split <;> simp_all [Outcome.withUsePost]
    | nilSlice => simp only []; split <;> simp_all [Outcome.withUsePost]
    | nilMap => simp only []; split <;> simp_all [Outcome.withUsePost]
    | struct fs => simp only []; split <;> simp_all [Outcome.withUsePost]
    | chan => simp only []; split <;> simp_all [Outcome.withUsePost]

theorem encryptProcessing_frame (u : Utils) (o : publishOpts) (cipherKey : String)
    (o1 : publishOpts) (msg : String) (err : Option Error)
    (h : o.encryptProcessing u cipherKey = .ret (o1, msg, err)) :
    o1.pubnub = o.pubnub ∧ o1.Channel = o.Channel ∧ o1.Serialize = o.Serialize
      ∧ o1.UsePost = o.UsePost := by
  unfold publishOpts.encryptProcessing at h
  repeat' split at h
  all_goals first
    | (cases h; exact ⟨rfl, rfl, rfl, rfl⟩)
    | cases h

theorem asString_of_not_str (v : GoValue) (h : ∀ s, v ≠ .str s) : v.asString = ("", false) := by
  cases v <;> simp_all [GoValue.asString]

/-- C5: a POST publish carries the payload of the GET publish. If `buildBody` with
`UsePost` set succeeds with body `b`, then `buildPath` with `UsePost` unset succeeds
and its path ends in `/0/<UrlEncode(b)>`; if `buildPath` with `UsePost` unset
succeeds, then `buildBody` with `UsePost` set succeeds with a body `b` such that the
path ends in `/0/<UrlEncode(b)>`; and with `UsePost` unset the method is GET and
`buildBody` returns an empty body and a nil error. -/
theorem buildBody_post_carries_get_payload (u : Utils) (o : publishOpts) :
    (∀ o1 b,
        ({ o with UsePost := true } : publishOpts).buildBody u = .ret (o1, b, none) →
        ({ o with UsePost := false } : publishOpts).buildPath u
          = .ret ({ o1 with UsePost := false },
              "/publish/" ++ o.pubnub.Config.PublishKey ++ "/"
                ++ o.pubnub.Config.SubscribeKey ++ "/0/" ++ u.UrlEncode o.Channel ++ "/0/"
                ++ u.UrlEncode b,
              none))
    ∧ (∀ o1 path,
        ({ o with UsePost := false } : publishOpts).buildPath u = .ret (o1, path, none) →
        ∃ b,
          ({ o with UsePost := true } : publishOpts).buildBody u
            = .ret ({ o1 with UsePost := true }, b, none)
          ∧ path =
              "/publish/" ++ o.pubnub.Config.PublishKey ++ "/"
                ++ o.pubnub.Config.SubscribeKey ++ "/0/" ++ u.UrlEncode o.Channel ++ "/0/"
                ++ u.UrlEncode b)
    ∧ ({ o with UsePost := false } : publishOpts).httpMethod = "GET"
    ∧ ({ o with UsePost := false } : publishOpts).buildBody u
        = .ret ({ o with UsePost := false }, "", none) := by
  refine ⟨?_, ?_, ?_, ?_⟩
  · intro o1 b h
    by_cases hk : o.pubnub.Config.CipherKey = ""
    · cases hser : o.Serialize
      · rcases hm : o.Message.asString with ⟨s, _ | _⟩
        · simp [publishOpts.buildBody, hk, hser, hm] at h
        · simp [publishOpts.buildBody, hk, hser, hm] at h
          obtain ⟨h1, h2⟩ := h
          subst h1 h2
          simp [publishOpts.buildPath, hk, hser, hm, getPath_eq]
      · rcases hj : Marshal o.Message with ⟨j, _ | e⟩
        · simp [publishOpts.buildBody, hk, hser, hj] at h
          obtain ⟨h1, h2⟩ := h
          subst h1 h2
          simp [publishOpts.buildPath, hk, hser, hj, getPath_eq]
        · simp [publishOpts.buildBody, hk, hser, hj] at h
    · cases hr : o.encryptProcessing u o.pubnub.Config.CipherKey with
      | panic p =>
        simp [publishOpts.buildBody, encryptProcessing_usePost, hk, hr,
          Outcome.withUsePost] at h
      | ret r =>
        obtain ⟨o2, m, e⟩ := r
        obtain ⟨f1, f2, -, -⟩ := encryptProcessing_frame u o _ o2 m e hr
        cases e with
        | some e =>
          simp [publishOpts.buildBody, encryptProcessing_usePost, hk, hr,
            Outcome.withUsePost] at h
        | none =>
          simp [publishOpts.buildBody, encryptProcessing_usePost, hk, hr,
            Outcome.withUsePost] at h
          obtain ⟨h1, h2⟩ := h
          subst h1 h2
          simp [publishOpts.buildPath, encryptProcessing_usePost, hk, hr,
            Outcome.withUsePost, getPath_eq, f1, f2]
  · intro o1 path h
    by_cases hk : o.pubnub.Config.CipherKey = ""
    · cases hser : o.Serialize
      · rcases hm : o.Message.asString with ⟨s, _ | _⟩
        · simp [publishOpts.buildPath, hk, hser, hm] at h
        · simp [publishOpts.buildPath, hk, hser, hm] at h
          obtain ⟨h1, h2⟩ := h
          subst h1 h2
          exact ⟨s, by simp [publishOpts.buildBody, hk, hser, hm], by simp [getPath_eq]⟩
      · rcases hj : Marshal o.Message with ⟨j, _ | e⟩
        · simp [publishOpts.buildPath, hk, hser, hj] at h
          obtain ⟨h1, h2⟩ := h
          subst h1 h2
          exact ⟨j, by simp [publishOpts.buildBody, hk, hser, hj], by simp [getPath_eq]⟩
        · simp [publishOpts.buildPath, hk, hser, hj] at h
    · cases hr : o.encryptProcessing u o.pubnub.Config.CipherKey with
      | panic p =>
        simp [publishOpts.buildPath, encryptProcessing_usePost, hk, hr,
          Outcome.withUsePost] at h
      | ret r =>
        obtain ⟨o2, m, e⟩ := r
        obtain ⟨f1, f2, -, -⟩ := encryptProcessing_frame u o _ o2 m e hr
        cases e with
        | some e =>
          simp [publishOpts.buildPath, encryptProcessing_usePost, hk, hr,
            Outcome.withUsePost] at h
        | none =>
          simp [publishOpts.buildPath, encryptProcessing_usePost, hk, hr,
            Outcome.withUsePost] at h
          obtain ⟨h1, h2⟩ := h
          subst h1 h2
          exact ⟨m, by simp [publishOpts.buildBody, encryptProcessing_usePost, hk, hr,
            Outcome.withUsePost], by simp [getPath_eq, f1, f2]⟩
  · simp [publishOpts.httpMethod]
  · simp [publishOpts.buildBody]

/-- C6: without cipher key and with `Serialize` unset, a string message is the
payload, unmodified (the GET path ends in `/0/<UrlEncode(s)>`, the POST body is `s`),
and a message that is not a string makes `buildPath` and `buildBody` fail with a
build-request error saying that the message is not JSON serialized, next to an empty
path and an empty body. -/
theorem build_without_serialization (u : Utils) (o : publishOpts)
    (hkey : o.pubnub.Config.CipherKey = "") (hser : o.Serialize = false) :
    (∀ s, o.Message = .str s →
        ({ o with UsePost := false } : publishOpts).buildPath u
          = .ret ({ o with UsePost := false },
              "/publish/" ++ o.pubnub.Config.PublishKey ++ "/"
                ++ o.pubnub.Config.SubscribeKey ++ "/0/" ++ u.UrlEncode o.Channel ++ "/0/"
                ++ u.UrlEncode s,
              none)
        ∧ ({ o with UsePost := true } : publishOpts).buildBody u
          = .ret ({ o with UsePost := true }, s, none))
    ∧ ((∀ s, o.Message ≠ .str s) →
        ({ o with UsePost := false } : publishOpts).buildPath u
          = .ret ({ o with UsePost := false }, "",
              some (.buildRequest "buildpath: Message is not JSON serialized."))
        ∧ ({ o with UsePost := true } : publishOpts).buildBody u
          = .ret ({ o with UsePost := true }, "",
              some (.buildRequest "buildBody: Message is not JSON serialized."))) := by
  constructor
  · intro s hs
    simp [publishOpts.buildPath, publishOpts.buildBody, hkey, hser, hs, GoValue.asString,
      getPath_eq]
  · intro hs
    have h := asString_of_not_str o.Message hs
    simp [publishOpts.buildPath, publishOpts.buildBody, hkey, hser, h]

theorem build_without_serialization_witness :
    (({ sampleOpts with Serialize := false, UsePost := false } : publishOpts).buildPath
          sampleUtils
        = .ret ({ sampleOpts with Serialize := false, UsePost := false },
            "/publish/pub-key/sub-key/0/my%20channel/0/hi%21", none)
      ∧ ({ sampleOpts with Serialize := false, UsePost := true } : publishOpts).buildBody
          sampleUtils
        = .ret ({ sampleOpts with Serialize := false, UsePost := true }, "hi!", none))
    ∧ (({ sampleOpts with Serialize := false, Message := .int 5, UsePost := false }
          : publishOpts).buildPath sampleUtils
        = .ret ({ sampleOpts with Serialize := false, Message := .int 5, UsePost := false },
            "", some (.buildRequest "buildpath: Message is not JSON serialized."))
      ∧ ({ sampleOpts with Serialize := false, Message := .int 5, UsePost := true }
          : publishOpts).buildBody sampleUtils
        = .ret ({ sampleOpts with Serialize := false, Message := .int 5, UsePost := true },
            "", some (.buildRequest "buildBody: Message is not JSON serialized."))) :=
  ⟨(build_without_serialization sampleUtils { sampleOpts with Serialize := false }
      rfl rfl).1 "hi!" rfl,
   (build_without_serialization sampleUtils
      { sampleOpts with Serialize := false, Message := .int 5 } rfl rfl).2
      (fun s h => by cases h)⟩

theorem digitChar_spec (d : Nat) (h : d < 10) :
    ('0' ≤ digitChar d ∧ digitChar d ≤ '9') ∧ (digitChar d).toNat - 48 = d
      ∧ digitChar d ≠ '+' ∧ digitChar d ≠ '-' := by
  interval_cases d <;> decide

theorem formatBits_digits (fuel u : Nat) (acc : List Char)
    (hacc : ∀ c ∈ acc, '0' ≤ c ∧ c ≤ '9') :
    ∀ c ∈ formatBits fuel u acc, '0' ≤ c ∧ c ≤ '9' := by
  induction fuel generalizing u acc with
  | zero => simpa [formatBits] using hacc
  | succ fuel ih =>
    unfold formatBits
    split
    · rename_i hu
      intro c hc
      rcases List.mem_cons.mp hc with h | h
      · rw [h]; exact (digitChar_spec u hu).1
      · exact hacc c h
    · apply ih
      intro c hc
      rcases List.mem_cons.mp hc with h | h
      · rw [h]; exact (digitChar_spec (u % 10) (Nat.mod_lt _ (by norm_num))).1
      · exact hacc c h

theorem formatBits_value (fuel u : Nat) (acc : List Char) (hu : u < 10 ^ fuel) :
    digitsValue (formatBits fuel u acc) 0 = digitsValue acc u := by
  induction fuel generalizing u acc with
  | zero =>
    have : u = 0 := by simpa using hu
    simp [formatBits, this]
  | succ fuel ih =>
    unfold formatBits
    split
    · rename_i h10
      simp [digitsValue, (digitChar_spec u h10).2.1]
    · have hdiv : u / 10 < 10 ^ fuel := by
        rw [Nat.div_lt_iff_lt_mul (by norm_num)]
        rw [pow_succ] at hu
        exact hu
      rw [ih (u / 10) _ hdiv]
      simp only [digitsValue]
      rw [(digitChar_spec (u % 10) (Nat.mod_lt _ (by norm_num))).2.1]
      congr 1
      omega

theorem formatBits_ne_nil_of_acc (fuel u : Nat) (acc : List Char) (hacc : acc ≠ []) :
    formatBits fuel u acc ≠ [] := by
  induction fuel generalizing u acc with
  | zero => simpa [formatBits] using hacc
  | succ fuel ih =>
    unfold formatBits
    split
    · simp
    · exact ih _ _ (by simp)

theorem formatBits_ne_nil (fuel u : Nat) : formatBits (fuel + 1) u [] ≠ [] := by
  unfold formatBits
  split
  · simp
  · exact formatBits_ne_nil_of_acc _ _ _ (by simp)

theorem le_digitsValue (ds : List Char) (n : Nat) : n ≤ digitsValue ds n := by
  induction ds generalizing n with
  | nil => simp [digitsValue]
  | cons c cs ih =>
    simp only [digitsValue]
    exact le_trans (by omega) (ih _)

theorem parseUintLoop_digits (ds : List Char) (n : Nat)
    (hds : ∀ c ∈ ds, '0' ≤ c ∧ c ≤ '9') (hv : digitsValue ds n < 2 ^ 64) :
    parseUintLoop ds n = some (digitsValue ds n, false) := by
  induction ds generalizing n with
  | nil => simp [parseUintLoop, digitsValue]
  | cons c cs ih =>
    have hc := hds c (by simp)
    have hle := le_digitsValue cs (n * 10 + (c.toNat - 48))
    simp only [digitsValue] at hv ⊢
    unfold parseUintLoop
    simp only [hc, and_self, if_true]
    have h1 : ¬ (n ≥ (2 ^ 64 - 1) / 10 + 1) := by omega
    have h2 : ¬ (n * 10 + (c.toNat - 48) > 2 ^ 64 - 1) := by omega
    simp only [h1, h2, if_false]
    exact ih _ (fun c hc => hds c (by simp [hc])) hv

/-- Reading back: `Atoi` returns what `Itoa` was given, for every value of a 64-bit
`int`. -/
theorem Atoi_Itoa (n : Int) (hlo : -(2 ^ 63) ≤ n) (hhi : n < 2 ^ 63) :
    Atoi (Itoa n) = (n, none) := by
  have hfuel : n.natAbs < 10 ^ 65 := by
    have : n.natAbs ≤ 2 ^ 63 := by omega
    exact lt_of_le_of_lt this (by norm_num)
  have hdig := formatBits_digits 65 n.natAbs [] (by simp)
  have hval : digitsValue (formatBits 65 n.natAbs []) 0 = n.natAbs := by
    rw [formatBits_value 65 n.natAbs [] hfuel]; simp [digitsValue]
  have hne := formatBits_ne_nil 64 n.natAbs
  have hparse := parseUintLoop_digits (formatBits 65 n.natAbs []) 0 hdig (by rw [hval]; omega)
  rw [hval] at hparse
  by_cases hneg : n < 0
  · have hun : ¬ (n.natAbs > 2 ^ (intSize - 1)) := by simp only [intSize]; omega
    have hback : -(n.natAbs : Int) = n := by omega
    simp [Atoi, Itoa, FormatInt, hneg, hne, hparse, hun]
    rw [abs_of_neg hneg]; simp
  · obtain ⟨c, cs, hl⟩ := List.exists_cons_of_ne_nil hne
    have hc := hdig c (by simp [hl])
    have hplus : c ≠ '+' := by
      intro h; rw [h] at hc; exact absurd hc.1 (by decide)
    have hminus : c ≠ '-' := by
      intro h; rw [h] at hc; exact absurd hc.1 (by decide)
    have hun : ¬ (n.natAbs ≥ 2 ^ (intSize - 1)) := by simp only [intSize]; omega
    have hback : (n.natAbs : Int) = n := by omega
    rw [hl] at hparse
    simp [Atoi, Itoa, FormatInt, hneg, hl, hparse, hun, hplus, hminus]
    omega

/-- Counterexample to the rejection of a non-`Sent` answer: the body
`[0,"Invalid Message","15078947309567840"]` is an array of three elements whose code
is not 1 and whose text is not `Sent`, and decoding it, directly or through `Execute`,
gives a response and a nil error. -/
theorem newPublishResponse_rejected_counterexample :
    Unmarshal "[0,\"Invalid Message\",\"15078947309567840\"]"
      = ([.number "0", .string "Invalid Message", .string "15078947309567840"], none)
    ∧ newPublishResponse "[0,\"Invalid Message\",\"15078947309567840\"]" "400"
      = .ret (some { Timestamp := 15078947309567840 }, "400", none)
    ∧ publishBuilder.Execute
        (fun _ => ("[0,\"Invalid Message\",\"15078947309567840\"]", "400", none))
        { opts := sampleOpts }
      = .ret (some { Timestamp := 15078947309567840 }, "400", none) :=
  ⟨by rfl, by rfl, by rfl⟩

/-- C8, amended: decoding does not look at the status code and the status text. A
body that `json.Unmarshal` decodes without error to an array of three elements whose
third is a string read by `Atoi` as `n` gives a response with `Timestamp = n` and a
nil error, whatever the first two elements are, directly and through `Execute` when
`executeRequest` reports no error; when `executeRequest` reports an error, `Execute`
passes it on without decoding the body. -/
theorem newPublishResponse_ignores_code_and_text {σ : Type} (body : String) (status : σ)
    (code text : JSONValue) (ts : String) (n : Int)
    (hbody : Unmarshal body = ([code, text, .string ts], none))
    (hts : Atoi ts = (n, none)) :
    newPublishResponse body status = .ret (some { Timestamp := n }, status, none)
    ∧ (∀ (executeRequest : publishOpts → String × σ × Option Error) (b : publishBuilder),
        executeRequest b.opts = (body, status, none) →
        b.Execute executeRequest = .ret (some { Timestamp := n }, status, none))
    ∧ (∀ (executeRequest : publishOpts → String × σ × Option Error) (b : publishBuilder)
        (raw : String) (err : Error),
        executeRequest b.opts = (raw, status, some err) →
        b.Execute executeRequest = .ret (emptyPublishResponse, status, some err)) := by
  have h : newPublishResponse body status = .ret (some { Timestamp := n }, status, none) := by
    simp [newPublishResponse, hbody, hts]
  refine ⟨h, ?_, ?_⟩
  · intro executeRequest b hexec
    simp [publishBuilder.Execute, hexec, h]
  · intro executeRequest b raw err hexec
    simp [publishBuilder.Execute, hexec]

theorem newPublishResponse_ignores_code_and_text_witness :
    newPublishResponse "[0,\"Message Too Large\",\"15078947309567840\"]" "400"
      = .ret (some { Timestamp := 15078947309567840 }, "400", none) :=
  (newPublishResponse_ignores_code_and_text
    "[0,\"Message Too Large\",\"15078947309567840\"]" "400"
    (.number "0") (.string "Message Too Large") "15078947309567840" 15078947309567840
    (by rfl) (by decide)).1

/-- C9: `newPublishResponse` at bodies of an unexpected shape. On `[]`, on
`[1,"Sent"]` and on `null` the index expression `value[2]` panics; on `[1,"Sent",123]`
the type assertion panics; on `[1,"Sent","abc"]` the error of `Atoi` is returned as
it is, where a body that is not JSON or not an array gets a response-parsing error. -/
theorem newPublishResponse_unexpected_shape {σ : Type} (status : σ) :
    newPublishResponse "[]" status = .panic (.indexOutOfRange 2 0)
    ∧ newPublishResponse "[1,\"Sent\"]" status = .panic (.indexOutOfRange 2 2)
    ∧ newPublishResponse "null" status = .panic (.indexOutOfRange 2 0)
    ∧ newPublishResponse "[1,\"Sent\",123]" status
        = .panic (.interfaceConversion "float64" "string")
    ∧ newPublishResponse "[1,\"Sent\",\"abc\"]" status
        = .ret (emptyPublishResponse, status, some (.numSyntax "Atoi" "abc"))
    ∧ newPublishResponse "<html>" status
        = .ret (emptyPublishResponse, status,
            some (.responseParsing "Error unmarshalling response" "<html>" .jsonSyntax))
    ∧ newPublishResponse "\x7b\"error\":true\x7d" status
        = .ret (emptyPublishResponse, status,
            some (.responseParsing "Error unmarshalling response" "\x7b\"error\":true\x7d"
              (.jsonUnmarshalType "object"))) :=
  ⟨by rfl, by rfl, by rfl, by rfl, by rfl, by rfl, by rfl⟩

theorem mapIndex_mapAssign_ne (v : List (String × GoValue)) (key other : String)
    (x : GoValue) (h : other ≠ key) :
    mapIndex (mapAssign v key x) other = mapIndex v other := by
  induction v with
  | nil => simp [mapAssign, mapIndex, h.symm]
  | cons e rest ih =>
    obtain ⟨k, y⟩ := e
    by_cases hk : k = key
    · have hko : k ≠ other := fun hc => h (hc.symm.trans hk)
      simp [mapAssign, mapIndex, hk, hko, hk ▸ hko]
    · by_cases hko : k = other
      · subst hko
        simp [mapAssign, mapIndex, hk]
      · simp [mapAssign, mapIndex, hk, hko, ih]

theorem mapIndex_mapAssign_eq (v : List (String × GoValue)) (key : String) (x : GoValue) :
    mapIndex (mapAssign v key x) key = x := by
  induction v with
  | nil => simp [mapAssign, mapIndex]
  | cons e rest ih =>
    obtain ⟨k, y⟩ := e
    by_cases hk : k = key <;> simp [mapAssign, mapIndex, hk, ih]

theorem mapAssign_keys (v : List (String × GoValue)) (key : String) (x : GoValue)
    (h : mapIndex v key ≠ .nil) :
    (mapAssign v key x).map Prod.fst = v.map Prod.fst := by
  induction v with
  | nil => simp [mapIndex] at h
  | cons e rest ih =>
    obtain ⟨k, y⟩ := e
    by_cases hk : k = key
    · simp [mapAssign, hk]
    · simp only [mapIndex, hk, if_false] at h
      simp [mapAssign, hk, ih h]

/-- C10: partial encryption. With `DisablePNOtherProcessing` unset and a mapping
message whose `pn_other` entry is a string `p` that `SerializeAndEncrypt` turns into
`enc`, the mapping serialized has `enc` under `pn_other`, the same keys, and under
every other key its original value; `encryptProcessing` returns the JSON text of
that mapping with a nil error (and the error of `Marshal`, with an empty payload,
when the mapping has no JSON text). For the message
`{"pn_other": "secret", "route": "A"}` the payload is
`{"pn_other":<JSON string of enc>,"route":"A"}`. -/
theorem encryptProcessing_pn_other (u : Utils) (o : publishOpts) (cipherKey : String)
    (v : List (String × GoValue)) (p enc : String)
    (hdis : o.pubnub.Config.DisablePNOtherProcessing = false)
    (hmsg : o.Message = .map v)
    (hp : mapIndex v "pn_other" = .str p)
    (henc : u.SerializeAndEncrypt (.str p) cipherKey o.Serialize = (enc, none)) :
    mapIndex (mapAssign v "pn_other" (.str enc)) "pn_other" = .str enc
    ∧ (mapAssign v "pn_other" (.str enc)).map Prod.fst = v.map Prod.fst
    ∧ (∀ key, key ≠ "pn_other" →
        mapIndex (mapAssign v "pn_other" (GoValue.str enc)) key = mapIndex v key)
    ∧ (∀ j, Marshal (.map (mapAssign v "pn_other" (.str enc))) = (j, none) →
        o.encryptProcessing u cipherKey
          = .ret ({ o with Message := .map (mapAssign v "pn_other" (.str enc)) }, j, none))
    ∧ (∀ j e, Marshal (.map (mapAssign v "pn_other" (.str enc))) = (j, some e) →
        o.encryptProcessing u cipherKey
          = .ret ({ o with Message := .map (mapAssign v "pn_other" (.str enc)) }, "",
              some e))
    ∧ (v = [("pn_other", .str "secret"), ("route", .str "A")] →
        o.encryptProcessing u cipherKey
          = .ret ({ o with Message := .map [("pn_other", .str enc), ("route", .str "A")] },
              String.mk ("\x7b\"pn_other\":".toList ++ encodeString enc
                ++ ",\"route\":\"A\"\x7d".toList),
              none)) := by
  have hrun : ∀ r, Marshal (.map (mapAssign v "pn_other" (.str enc))) = r →
      o.encryptProcessing u cipherKey
        = match r with
          | (_, some errEnc) =>
            .ret ({ o with Message := .map (mapAssign v "pn_other" (.str enc)) }, "",
              some errEnc)
          | (jsonEncBytes, none) =>
            .ret ({ o with Message := .map (mapAssign v "pn_other" (.str enc)) },
              jsonEncBytes, none) := by
    intro r hr
    subst hr
    unfold publishOpts.encryptProcessing
    simp only [hdis, hmsg, hp, GoValue.asString, henc]
    simp
  refine ⟨mapIndex_mapAssign_eq _ _ _, mapAssign_keys _ _ _ (by simp [hp]),
    fun key hkey => mapIndex_mapAssign_ne _ _ _ _ hkey, ?_, ?_, ?_⟩
  · intro j hj
    simpa using hrun _ hj
  · intro j e hj
    simpa using hrun _ hj
  · intro hv
    subst hv
    have hj : Marshal (.map (mapAssign [("pn_other", .str "secret"), ("route", .str "A")]
        "pn_other" (.str enc)))
        = (String.mk ("\x7b\"pn_other\":".toList ++ encodeString enc
            ++ ",\"route\":\"A\"\x7d".toList), none) := by
      have h1 : encodeString "pn_other" = "\"pn_other\"".toList := by decide
      have h2 : encodeString "route" = "\"route\"".toList := by decide
      have h3 : encodeString "A" = "\"A\"".toList := by decide
      have h4 : stringLess "pn_other".toList "route".toList = true := by decide
      simp [Marshal, encodeValue, encodeEntries, sortEntries, insertEntry, joinEntries,
        mapAssign, h1, h2, h3, h4]
    simpa [mapAssign] using hrun _ hj

theorem encryptProcessing_pn_other_witness :
    sampleCipherOpts.encryptProcessing sampleUtils "enigma"
      = .ret ({ sampleCipherOpts with
            Message := .map [("pn_other", .str "enigma$\"terces\""), ("route", .str "A")] },
          "\x7b\"pn_other\":\"enigma$\\\"terces\\\"\",\"route\":\"A\"\x7d", none) :=
  (encryptProcessing_pn_other sampleUtils sampleCipherOpts "enigma"
    [("pn_other", .str "secret"), ("route", .str "A")] "secret" "enigma$\"terces\""
    rfl rfl rfl (by rfl)).2.2.2.1 _ (by rfl)

theorem skipSpace_length (cs : List Char) : (skipSpace cs).length ≤ cs.length := by
  induction cs with
  | nil => simp [skipSpace]
  | cons c cs ih =>
    unfold skipSpace
    split
    · simp; omega
    · simp

theorem skipSpace_cons_length (cs r : List Char) (d : Char) (h : skipSpace cs = d :: r) :
    r.length < cs.length := by
  have := skipSpace_length cs
  rw [h] at this
  simpa using this

theorem spanDigits_length (cs : List Char) : (spanDigits cs).2.length ≤ cs.length := by
  induction cs with
  | nil => simp [spanDigits]
  | cons c cs ih =>
    unfold spanDigits
    split
    · simp; omega
    · simp

theorem scanString_rest (cs : List Char) :
    ∀ (skip : Nat) (acc s r : List Char), scanString cs skip acc = .ok s r →
      r.length < cs.length := by
  induction cs with
  | nil => intro skip acc s r h; simp [scanString] at h
  | cons c cs ih =>
    intro skip acc s r h
    cases skip with
    | succ k =>
      rw [scanString] at h
      have := ih _ _ _ _ h
      simp; omega
    | zero =>
      rw [scanString] at h
      repeat' split at h
      all_goals first
        | (cases h; simp)
        | cases h
        | exact Nat.lt_succ_of_lt (ih _ _ _ _ h)

theorem scanString_fuel (cs : List Char) :
    ∀ (skip : Nat) (acc : List Char), scanString cs skip acc ≠ .outOfFuel := by
  induction cs with
  | nil => intro skip acc h; simp [scanString] at h
  | cons c cs ih =>
    intro skip acc h
    cases skip with
    | succ k =>
      rw [scanString] at h
      exact ih _ _ h
    | zero =>
      rw [scanString] at h
      repeat' split at h
      all_goals first
        | cases h
        | exact ih _ _ h

theorem scanIntegerPart_rest (cs ip r : List Char) (h : scanIntegerPart cs = .ok ip r) :
    r.length < cs.length := by
  unfold scanIntegerPart at h
  split at h
  · cases h
  · rename_i d cs1
    have := spanDigits_length cs1
    repeat' split at h
    all_goals first
      | (cases h; simp; omega)
      | (cases h; simp)
      | cases h

theorem scanIntegerPart_fuel (cs : List Char) : scanIntegerPart cs ≠ .outOfFuel := by
  intro h
  unfold scanIntegerPart at h
  repeat' split at h
  all_goals cases h

theorem scanFraction_rest (cs fp r : List Char) (h : scanFraction cs = .ok fp r) :
    r.length ≤ cs.length := by
  unfold scanFraction at h
  split at h
  · rename_i cs1
    have := spanDigits_length cs1
    split at h
    · cases h
    · cases h; simp; omega
  · cases h; simp

theorem scanFraction_fuel (cs : List Char) : scanFraction cs ≠ .outOfFuel := by
  intro h
  unfold scanFraction at h
  repeat' split at h
  all_goals cases h

theorem scanExponent_rest (cs : List Char) (et : List Char × Int) (r : List Char)
    (h : scanExponent cs = .ok et r) : r.length ≤ cs.length := by
  unfold scanExponent at h
  split at h
  · cases h; simp
  · rename_i e cs1
    split at h
    · split at h
      · cases h
      · rename_i s cs2
        have h1 := spanDigits_length cs2
        have h2 := spanDigits_length (s :: cs2)
        simp only [List.length_cons] at h2 ⊢
        repeat' split at h
        all_goals first
          | (cases h; omega)
          | cases h
    · cases h; simp

theorem scanExponent_fuel (cs : List Char) : scanExponent cs ≠ .outOfFuel := by
  intro h
  unfold scanExponent at h
  repeat' split at h
  all_goals cases h

theorem scanNumber_rest (cs : List Char) (n : NumberLiteral) (r : List Char)
    (h : scanNumber cs = .ok n r) : r.length < cs.length := by
  unfold scanNumber at h
  simp only [] at h
  have hsign : (match cs with | '-' :: r => r | _ => cs).length ≤ cs.length := by
    split <;> simp
  split at h
  · rename_i ip r1 h1
    have := scanIntegerPart_rest _ _ _ h1
    split at h
    · rename_i fp r2 h2
      have := scanFraction_rest _ _ _ h2
      split at h
      · rename_i et ev r3 h3
        have := scanExponent_rest _ _ _ h3
        cases h
        omega
      · cases h
      · cases h
    · cases h
    · cases h
  · cases h
  · cases h

theorem scanNumber_fuel (cs : List Char) : scanNumber cs ≠ .outOfFuel := by
  intro h
  unfold scanNumber at h
  simp only [] at h
  split at h
  · split at h
    · split at h
      · cases h
      · cases h
      · rename_i h3; exact scanExponent_fuel _ h3
    · cases h
    · rename_i h2; exact scanFraction_fuel _ h2
  · cases h
  · rename_i h1; exact scanIntegerPart_fuel _ h1

theorem valueStep_rest (elements : List Char → Parse (List JSONValue × Option Error))
    (members : List Char → List (String × JSONValue) →
      Parse (List (String × JSONValue) × Option Error))
    (he : ∀ cs v r, elements cs = .ok v r → r.length < cs.length)
    (hm : ∀ cs acc v r, members cs acc = .ok v r → r.length < cs.length)
    (cs : List Char) (v : JSONValue × Option Error) (r : List Char)
    (h : valueStep elements members cs = .ok v r) : r.length < cs.length := by
  unfold valueStep at h
  split at h
  · cases h
  · rename_i c r0
    simp only [List.length_cons]
    repeat' split at h
    all_goals first
      | (cases h; done)
      | (cases h; have := scanString_rest _ _ _ _ _ (by assumption); omega)
      | (cases h; have := scanNumber_rest _ _ _ (by assumption)
         simp only [List.length_cons] at this; omega)
      | (cases h; have := skipSpace_cons_length _ _ _ (by assumption)
         have := he _ _ _ (by assumption); simp only [List.length_cons] at this; omega)
      | (cases h; have := skipSpace_cons_length _ _ _ (by assumption)
         have := hm _ _ _ _ (by assumption); simp only [List.length_cons] at this; omega)
      | (cases h; have := skipSpace_cons_length _ _ _ (by assumption); omega)
      | (cases h; simp only [List.length_cons]; omega)

theorem elementsStep_rest (value : List Char → Parse (JSONValue × Option Error))
    (elements : List Char → Parse (List JSONValue × Option Error))
    (hv : ∀ cs v r, value cs = .ok v r → r.length < cs.length)
    (he : ∀ cs v r, elements cs = .ok v r → r.length < cs.length)
    (cs : List Char) (v : List JSONValue × Option Error) (r : List Char)
    (h : elementsStep value elements cs = .ok v r) : r.length < cs.length := by
  unfold elementsStep at h
  split at h
  · rename_i x e1 r0 hx
    have h0 := hv _ _ _ hx
    split at h
    · cases h
    · rename_i d r1 hd
      have h1 := skipSpace_cons_length _ _ _ hd
      have h2 := skipSpace_length r1
      repeat' split at h
      all_goals first
        | (cases h; done)
        | (cases h; have := he _ _ _ (by assumption); omega)
        | (cases h; omega)
  · cases h
  · cases h

theorem membersStep_rest (value : List Char → Parse (JSONValue × Option Error))
    (members : List Char → List (String × JSONValue) →
      Parse (List (String × JSONValue) × Option Error))
    (hv : ∀ cs v r, value cs = .ok v r → r.length < cs.length)
    (hm : ∀ cs acc v r, members cs acc = .ok v r → r.length < cs.length)
    (cs : List Char) (acc : List (String × JSONValue))
    (v : List (String × JSONValue) × Option Error) (r : List Char)
    (h : membersStep value members cs acc = .ok v r) : r.length < cs.length := by
  unfold membersStep at h
  split at h
  · cases h
  · rename_i q r0
    simp only [List.length_cons]
    split at h
    · split at h
      · rename_i k r1 hk
        have h1 := scanString_rest _ _ _ _ _ hk
        split at h
        · cases h
        · rename_i colon r2 hc
          have h2 := skipSpace_cons_length _ _ _ hc
          have h3 := skipSpace_length r2
          split at h
          · split at h
            · rename_i x e1 r3 hx
              have h4 := hv _ _ _ hx
              split at h
              · cases h
              · rename_i d r4 hd
                have h5 := skipSpace_cons_length _ _ _ hd
                have h6 := skipSpace_length r4
                repeat' split at h
                all_goals first
                  | (cases h; done)
                  | (cases h; have := hm _ _ _ _ (by assumption); omega)
                  | (cases h; omega)
            · cases h
            · cases h
          · cases h
      · cases h
      · cases h
    · cases h

theorem parse_rest (fuel : Nat) :
    (∀ cs v r, parseValue fuel cs = .ok v r → r.length < cs.length)
    ∧ (∀ cs v r, parseElements fuel cs = .ok v r → r.length < cs.length)
    ∧ (∀ cs acc v r, parseMembers fuel cs acc = .ok v r → r.length < cs.length) := by
  induction fuel with
  | zero =>
    refine ⟨?_, ?_, ?_⟩
    · intro cs v r h; rw [parseValue] at h; cases h
    · intro cs v r h; rw [parseElements] at h; cases h
    · intro cs acc v r h; rw [parseMembers] at h; cases h
  | succ fuel ih =>
    obtain ⟨ihv, ihe, ihm⟩ := ih
    refine ⟨?_, ?_, ?_⟩
    · intro cs v r h
      rw [parseValue] at h
      exact valueStep_rest _ _ ihe ihm _ _ _ h
    · intro cs v r h
      rw [parseElements] at h
      exact elementsStep_rest _ _ ihv ihe _ _ _ h
    · intro cs acc v r h
      rw [parseMembers] at h
      exact membersStep_rest _ _ ihv ihm _ _ _ _ h

theorem valueStep_fuel (elements : List Char → Parse (List JSONValue × Option Error))
    (members : List Char → List (String × JSONValue) →
      Parse (List (String × JSONValue) × Option Error))
    (cs : List Char)
    (he : ∀ cs1, cs1.length < cs.length → elements cs1 ≠ .outOfFuel)
    (hm : ∀ cs1 acc, cs1.length < cs.length → members cs1 acc ≠ .outOfFuel) :
    valueStep elements members cs ≠ .outOfFuel := by
  intro h
  unfold valueStep at h
  split at h
  · cases h
  · rename_i c r0
    simp only [List.length_cons] at he hm
    repeat' split at h
    all_goals first
      | (cases h; done)
      | exact scanString_fuel _ _ _ (by assumption)
      | exact scanNumber_fuel _ (by assumption)
      | (rename_i hs _ _ hb
         have h1 := skipSpace_length r0
         rw [hs] at h1
         exact he _ (by omega) hb)
      | (rename_i hs _ _ hb
         have h1 := skipSpace_length r0
         rw [hs] at h1
         exact hm _ _ (by omega) hb)

theorem elementsStep_fuel (value : List Char → Parse (JSONValue × Option Error))
    (elements : List Char → Parse (List JSONValue × Option Error))
    (cs : List Char)
    (hv : value cs ≠ .outOfFuel)
    (hr : ∀ v r, value cs = .ok v r → r.length < cs.length)
    (he : ∀ cs1, cs1.length + 2 ≤ cs.length → elements cs1 ≠ .outOfFuel) :
    elementsStep value elements cs ≠ .outOfFuel := by
  intro h
  unfold elementsStep at h
  split at h
  · rename_i x e1 r0 hx
    have h0 := hr _ _ hx
    split at h
    · cases h
    · rename_i d r1 hd
      have h1 := skipSpace_cons_length _ _ _ hd
      have h2 := skipSpace_length r1
      repeat' split at h
      all_goals first
        | (cases h; done)
        | (rename_i hb; exact he _ (by omega) hb)
  · cases h
  · exact hv (by assumption)

theorem membersStep_fuel (value : List Char → Parse (JSONValue × Option Error))
    (members : List Char → List (String × JSONValue) →
      Parse (List (String × JSONValue) × Option Error))
    (cs : List Char) (acc : List (String × JSONValue))
    (hv : ∀ cs1, cs1.length + 2 ≤ cs.length → value cs1 ≠ .outOfFuel)
    (hr : ∀ cs1 v r, value cs1 = .ok v r → r.length < cs1.length)
    (hm : ∀ cs1 acc1, cs1.length + 2 ≤ cs.length → members cs1 acc1 ≠ .outOfFuel) :
    membersStep value members cs acc ≠ .outOfFuel := by
  intro h
  unfold membersStep at h
  split at h
  · cases h
  · rename_i q r0
    simp only [List.length_cons] at hv hm
    split at h
    · split at h
      · rename_i k r1 hk
        have h1 := scanString_rest _ _ _ _ _ hk
        split at h
        · cases h
        · rename_i colon r2 hc
          have h2 := skipSpace_cons_length _ _ _ hc
          have h3 := skipSpace_length r2
          split at h
          · split at h
            · rename_i x e1 r3 hx
              have h4 := hr _ _ _ hx
              split at h
              · cases h
              · rename_i d r4 hd
                have h5 := skipSpace_cons_length _ _ _ hd
                have h6 := skipSpace_length r4
                repeat' split at h
                all_goals first
                  | (cases h; done)
                  | (rename_i hb; exact hm _ _ (by omega) hb)
            · cases h
            · rename_i hb; exact hv _ (by omega) hb
          · cases h
      · cases h
      · exact scanString_fuel _ _ _ (by assumption)
    · cases h

theorem parse_fuel (fuel : Nat) :
    (∀ cs, 2 * cs.length + 1 ≤ fuel → parseValue fuel cs ≠ .outOfFuel)
    ∧ (∀ cs, 2 * cs.length + 2 ≤ fuel → parseElements fuel cs ≠ .outOfFuel)
    ∧ (∀ cs acc, 2 * cs.length + 2 ≤ fuel → parseMembers fuel cs acc ≠ .outOfFuel) := by
  induction fuel with
  | zero =>
    refine ⟨?_, ?_, ?_⟩
    · intro cs h; omega
    · intro cs h; omega
    · intro cs acc h; omega
  | succ fuel ih =>
    obtain ⟨ihv, ihe, ihm⟩ := ih
    refine ⟨?_, ?_, ?_⟩
    · intro cs hf
      rw [parseValue]
      exact valueStep_fuel _ _ _ (fun cs1 h1 => ihe cs1 (by omega))
        (fun cs1 acc h1 => ihm cs1 acc (by omega))
    · intro cs hf
      rw [parseElements]
      exact elementsStep_fuel _ _ _ (ihv cs (by omega))
        (fun v r h => (parse_rest fuel).1 _ _ _ h) (fun cs1 h1 => ihe cs1 (by omega))
    · intro cs acc hf
      rw [parseMembers]
      exact membersStep_fuel _ _ _ _ (fun cs1 h1 => ihv cs1 (by omega))
        (fun cs1 v r h => (parse_rest fuel).1 _ _ _ h)
        (fun cs1 acc1 h1 => ihm cs1 acc1 (by omega))

/-- The fuel `Unmarshal` gives the reader is enough: reading never stops for lack of
fuel, whatever the input. -/
theorem parseValue_enough_fuel (cs : List Char) :
    parseValue (2 * cs.length + 1) cs ≠ .outOfFuel :=
  (parse_fuel (2 * cs.length + 1)).1 cs (le_refl _)

theorem scanString_plain (ds rest acc : List Char)
    (h : ∀ c ∈ ds, c ≠ '"' ∧ c ≠ '\\' ∧ ¬ c.toNat < 32) :
    scanString (ds ++ '"' :: rest) 0 acc = .ok (acc.reverse ++ ds) rest := by
  induction ds generalizing acc with
  | nil => simp [scanString]
  | cons c cs ih =>
    obtain ⟨h1, h2, h3⟩ := h c (by simp)
    have := ih (c :: acc) (fun d hd => h d (by simp [hd]))
    simp [scanString, h1, h2, h3, this]

theorem digit_plain (c : Char) (h : '0' ≤ c ∧ c ≤ '9') :
    c ≠ '"' ∧ c ≠ '\\' ∧ ¬ c.toNat < 32 := by
  have h0 : 48 ≤ c.toNat := h.1
  have h9 : c.toNat ≤ 57 := h.2
  refine ⟨?_, ?_, by omega⟩
  · intro hc; rw [hc] at h0; exact absurd h0 (by decide)
  · intro hc; rw [hc] at h9; exact absurd h9 (by decide)

theorem Itoa_plain (n : Int) : ∀ c ∈ (Itoa n).toList, c ≠ '"' ∧ c ≠ '\\' ∧ ¬ c.toNat < 32 := by
  intro c hc
  have hdig := formatBits_digits 65 n.natAbs [] (by simp)
  unfold Itoa FormatInt at hc
  split at hc
  · simp only [String.toList, List.mem_cons] at hc
    rcases hc with hc | hc
    · rw [hc]; decide
    · exact digit_plain c (hdig c hc)
  · exact digit_plain c (hdig c hc)

theorem parse_sent_body (k : Nat) (ds : List Char)
    (h : ∀ c ∈ ds, c ≠ '"' ∧ c ≠ '\\' ∧ ¬ c.toNat < 32) :
    parseValue (k + 5) ("[1,\"Sent\",\"".toList ++ ds ++ "\"]".toList)
      = .ok (.array [.number "1", .string "Sent", .string (String.mk ds)], none) [] := by
  have hs := scanString_plain ds [']'] [] h
  simp only [List.reverse_nil, List.nil_append] at hs
  have hnum : scanNumber ('1' :: ',' :: '"' :: 'S' :: 'e' :: 'n' :: 't' :: '"' :: ','
      :: '"' :: (ds ++ ['"', ']']))
      = .ok { text := ['1'], mantissa := 1, exponent := 0 }
          (',' :: '"' :: 'S' :: 'e' :: 'n' :: 't' :: '"' :: ',' :: '"' :: (ds ++ ['"', ']'])) := by
    simp [scanNumber, scanIntegerPart, scanFraction, scanExponent, spanDigits, digitsValue]
  have hone : convertNumber { text := ['1'], mantissa := 1, exponent := 0 }
      = (.number "1", none) := by rfl
  simp [parseValue, parseElements, valueStep, elementsStep, skipSpace, isSpace, hnum, hone,
    scanString, scanEscape, hs, firstError]

theorem Unmarshal_sent_body (n : Int) :
    Unmarshal ("[1,\"Sent\",\"" ++ Itoa n ++ "\"]")
      = ([.number "1", .string "Sent", .string (Itoa n)], none) := by
  have hlist : ("[1,\"Sent\",\"" ++ Itoa n ++ "\"]").toList
      = "[1,\"Sent\",\"".toList ++ (Itoa n).toList ++ "\"]".toList := by
    simp [String.toList, String.data_append]
  have hskip : skipSpace ("[1,\"Sent\",\"".toList ++ (Itoa n).toList ++ "\"]".toList)
      = "[1,\"Sent\",\"".toList ++ (Itoa n).toList ++ "\"]".toList := by
    simp [skipSpace, isSpace]
  have hfuel : 2 * ("[1,\"Sent\",\"".toList ++ (Itoa n).toList ++ "\"]".toList).length + 1
      = (2 * (Itoa n).toList.length + 22) + 5 := by
    simp; omega
  unfold Unmarshal
  rw [hlist, hskip, hfuel, parse_sent_body _ _ (Itoa_plain n)]
  simp [skipSpace]

set_option exponentiation.threshold 1000 in
/-- Counterexample to a response for every array of three elements with a decimal
string third: the first element of the body `[1e999,"Sent","5"]` is out of the range
of `float64`, `json.Unmarshal` reports an error for it, and `newPublishResponse`
returns no response and a response-parsing error, directly and through `Execute`. -/
theorem newPublishResponse_overflow_counterexample :
    Itoa 5 = "5"
    ∧ Unmarshal "[1e999,\"Sent\",\"5\"]"
      = ([.null, .string "Sent", .string "5"], some (.jsonUnmarshalType "number 1e999"))
    ∧ newPublishResponse "[1e999,\"Sent\",\"5\"]" "200"
      = .ret (emptyPublishResponse, "200",
          some (.responseParsing "Error unmarshalling response" "[1e999,\"Sent\",\"5\"]"
            (.jsonUnmarshalType "number 1e999")))
    ∧ publishBuilder.Execute (fun _ => ("[1e999,\"Sent\",\"5\"]", "200", none))
        { opts := sampleOpts }
      = .ret (emptyPublishResponse, "200",
          some (.responseParsing "Error unmarshalling response" "[1e999,\"Sent\",\"5\"]"
            (.jsonUnmarshalType "number 1e999"))) :=
  ⟨by rfl, by rfl, by rfl, by rfl⟩

/-- C7, amended: for every `n` in the range of a 64-bit `int`, a body that
`json.Unmarshal` decodes without error to an array of three elements whose third is
the decimal string of `n` gives a response with `Timestamp = n`, the status passed
in, and a nil error; the body `[1,"Sent","<n>"]` is such a body. A body for which
`json.Unmarshal` reports an error gives no response and a response-parsing error
that holds the body and that error. -/
theorem newPublishResponse_timestamp {σ : Type} (n : Int) (hlo : -(2 ^ 63) ≤ n)
    (hhi : n < 2 ^ 63) (status : σ) :
    (∀ (body : String) (code text : JSONValue),
        Unmarshal body = ([code, text, .string (Itoa n)], none) →
        newPublishResponse body status = .ret (some { Timestamp := n }, status, none))
    ∧ newPublishResponse ("[1,\"Sent\",\"" ++ Itoa n ++ "\"]") status
        = .ret (some { Timestamp := n }, status, none)
    ∧ (∀ (body : String) (value : List JSONValue) (err : Error),
        Unmarshal body = (value, some err) →
        newPublishResponse body status
          = .ret (emptyPublishResponse, status,
              some (.responseParsing "Error unmarshalling response" body err))) := by
  have h : ∀ (body : String) (code text : JSONValue),
      Unmarshal body = ([code, text, .string (Itoa n)], none) →
      newPublishResponse body status = .ret (some { Timestamp := n }, status, none) := by
    intro body code text hbody
    simp [newPublishResponse, hbody, Atoi_Itoa n hlo hhi]
  refine ⟨h, h _ _ _ (Unmarshal_sent_body n), ?_⟩
  intro body value err hbody
  simp [newPublishResponse, hbody]

theorem newPublishResponse_timestamp_witness :
    newPublishResponse "[1,\"Sent\",\"15078947309567840\"]" "200 OK"
      = .ret (some { Timestamp := 15078947309567840 }, "200 OK", none) :=
  (newPublishResponse_timestamp 15078947309567840 (by decide) (by decide) "200 OK").1
    "[1,\"Sent\",\"15078947309567840\"]" (.number "1") (.string "Sent") (by rfl)

/-! ## Encryption modes -/

theorem mapIndex_of_no_key (v : List (String × GoValue)) (key : String)
    (h : ∀ x, (key, x) ∉ v) : mapIndex v key = .nil := by
  induction v with
  | nil => simp [mapIndex]
  | cons e rest ih =>
    obtain ⟨k, y⟩ := e
    have hk : k ≠ key := by
      intro hk
      exact h y (by simp [hk])
    simp only [mapIndex, hk, if_false]
    exact ih (fun x hx => h x (by simp [hx]))

theorem encryptProcessing_disabled (u : Utils) (o : publishOpts) (cipherKey : String)
    (h : o.pubnub.Config.DisablePNOtherProcessing = true) :
    o.encryptProcessing u cipherKey = o.encryptEverything u cipherKey := by
  unfold publishOpts.encryptProcessing publishOpts.encryptEverything
  simp only [h, if_true]

theorem encryptProcessing_not_string_entry (u : Utils) (o : publishOpts) (cipherKey : String)
    (v : List (String × GoValue))
    (hdis : o.pubnub.Config.DisablePNOtherProcessing = false)
    (hmsg : o.Message = .map v) (hp : ∀ p, mapIndex v "pn_other" ≠ .str p) :
    o.encryptProcessing u cipherKey = o.encryptEverything u cipherKey := by
  unfold publishOpts.encryptProcessing publishOpts.encryptEverything
  simp only [hdis, hmsg, asString_of_not_str _ hp]
  rfl

theorem encryptProcessing_not_map (u : Utils) (o : publishOpts) (cipherKey : String)
    (hdis : o.pubnub.Config.DisablePNOtherProcessing = false)
    (hnil : o.Message ≠ .nil) (hmap : ∀ v, o.Message ≠ .map v) :
    o.encryptProcessing u cipherKey = o.encryptEverything u cipherKey := by
  unfold publishOpts.encryptProcessing publishOpts.encryptEverything
  cases hm : o.Message with
  | nil => exact absurd hm hnil
  | map v => exact absurd hm (hmap v)
  | _ => simp only [hdis]; rfl

/-- Encrypt-everything mode: with `DisablePNOtherProcessing` set, or with a message
that is not nil and is either no mapping or a mapping without `pn_other` entry,
`encryptProcessing` returns what `SerializeEncryptAndSerialize` returns for the whole
message, and when that fails its error, unchanged, next to an empty payload; the
options are left as they were. -/
theorem encryptProcessing_encrypt_everything (u : Utils) (o : publishOpts)
    (cipherKey : String)
    (hmode : o.pubnub.Config.DisablePNOtherProcessing = true
      ∨ (o.Message ≠ .nil
          ∧ ((∀ v, o.Message ≠ .map v)
              ∨ ∃ v, o.Message = .map v ∧ ∀ x, ("pn_other", x) ∉ v))) :
    (∀ msg, u.SerializeEncryptAndSerialize o.Message cipherKey o.Serialize = (msg, none) →
        o.encryptProcessing u cipherKey = .ret (o, msg, none))
    ∧ (∀ msg err,
        u.SerializeEncryptAndSerialize o.Message cipherKey o.Serialize = (msg, some err) →
        o.encryptProcessing u cipherKey = .ret (o, "", some err)) := by
  have h : o.encryptProcessing u cipherKey = o.encryptEverything u cipherKey := by
    rcases hmode with hdis | ⟨hnil, hmap | ⟨v, hv, hkey⟩⟩
    · exact encryptProcessing_disabled u o cipherKey hdis
    · cases hdis : o.pubnub.Config.DisablePNOtherProcessing
      · exact encryptProcessing_not_map u o cipherKey hdis hnil hmap
      · exact encryptProcessing_disabled u o cipherKey hdis
    · cases hdis : o.pubnub.Config.DisablePNOtherProcessing
      · refine encryptProcessing_not_string_entry u o cipherKey v hdis hv ?_
        intro p hp
        rw [mapIndex_of_no_key v "pn_other" hkey] at hp
        cases hp
      · exact encryptProcessing_disabled u o cipherKey hdis
  rw [h]
  constructor
  · intro msg hmsg
    simp [publishOpts.encryptEverything, hmsg]
  · intro msg err hmsg
    simp [publishOpts.encryptEverything, hmsg]

theorem encryptProcessing_encrypt_everything_witness :
    ({ sampleCipherOpts with Message := .str "hi!" } : publishOpts).encryptProcessing
        sampleUtils "enigma"
      = .ret ({ sampleCipherOpts with Message := .str "hi!" },
          "\"enigma$\\\"!ih\\\"\"", none) :=
  (encryptProcessing_encrypt_everything sampleUtils
    { sampleCipherOpts with Message := .str "hi!" } "enigma"
    (Or.inr ⟨(fun h => by cases h), Or.inl (fun v h => by cases h)⟩)).1 _ (by rfl)

/-- C11: encrypt-everything mode where partial mode does not apply. With
`DisablePNOtherProcessing` set, or with a message that is not nil and is either no
mapping or a mapping without `pn_other` entry, `encryptProcessing` returns what
`SerializeEncryptAndSerialize` returns for the whole message, payload or error. For
a nil message, which is no mapping, it does so with `DisablePNOtherProcessing` set
and panics with `DisablePNOtherProcessing` unset. -/
theorem encryptProcessing_nil_message_panics (u : Utils) :
    (∀ (o : publishOpts) (cipherKey : String),
        (o.pubnub.Config.DisablePNOtherProcessing = true
          ∨ (o.Message ≠ .nil
              ∧ ((∀ v, o.Message ≠ .map v)
                  ∨ ∃ v, o.Message = .map v ∧ ∀ x, ("pn_other", x) ∉ v))) →
        o.encryptProcessing u cipherKey = o.encryptEverything u cipherKey)
    ∧ (∀ (o : publishOpts) (cipherKey : String),
        o.pubnub.Config.DisablePNOtherProcessing = true → o.Message = .nil →
        o.encryptProcessing u cipherKey = o.encryptEverything u cipherKey)
    ∧ (∀ (o : publishOpts) (cipherKey : String),
        o.pubnub.Config.DisablePNOtherProcessing = false → o.Message = .nil →
        o.encryptProcessing u cipherKey = .panic .nilDereference)
    ∧ sampleUtils.SerializeEncryptAndSerialize .nil "enigma" true
        = ("\"enigma$llun\"", none)
    ∧ ({ sampleCipherOpts with Message := .nil } : publishOpts).encryptProcessing
        sampleUtils "enigma" = .panic .nilDereference
    ∧ ({ sampleCipherOpts with Message := .nil } : publishOpts).buildPath sampleUtils
        = .panic .nilDereference := by
  refine ⟨?_, ?_, ?_, by rfl, by rfl, by rfl⟩
  · intro o cipherKey hmode
    rcases hmode with hdis | ⟨hnil, hmap | ⟨v, hv, hkey⟩⟩
    · exact encryptProcessing_disabled u o cipherKey hdis
    · cases hdis : o.pubnub.Config.DisablePNOtherProcessing
      · exact encryptProcessing_not_map u o cipherKey hdis hnil hmap
      · exact encryptProcessing_disabled u o cipherKey hdis
    · cases hdis : o.pubnub.Config.DisablePNOtherProcessing
      · refine encryptProcessing_not_string_entry u o cipherKey v hdis hv ?_
        intro p hp
        rw [mapIndex_of_no_key v "pn_other" hkey] at hp
        cases hp
      · exact encryptProcessing_disabled u o cipherKey hdis
  · intro o cipherKey hdis _
    exact encryptProcessing_disabled u o cipherKey hdis
  · intro o cipherKey hdis hnil
    unfold publishOpts.encryptProcessing
    simp [hdis, hnil]

/-- Counterexample to partial encryption whatever the type of the `pn_other` value:
for the message `{"pn_other": 5, "route": "A"}` the payload is the one of
encrypt-everything mode, a JSON string holding the ciphertext of the whole message,
and not the mapping with `route` in cleartext. -/
theorem encryptProcessing_number_entry_counterexample :
    sampleNumberOpts.encryptProcessing sampleUtils "enigma"
      = .ret (sampleNumberOpts,
          "\"enigma$\x7d\\\"A\\\":\\\"etuor\\\",5:\\\"rehto_np\\\"\x7b\"", none)
    ∧ sampleUtils.SerializeAndEncrypt (.int 5) "enigma" true = ("enigma$5", none)
    ∧ Marshal (.map [("pn_other", .str "enigma$5"), ("route", .str "A")])
        = ("\x7b\"pn_other\":\"enigma$5\",\"route\":\"A\"\x7d", none)
    ∧ "\"enigma$\x7d\\\"A\\\":\\\"etuor\\\",5:\\\"rehto_np\\\"\x7b\""
        ≠ "\x7b\"pn_other\":\"enigma$5\",\"route\":\"A\"\x7d" :=
  ⟨by rfl, by rfl, by rfl, by decide⟩

/-- C12, amended: in partial mode (`DisablePNOtherProcessing` unset, mapping message)
the type of the `pn_other` value decides. When it is a string `p` that
`SerializeAndEncrypt` turns into `enc`, the payload is the JSON text of the mapping
with `enc` under `pn_other` and every other entry as it was. When it is not a string
(a number, a nested object), the whole message goes through
`SerializeEncryptAndSerialize`, as in encrypt-everything mode, and the mapping is left
as it was. -/
theorem encryptProcessing_by_entry_type (u : Utils) (o : publishOpts) (cipherKey : String)
    (v : List (String × GoValue))
    (hdis : o.pubnub.Config.DisablePNOtherProcessing = false)
    (hmsg : o.Message = .map v) :
    (∀ p enc j, mapIndex v "pn_other" = .str p →
        u.SerializeAndEncrypt (.str p) cipherKey o.Serialize = (enc, none) →
        Marshal (.map (mapAssign v "pn_other" (.str enc))) = (j, none) →
        o.encryptProcessing u cipherKey
            = .ret ({ o with Message := .map (mapAssign v "pn_other" (.str enc)) }, j, none)
          ∧ ∀ key, key ≠ "pn_other" →
              mapIndex (mapAssign v "pn_other" (GoValue.str enc)) key = mapIndex v key)
    ∧ ((∀ p, mapIndex v "pn_other" ≠ .str p) →
        (∀ msg,
          u.SerializeEncryptAndSerialize (.map v) cipherKey o.Serialize = (msg, none) →
          o.encryptProcessing u cipherKey = .ret (o, msg, none))
        ∧ (∀ msg err,
          u.SerializeEncryptAndSerialize (.map v) cipherKey o.Serialize = (msg, some err) →
          o.encryptProcessing u cipherKey = .ret (o, "", some err))) := by
  constructor
  · intro p enc j hp henc hj
    refine ⟨?_, fun key hkey => mapIndex_mapAssign_ne _ _ _ _ hkey⟩
    unfold publishOpts.encryptProcessing
    simp only [hdis, hmsg, hp, GoValue.asString, henc, hj]
    simp
  · intro hp
    have h := encryptProcessing_not_string_entry u o cipherKey v hdis hmsg hp
    rw [h]
    constructor
    · intro msg hres
      simp [publishOpts.encryptEverything, hmsg, hres]
    · intro msg err hres
      simp [publishOpts.encryptEverything, hmsg, hres]

theorem encryptProcessing_by_entry_type_witness :
    sampleNumberOpts.encryptProcessing sampleUtils "enigma"
      = .ret (sampleNumberOpts,
          "\"enigma$\x7d\\\"A\\\":\\\"etuor\\\",5:\\\"rehto_np\\\"\x7b\"", none) :=
  ((encryptProcessing_by_entry_type sampleUtils sampleNumberOpts "enigma"
    [("pn_other", .int 5), ("route", .str "A")] rfl rfl).2
    (fun p h => by cases h)).1 _ (by rfl)

/-! ## The round trip of a payload -/

theorem hexVal_hexChar (n : Nat) (h : n < 16) : hexVal (hexChar n) = some n := by
  interval_cases n <;> rfl

theorem scanString_skip (cs rest acc : List Char) :
    scanString (cs ++ rest) cs.length acc = scanString rest 0 acc := by
  induction cs with
  | nil => simp
  | cons c cs ih => simp [scanString, ih]

theorem scanString_escape (cs rest acc : List Char) (ch : Char)
    (h : scanEscape (cs ++ rest) = some (ch, cs.length)) :
    scanString ('\\' :: (cs ++ rest)) 0 acc = scanString rest 0 (ch :: acc) := by
  rw [scanString]
  simp [h, scanString_skip]

theorem getu4_low (n : Nat) (h : n < 256) :
    getu4 '0' '0' (hexChar (n / 16)) (hexChar (n % 16)) = some n := by
  have h0 : hexVal '0' = some 0 := by rfl
  have h1 := hexVal_hexChar (n / 16) (by omega)
  have h2 := hexVal_hexChar (n % 16) (Nat.mod_lt _ (by norm_num))
  simp only [getu4, h0, h1, h2]
  congr 1
  omega

theorem scanEscape_low (c : Char) (rest : List Char) (h : c.toNat < 256) :
    scanEscape ('u' :: '0' :: '0' :: hexChar (c.toNat / 16) :: hexChar (c.toNat % 16) :: rest)
      = some (c, 5) := by
  have hs : isSurrogate c.toNat = false := by
    simp [isSurrogate]; omega
  simp [scanEscape, getu4_low c.toNat h, hs, Char.ofNat_toNat]

theorem scanString_encodeChar (c : Char) (rest acc : List Char) :
    scanString (encodeChar c ++ rest) 0 acc = scanString rest 0 (c :: acc) := by
  unfold encodeChar
  split
  · rename_i h; subst h
    exact scanString_escape ['"'] rest acc '"' (by simp [scanEscape, unescape])
  · split
    · rename_i h; subst h
      exact scanString_escape ['\\'] rest acc '\\' (by simp [scanEscape, unescape])
    · split
      · rename_i h; subst h
        exact scanString_escape ['n'] rest acc '\n' (by simp [scanEscape, unescape])
      · split
        · rename_i h; subst h
          exact scanString_escape ['r'] rest acc '\r' (by simp [scanEscape, unescape])
        · split
          · rename_i h; subst h
            exact scanString_escape ['t'] rest acc '\t' (by simp [scanEscape, unescape])
          · split
            · rename_i h
              have hlow : c.toNat < 256 := by
                rcases h with h | h | h | h
                · omega
                · subst h; decide
                · subst h; decide
                · subst h; decide
              exact scanString_escape
                ['u', '0', '0', hexChar (c.toNat / 16), hexChar (c.toNat % 16)] rest acc c
                (by simpa using scanEscape_low c rest hlow)
            · split
              · rename_i h
                have hc : c = Char.ofNat c.toNat := (Char.ofNat_toNat c).symm
                rcases h with h | h
                · rw [h] at hc
                  subst hc
                  exact scanString_escape ['u', '2', '0', '2', '8'] rest acc (Char.ofNat 8232)
                    (by rfl)
                · rw [h] at hc
                  subst hc
                  exact scanString_escape ['u', '2', '0', '2', '9'] rest acc (Char.ofNat 8233)
                    (by rfl)
              · rename_i h1 h2 h3 h4 h5 h6 h7
                have h32 : ¬ c.toNat < 32 := fun h => h6 (Or.inl h)
                rw [List.singleton_append, scanString]
                simp [h1, h2, h32]

theorem scanString_encoded (cs rest acc : List Char) :
    scanString (cs.flatMap encodeChar ++ '"' :: rest) 0 acc = .ok (acc.reverse ++ cs) rest := by
  induction cs generalizing acc with
  | nil => simp [scanString]
  | cons c cs ih =>
    simp only [List.flatMap_cons, List.append_assoc]
    rw [scanString_encodeChar, ih]
    simp

theorem valueStep_encodeString (elements : List Char → Parse (List JSONValue × Option Error))
    (members : List Char → List (String × JSONValue) →
      Parse (List (String × JSONValue) × Option Error))
    (s : String) (rest : List Char) :
    valueStep elements members (encodeString s ++ rest) = .ok (.string s, none) rest := by
  have h := scanString_encoded s.data rest []
  simp only [List.reverse_nil, List.nil_append] at h
  simp [valueStep, encodeString, h]


theorem digit_facts (c : Char) (h : '0' ≤ c ∧ c ≤ '9') :
    isSpace c = false ∧ c ≠ ']' ∧ c ≠ '\x7d' ∧ c ≠ ',' ∧ c ≠ '"' ∧ c ≠ '[' ∧ c ≠ '\x7b'
      ∧ c ≠ 't' ∧ c ≠ 'f' ∧ c ≠ 'n' ∧ c ≠ '-' ∧ c ≠ '.' ∧ c ≠ 'e' ∧ c ≠ 'E' := by
  have h0 : 48 ≤ c.toNat := h.1
  have h9 : c.toNat ≤ 57 := h.2
  have hne : ∀ d : Char, (d.toNat < 48 ∨ 57 < d.toNat) → c ≠ d := by
    intro d hd hc
    rw [hc] at h0 h9
    omega
  refine ⟨?_, hne _ (by decide), hne _ (by decide), hne _ (by decide), hne _ (by decide),
    hne _ (by decide), hne _ (by decide), hne _ (by decide), hne _ (by decide),
    hne _ (by decide), hne _ (by decide), hne _ (by decide), hne _ (by decide),
    hne _ (by decide)⟩
  simp only [isSpace, Bool.or_eq_false_iff, decide_eq_false_iff_not]
  exact ⟨⟨⟨hne _ (by decide), hne _ (by decide)⟩, hne _ (by decide)⟩, hne _ (by decide)⟩

theorem valueStart_facts (c : Char) (h : valueStart c = true) :
    isSpace c = false ∧ c ≠ ']' ∧ c ≠ '\x7d' ∧ c ≠ ',' := by
  simp only [valueStart, Bool.or_eq_true, decide_eq_true_eq, Bool.and_eq_true] at h
  rcases h with ((((((h | h) | h) | h) | h) | h) | h) | h
  · subst h; decide
  · subst h; decide
  · subst h; decide
  · subst h; decide
  · subst h; decide
  · subst h; decide
  · subst h; decide
  · have hf := digit_facts c h
    exact ⟨hf.1, hf.2.1, hf.2.2.1, hf.2.2.2.1⟩

theorem skipSpace_of_start (c : Char) (cs : List Char) (h : isSpace c = false) :
    skipSpace (c :: cs) = c :: cs := by
  simp [skipSpace, h]

theorem parseValue_succ (fuel : Nat) (cs : List Char) :
    parseValue (fuel + 1) cs = valueStep (parseElements fuel) (parseMembers fuel) cs := by
  rw [parseValue]

theorem parseElements_succ (fuel : Nat) (cs : List Char) :
    parseElements (fuel + 1) cs = elementsStep (parseValue fuel) (parseElements fuel) cs := by
  rw [parseElements]

theorem parseMembers_succ (fuel : Nat) (cs : List Char) (acc : List (String × JSONValue)) :
    parseMembers (fuel + 1) cs acc
      = membersStep (parseValue fuel) (parseMembers fuel) cs acc := by
  rw [parseMembers]

theorem decodes_null : Decodes "null".toList .null := by
  refine ⟨⟨'n', _, rfl, by decide⟩, ?_⟩
  intro rest fuel hend hf
  obtain ⟨k, rfl⟩ : ∃ k, fuel = k + 1 := ⟨fuel - 1, by omega⟩
  rw [parseValue_succ]
  simp [valueStep]

theorem decodes_bool (b : Bool) :
    Decodes (if b then "true".toList else "false".toList) (.bool b) := by
  cases b
  · refine ⟨⟨'f', _, rfl, by decide⟩, ?_⟩
    intro rest fuel hend hf
    obtain ⟨k, rfl⟩ : ∃ k, fuel = k + 1 := ⟨fuel - 1, by simp at hf; omega⟩
    rw [parseValue_succ]
    simp [valueStep]
  · refine ⟨⟨'t', _, rfl, by decide⟩, ?_⟩
    intro rest fuel hend hf
    obtain ⟨k, rfl⟩ : ∃ k, fuel = k + 1 := ⟨fuel - 1, by simp at hf; omega⟩
    rw [parseValue_succ]
    simp [valueStep]

theorem decodes_string (s : String) : Decodes (encodeString s) (.string s) := by
  refine ⟨⟨'"', _, rfl, by decide⟩, ?_⟩
  intro rest fuel hend hf
  obtain ⟨k, rfl⟩ : ∃ k, fuel = k + 1 := ⟨fuel - 1, by omega⟩
  rw [parseValue_succ, valueStep_encodeString]

theorem decodes_ne_nil (cs : List Char) (d : JSONValue) (h : Decodes cs d) :
    0 < cs.length := by
  obtain ⟨⟨c, tail, hc, -⟩, -⟩ := h
  simp [hc]

theorem joinElements_start (v : List Char) (vs : List (List Char)) (d : JSONValue)
    (h : Decodes v d) :
    ∃ c tail, joinElements (v :: vs) = c :: tail ∧ valueStart c = true := by
  obtain ⟨⟨c, tail, hc, hstart⟩, -⟩ := h
  cases vs with
  | nil => exact ⟨c, tail, by simp [joinElements, hc], hstart⟩
  | cons w ws => exact ⟨c, tail ++ ',' :: joinElements (w :: ws), by simp [joinElements, hc], hstart⟩

theorem parseElements_join (vs : List (List Char)) (ds : List JSONValue)
    (h : List.Forall₂ Decodes vs ds) (hne : vs ≠ []) :
    ∀ rest fuel, 2 * (joinElements vs).length + 2 ≤ fuel →
      parseElements fuel (joinElements vs ++ ']' :: rest) = .ok (ds, none) rest := by
  induction h with
  | nil => exact absurd rfl hne
  | @cons v d vs ds hv hrest ih =>
    intro rest fuel hf
    obtain ⟨k, rfl⟩ : ∃ k, fuel = k + 1 := ⟨fuel - 1, by omega⟩
    rw [parseElements_succ]
    cases hrest with
    | nil =>
      simp only [joinElements] at hf ⊢
      unfold elementsStep
      rw [hv.2 (']' :: rest) k (by simp [valueEnd]) (by omega)]
      simp [skipSpace, isSpace]
    | @cons w e ws es hw hws =>
      have hlen : (joinElements (v :: w :: ws)).length
          = v.length + 1 + (joinElements (w :: ws)).length := by
        simp [joinElements]; omega
      have hpos := decodes_ne_nil v d hv
      obtain ⟨c, tail, hc, hstart⟩ := joinElements_start w ws e hw
      have hjoin : joinElements (v :: w :: ws) ++ ']' :: rest
          = v ++ (',' :: (joinElements (w :: ws) ++ ']' :: rest)) := by
        simp [joinElements]
      rw [hjoin]
      unfold elementsStep
      rw [hv.2 _ k (by simp [valueEnd]) (by omega)]
      have hsp : skipSpace (joinElements (w :: ws) ++ ']' :: rest)
          = joinElements (w :: ws) ++ ']' :: rest := by
        rw [hc]
        exact skipSpace_of_start c _ (valueStart_facts c hstart).1
      have hih := ih (by simp) rest k (by omega)
      simp [skipSpace, isSpace, hsp, hih, firstError]

theorem decodes_array (vs : List (List Char)) (ds : List JSONValue)
    (h : List.Forall₂ Decodes vs ds) :
    Decodes ('[' :: (joinElements vs ++ [']'])) (.array ds) := by
  refine ⟨⟨'[', _, rfl, by decide⟩, ?_⟩
  intro rest fuel hend hf
  obtain ⟨k, rfl⟩ : ∃ k, fuel = k + 1 := ⟨fuel - 1, by omega⟩
  rw [parseValue_succ]
  cases h with
  | nil => simp [valueStep, joinElements, skipSpace, isSpace]
  | @cons v d vs ds hv hrest =>
    obtain ⟨c, tail, hc, hstart⟩ := joinElements_start v vs d hv
    have hfacts := valueStart_facts c hstart
    have hel := parseElements_join (v :: vs) (d :: ds) (List.Forall₂.cons hv hrest) (by simp)
      rest k (by simp at hf ⊢; omega)
    have hsp : skipSpace (joinElements (v :: vs) ++ ']' :: rest)
        = c :: (tail ++ ']' :: rest) := by
      rw [hc]
      exact skipSpace_of_start c _ hfacts.1
    have hel2 : parseElements k (c :: (tail ++ ']' :: rest)) = .ok (d :: ds, none) rest := by
      rw [← hel, hc]; rfl
    simp [valueStep, hsp, hfacts.2.1, hel2]

theorem mapAssign_append {α : Type} (acc : List (String × α)) (k : String) (x : α)
    (h : k ∉ acc.map Prod.fst) : mapAssign acc k x = acc ++ [(k, x)] := by
  induction acc with
  | nil => simp [mapAssign]
  | cons e rest ih =>
    obtain ⟨k1, y⟩ := e
    simp only [List.map_cons, List.mem_cons, not_or] at h
    have hk : k1 ≠ k := fun hc => h.1 hc.symm
    simp [mapAssign, hk, ih h.2]

theorem membersStep_key (value : List Char → Parse (JSONValue × Option Error))
    (members : List Char → List (String × JSONValue) →
      Parse (List (String × JSONValue) × Option Error))
    (k : String) (v after : List Char) (acc : List (String × JSONValue))
    (hstart : ∃ c tail, v = c :: tail ∧ valueStart c = true) :
    membersStep value members (encodeString k ++ (':' :: (v ++ after))) acc
      = match value (v ++ after) with
        | .ok (x, e1) r3 =>
          match skipSpace r3 with
          | [] => .syntaxError
          | d :: r4 =>
            if d = ',' then
              match members (skipSpace r4) (mapAssign acc k x) with
              | .ok (es, e2) r5 => .ok (es, firstError e1 e2) r5
              | .syntaxError => .syntaxError
              | .outOfFuel => .outOfFuel
            else if d = '\x7d' then .ok (mapAssign acc k x, e1) r4
            else .syntaxError
        | .syntaxError => .syntaxError
        | .outOfFuel => .outOfFuel := by
  obtain ⟨c, tail, hc, hs⟩ := hstart
  have hscan := scanString_encoded k.data (':' :: (v ++ after)) []
  simp only [List.reverse_nil, List.nil_append] at hscan
  have hsp : skipSpace (v ++ after) = v ++ after := by
    rw [hc]; exact skipSpace_of_start c _ (valueStart_facts c hs).1
  have hshape : encodeString k ++ (':' :: (v ++ after))
      = '"' :: (k.data.flatMap encodeChar ++ '"' :: ':' :: (v ++ after)) := by
    simp [encodeString, String.toList]
  rw [hshape]
  simp only [membersStep, if_true, hscan]
  simp only [skipSpace, isSpace]
  simp
  rw [hsp]

theorem parseMembers_join (dec : String → JSONValue) (S : List (String × List Char))
    (hne : S ≠ []) (hdec : ∀ e ∈ S, Decodes e.2 (dec e.1))
    (hnodup : (S.map Prod.fst).Nodup) :
    ∀ acc rest fuel, (∀ e ∈ S, e.1 ∉ acc.map Prod.fst) →
      2 * (joinEntries S).length + 2 ≤ fuel →
      parseMembers fuel (joinEntries S ++ '\x7d' :: rest) acc
        = .ok (acc ++ S.map (fun e => (e.1, dec e.1)), none) rest := by
  induction S with
  | nil => exact absurd rfl hne
  | cons e tl ih =>
    obtain ⟨k, v⟩ := e
    intro acc rest fuel hacc hf
    obtain ⟨n, rfl⟩ : ∃ n, fuel = n + 1 := ⟨fuel - 1, by omega⟩
    have hv : Decodes v (dec k) := hdec (k, v) (by simp)
    have hk : k ∉ acc.map Prod.fst := hacc (k, v) (by simp)
    rw [parseMembers_succ]
    cases tl with
    | nil =>
      have hjoin : joinEntries [(k, v)] ++ '\x7d' :: rest
          = encodeString k ++ (':' :: (v ++ '\x7d' :: rest)) := by
        simp [joinEntries]
      have hlen : (joinEntries [(k, v)]).length = (encodeString k).length + 1 + v.length := by
        simp [joinEntries]; omega
      rw [hjoin, membersStep_key _ _ k v _ acc hv.1, hv.2 _ n (by simp [valueEnd]) (by omega)]
      simp [skipSpace, isSpace, mapAssign_append acc k _ hk]
    | cons e2 tl2 =>
      have hjoin : joinEntries ((k, v) :: e2 :: tl2) ++ '\x7d' :: rest
          = encodeString k
              ++ (':' :: (v ++ (',' :: (joinEntries (e2 :: tl2) ++ '\x7d' :: rest)))) := by
        simp [joinEntries]
      have hlen : (joinEntries ((k, v) :: e2 :: tl2)).length
          = (encodeString k).length + 1 + v.length + 1 + (joinEntries (e2 :: tl2)).length := by
        simp [joinEntries]; omega
      have hnd : k ∉ (e2 :: tl2).map Prod.fst ∧ ((e2 :: tl2).map Prod.fst).Nodup := by
        simpa using hnodup
      have hih := ih (by simp) (fun e he => hdec e (by simp [he])) hnd.2
        (acc ++ [(k, dec k)]) rest n
        (by
          intro e he hmem
          simp only [List.map_append, List.map_cons, List.map_nil, List.mem_append,
            List.mem_singleton] at hmem
          rcases hmem with hmem | hmem
          · exact hacc e (by simp [he]) hmem
          · exact hnd.1 (by rw [← hmem]; exact List.mem_map_of_mem _ he))
        (by omega)
      have hsp : skipSpace (joinEntries (e2 :: tl2) ++ '\x7d' :: rest)
          = joinEntries (e2 :: tl2) ++ '\x7d' :: rest := by
        obtain ⟨k2, v2⟩ := e2
        cases tl2 <;> simp [joinEntries, encodeString, skipSpace, isSpace]
      rw [hjoin, membersStep_key _ _ k v _ acc hv.1, hv.2 _ n (by simp [valueEnd]) (by omega)]
      simp [skipSpace, isSpace, hsp, mapAssign_append acc k _ hk, hih, firstError]

theorem decodes_object (dec : String → JSONValue) (S : List (String × List Char))
    (hdec : ∀ e ∈ S, Decodes e.2 (dec e.1)) (hnodup : (S.map Prod.fst).Nodup) :
    Decodes ('\x7b' :: (joinEntries S ++ ['\x7d']))
      (.object (S.map (fun e => (e.1, dec e.1)))) := by
  refine ⟨⟨'\x7b', _, rfl, by decide⟩, ?_⟩
  intro rest fuel hend hf
  obtain ⟨n, rfl⟩ : ∃ n, fuel = n + 1 := ⟨fuel - 1, by omega⟩
  rw [parseValue_succ]
  cases S with
  | nil => simp [valueStep, joinEntries, skipSpace, isSpace]
  | cons e tl =>
    have hmem := parseMembers_join dec (e :: tl) (by simp) hdec hnodup [] rest n
      (by simp) (by simp at hf ⊢; omega)
    have hsp : skipSpace (joinEntries (e :: tl) ++ '\x7d' :: rest)
        = '"' :: ((joinEntries (e :: tl)).tail ++ '\x7d' :: rest) := by
      obtain ⟨k2, v2⟩ := e
      cases tl <;> simp [joinEntries, encodeString, skipSpace, isSpace]
    have hmem2 : parseMembers n ('"' :: ((joinEntries (e :: tl)).tail ++ '\x7d' :: rest)) []
        = .ok (List.map (fun e => (e.1, dec e.1)) (e :: tl), none) rest := by
      rw [← hsp]
      have hsp2 : skipSpace (joinEntries (e :: tl) ++ '\x7d' :: rest)
          = joinEntries (e :: tl) ++ '\x7d' :: rest := by
        obtain ⟨k2, v2⟩ := e
        cases tl <;> simp [joinEntries, encodeString, skipSpace, isSpace]
      rw [hsp2, hmem]
      simp
    simp [valueStep, hsp, hmem2]

theorem insertEntry_perm (e : String × List Char) (l : List (String × List Char)) :
    (insertEntry e l).Perm (e :: l) := by
  induction l with
  | nil => simp [insertEntry]
  | cons f rest ih =>
    simp only [insertEntry]
    split
    · exact List.Perm.refl _
    · exact (List.Perm.cons f ih).trans (List.Perm.swap e f rest)

theorem sortEntries_perm (l : List (String × List Char)) : (sortEntries l).Perm l := by
  induction l with
  | nil => simp [sortEntries]
  | cons e rest ih =>
    simp only [sortEntries]
    exact (insertEntry_perm e _).trans (List.Perm.cons e ih)

theorem distinctKeys_nodup {α : Type} (l : List (String × α)) (h : distinctKeys l = true) :
    (l.map Prod.fst).Nodup := by
  induction l with
  | nil => simp
  | cons e rest ih =>
    obtain ⟨k, x⟩ := e
    simp only [distinctKeys, Bool.and_eq_true, Bool.not_eq_true_eq_eq_false,
      List.any_eq_false, beq_iff_eq] at h
    simp only [List.map_cons, List.nodup_cons, List.mem_map, not_exists, not_and]
    refine ⟨fun p hp hk => ?_, ih h.2⟩
    have := h.1 p hp
    simp [hk] at this

theorem lookup_map_key (f : String → JSONValue) (S : List (String × List Char)) (k : String)
    (h : k ∈ S.map Prod.fst) :
    List.lookup k (S.map (fun e => (e.1, f e.1))) = some (f k) := by
  induction S with
  | nil => simp at h
  | cons e rest ih =>
    simp only [List.map_cons, List.lookup_cons]
    by_cases hk : k = e.1
    · simp [hk]
    · have hbeq : (k == e.1) = false := by simpa using hk
      simp only [hbeq]
      simp only [List.map_cons, List.mem_cons] at h
      rcases h with h | h
      · exact absurd h hk
      · exact ih h

theorem lookup_of_mem_nodup {α : Type} (dl : List (String × α))
    (hn : (dl.map Prod.fst).Nodup) (k : String) (d : α) (h : (k, d) ∈ dl) :
    dl.lookup k = some d := by
  induction dl with
  | nil => simp at h
  | cons e rest ih =>
    obtain ⟨k1, d1⟩ := e
    simp only [List.map_cons, List.nodup_cons] at hn
    simp only [List.mem_cons, Prod.mk.injEq] at h
    rcases h with ⟨rfl, rfl⟩ | h
    · simp [List.lookup_cons]
    · have hne : k ≠ k1 := by
        intro hc
        apply hn.1
        rw [← hc]
        exact List.mem_map_of_mem Prod.fst h
      have hbeq : (k == k1) = false := by simpa using hne
      simp only [List.lookup_cons, hbeq]
      exact ih hn.2 h


theorem valueEnd_cases (rest : List Char) (h : valueEnd rest = true) :
    rest = [] ∨ ∃ r, rest = ',' :: r ∨ rest = ']' :: r ∨ rest = '\x7d' :: r := by
  cases rest with
  | nil => exact Or.inl rfl
  | cons c r =>
    simp only [valueEnd, Bool.or_eq_true, decide_eq_true_eq] at h
    rcases h with (h | h) | h <;> subst h
    · exact Or.inr ⟨r, Or.inl rfl⟩
    · exact Or.inr ⟨r, Or.inr (Or.inl rfl)⟩
    · exact Or.inr ⟨r, Or.inr (Or.inr rfl)⟩

theorem spanDigits_digits (ds rest : List Char) (hds : ∀ c ∈ ds, '0' ≤ c ∧ c ≤ '9')
    (hrest : valueEnd rest = true) : spanDigits (ds ++ rest) = (ds, rest) := by
  induction ds with
  | nil =>
    rcases valueEnd_cases rest hrest with h | ⟨r, h | h | h⟩ <;> subst h
    · rfl
    · simp [spanDigits]
    · simp [spanDigits]
    · simp [spanDigits]
  | cons c cs ih =>
    have hc := hds c (by simp)
    have := ih (fun d hd => hds d (by simp [hd]))
    simp [spanDigits, hc, this]

theorem scanFraction_end (rest : List Char) (hrest : valueEnd rest = true) :
    scanFraction rest = .ok [] rest := by
  rcases valueEnd_cases rest hrest with h | ⟨r, h | h | h⟩ <;> subst h <;> rfl

theorem scanExponent_end (rest : List Char) (hrest : valueEnd rest = true) :
    scanExponent rest = .ok ([], 0) rest := by
  rcases valueEnd_cases rest hrest with h | ⟨r, h | h | h⟩ <;> subst h
  · rfl
  · simp [scanExponent]
  · simp [scanExponent]
  · simp [scanExponent]

theorem scanIntegerPart_canonical (ip rest : List Char) (hip : canonicalDigits ip)
    (hrest : valueEnd rest = true) : scanIntegerPart (ip ++ rest) = .ok ip rest := by
  rcases hip with h | ⟨d, ds, h, hd, hds⟩ <;> subst h
  · simp [scanIntegerPart]
  · have h0 : d ≠ '0' := by
      intro h
      rw [h] at hd
      exact absurd hd.1 (by decide)
    simp [scanIntegerPart, h0, hd, spanDigits_digits ds rest hds hrest]

theorem canonicalDigits_head (ip : List Char) (hip : canonicalDigits ip) :
    ∃ d ds, ip = d :: ds ∧ '0' ≤ d ∧ d ≤ '9' := by
  rcases hip with h | ⟨d, ds, h, hd, -⟩
  · exact ⟨'0', [], h, by decide, by decide⟩
  · refine ⟨d, ds, h, ?_, hd.2⟩
    exact le_trans (by decide : '0' ≤ '1') hd.1

theorem scanNumber_integer (neg : Bool) (ip rest : List Char) (hip : canonicalDigits ip)
    (hrest : valueEnd rest = true) :
    scanNumber ((if neg then ['-'] else []) ++ ip ++ rest)
      = .ok { text := (if neg then ['-'] else []) ++ ip, mantissa := digitsValue ip 0,
              exponent := 0 } rest := by
  have hint := scanIntegerPart_canonical ip rest hip hrest
  have hfrac := scanFraction_end rest hrest
  have hexp := scanExponent_end rest hrest
  obtain ⟨d, ds, hd, hdig⟩ := canonicalDigits_head ip hip
  have hminus : d ≠ '-' := (digit_facts d hdig).2.2.2.2.2.2.2.2.2.2.1
  cases neg
  · subst hd
    simp only [Bool.false_eq_true, if_false, List.nil_append, List.cons_append] at hint ⊢
    unfold scanNumber
    split
    · rename_i heq
      simp only [List.cons.injEq] at heq
      exact absurd heq.1 hminus
    · simp [hint, hfrac, hexp]
  · simp only [if_true, List.cons_append, List.nil_append, List.singleton_append]
    unfold scanNumber
    simp [hint, hfrac, hexp]

theorem formatBits_canonical (fuel u : Nat) (acc : List Char)
    (hacc : ∀ c ∈ acc, '0' ≤ c ∧ c ≤ '9') (hu : 0 < u) (hfuel : u < 10 ^ fuel) :
    ∃ d ds, formatBits fuel u acc = d :: ds ∧ ('1' ≤ d ∧ d ≤ '9')
      ∧ ∀ c ∈ ds, '0' ≤ c ∧ c ≤ '9' := by
  induction fuel generalizing u acc with
  | zero => simp at hfuel; omega
  | succ fuel ih =>
    unfold formatBits
    split
    · rename_i h10
      refine ⟨digitChar u, acc, rfl, ?_, hacc⟩
      interval_cases u <;> decide
    · rename_i h10
      have hdiv : u / 10 < 10 ^ fuel := by
        rw [Nat.div_lt_iff_lt_mul (by norm_num)]
        rw [pow_succ] at hfuel
        exact hfuel
      apply ih (u / 10) _ _ (by omega) hdiv
      intro c hc
      rcases List.mem_cons.mp hc with h | h
      · rw [h]; exact (digitChar_spec (u % 10) (Nat.mod_lt _ (by norm_num))).1
      · exact hacc c h

theorem formatBits_canonicalDigits (u : Nat) (hu : u < 10 ^ 65) :
    canonicalDigits (formatBits 65 u []) := by
  rcases Nat.eq_zero_or_pos u with h | h
  · subst h
    exact Or.inl rfl
  · exact Or.inr (formatBits_canonical 65 u [] (by simp) h hu)

theorem valueStep_number (elements : List Char → Parse (List JSONValue × Option Error))
    (members : List Char → List (String × JSONValue) →
      Parse (List (String × JSONValue) × Option Error))
    (c : Char) (r : List Char) (hc : c = '-' ∨ ('0' ≤ c ∧ c ≤ '9')) :
    valueStep elements members (c :: r)
      = match scanNumber (c :: r) with
        | .ok n r1 => .ok (convertNumber n) r1
        | .syntaxError => .syntaxError
        | .outOfFuel => .outOfFuel := by
  have h : c ≠ '"' ∧ c ≠ '[' ∧ c ≠ '\x7b' ∧ c ≠ 't' ∧ c ≠ 'f' ∧ c ≠ 'n' := by
    rcases hc with hc | hc
    · subst hc; decide
    · have hf := digit_facts c hc
      exact ⟨hf.2.2.2.2.1, hf.2.2.2.2.2.1, hf.2.2.2.2.2.2.1, hf.2.2.2.2.2.2.2.1,
        hf.2.2.2.2.2.2.2.2.1, hf.2.2.2.2.2.2.2.2.2.1⟩
  simp only [valueStep, h.1, h.2.1, h.2.2.1, h.2.2.2.1, h.2.2.2.2.1, h.2.2.2.2.2, if_false]

theorem convertNumber_integer (text : List Char) (m : Nat) (h : m ≤ 9007199254740992) :
    convertNumber { text := text, mantissa := m, exponent := 0 }
      = (.number (String.mk text), none) := by
  have hlt : ¬ float64Overflow ≤ m := by
    unfold float64Overflow
    omega
  simp [convertNumber, floatOutOfRange, hlt]

theorem decodes_int (n : Int) (hlo : -9007199254740992 ≤ n) (hhi : n ≤ 9007199254740992) :
    Decodes (FormatInt n).toList (.number (FormatInt n)) := by
  have habs : n.natAbs ≤ 9007199254740992 := by omega
  have hfuel : n.natAbs < 10 ^ 65 := lt_of_le_of_lt habs (by norm_num)
  have hip := formatBits_canonicalDigits n.natAbs hfuel
  have hval : digitsValue (formatBits 65 n.natAbs []) 0 = n.natAbs := by
    rw [formatBits_value 65 n.natAbs [] hfuel]; simp [digitsValue]
  have hshape : (FormatInt n).toList
      = (if decide (n < 0) then ['-'] else []) ++ formatBits 65 n.natAbs [] := by
    unfold FormatInt
    split <;> rename_i hneg <;> simp [hneg]
  obtain ⟨d, ds, hd, hdig⟩ := canonicalDigits_head _ hip
  have hstart : ∃ c tail, (FormatInt n).toList = c :: tail
      ∧ (c = '-' ∨ ('0' ≤ c ∧ c ≤ '9')) := by
    rw [hshape]
    by_cases hneg : n < 0
    · exact ⟨'-', formatBits 65 n.natAbs [], by simp [hneg], Or.inl rfl⟩
    · exact ⟨d, ds, by simp [hneg, hd], Or.inr hdig⟩
  obtain ⟨c, tail, hc, hkind⟩ := hstart
  refine ⟨⟨c, tail, hc, ?_⟩, ?_⟩
  · rcases hkind with h | h
    · subst h; decide
    · simp [valueStart, h.1, h.2]
  · intro rest fuel hend hf
    obtain ⟨k, rfl⟩ : ∃ k, fuel = k + 1 := ⟨fuel - 1, by omega⟩
    have hnum := scanNumber_integer (decide (n < 0)) (formatBits 65 n.natAbs []) rest hip hend
    rw [← hshape] at hnum
    rw [parseValue_succ]
    have hcs : (FormatInt n).toList ++ rest = c :: (tail ++ rest) := by rw [hc]; rfl
    rw [hcs, valueStep_number _ _ c _ hkind, ← hcs, hnum]
    simp only []
    rw [hval, convertNumber_integer _ _ habs]
    rfl

theorem float64OfNat_exact (m : Nat) (h : m ≤ 9007199254740992) : float64OfNat m = m := by
  rcases Nat.lt_or_ge m 9007199254740992 with hlt | hge
  · have hs : float64Shift 64 m = 0 := by
      show float64Shift (63 + 1) m = 0
      simp [float64Shift, hlt]
    simp [float64OfNat, hs, Nat.mod_one]
  · have : m = 9007199254740992 := by omega
    subst this
    decide

theorem integerLiteralValue_FormatInt (n : Int) (hlo : -9007199254740992 ≤ n)
    (hhi : n ≤ 9007199254740992) : integerLiteralValue (FormatInt n) = some n := by
  have hatoi : Atoi (FormatInt n) = (n, none) := Atoi_Itoa n (by omega) (by omega)
  have habs : n.natAbs ≤ 9007199254740992 := by omega
  have hex := float64OfNat_exact n.natAbs habs
  simp only [integerLiteralValue, hatoi, float64OfInt, hex]
  congr 1
  split <;> omega

theorem equalEntries_of (entries : List (String × GoValue))
    (obj : List (String × JSONValue))
    (h : ∀ p ∈ entries, ∃ y, List.lookup p.1 obj = some y ∧ equalValue p.2 y = true) :
    equalEntries entries obj = true := by
  induction entries with
  | nil => simp [equalEntries]
  | cons e rest ih =>
    obtain ⟨k, x⟩ := e
    obtain ⟨y, hy, hxy⟩ := h (k, x) (by simp)
    simp only [equalEntries, Bool.and_eq_true]
    refine ⟨?_, ih (fun p hp => h p (by simp [hp]))⟩
    simp only at hy hxy
    rw [hy]
    exact hxy

theorem decodes_map (entries : List (String × GoValue)) (es : List (String × List Char))
    (dl : List (String × JSONValue)) (hdist : distinctKeys entries = true)
    (hes : es.map Prod.fst = entries.map Prod.fst)
    (hdl : dl.map Prod.fst = entries.map Prod.fst)
    (hdec : ∀ k v, (k, v) ∈ es → ∃ d, (k, d) ∈ dl ∧ Decodes v d)
    (heq : ∀ k x, (k, x) ∈ entries → ∃ d, (k, d) ∈ dl ∧ equalValue x d = true) :
    ∃ d, Decodes ('\x7b' :: (joinEntries (sortEntries es) ++ ['\x7d'])) d
      ∧ equalValue (.map entries) d = true := by
  have hnd := distinctKeys_nodup entries hdist
  have hnd_dl : (dl.map Prod.fst).Nodup := by rw [hdl]; exact hnd
  have hperm := sortEntries_perm es
  have hnd_S : ((sortEntries es).map Prod.fst).Nodup := by
    have := (hperm.map Prod.fst).nodup_iff
    rw [this, hes]; exact hnd
  let dec : String → JSONValue := fun k => (dl.lookup k).getD .null
  have hdecS : ∀ e ∈ sortEntries es, Decodes e.2 (dec e.1) := by
    intro e he
    obtain ⟨d, hmem, hd⟩ := hdec e.1 e.2 (hperm.mem_iff.mp he)
    have hl := lookup_of_mem_nodup dl hnd_dl e.1 d hmem
    simp only [dec, hl, Option.getD_some]
    exact hd
  refine ⟨_, decodes_object dec (sortEntries es) hdecS hnd_S, ?_⟩
  have hlen : entries.length = (sortEntries es).length := by
    rw [hperm.length_eq]
    have := congrArg List.length hes
    simpa using this.symm
  simp only [equalValue, List.length_map, Bool.and_eq_true, beq_iff_eq]
  refine ⟨hlen, equalEntries_of _ _ ?_⟩
  intro p hp
  obtain ⟨d, hmem, hd⟩ := heq p.1 p.2 hp
  have hl := lookup_of_mem_nodup dl hnd_dl p.1 d hmem
  have hkey : p.1 ∈ (sortEntries es).map Prod.fst := by
    rw [(hperm.map Prod.fst).mem_iff, hes]
    exact List.mem_map_of_mem Prod.fst hp
  refine ⟨dec p.1, lookup_map_key dec _ _ hkey, ?_⟩
  simp only [dec, hl, Option.getD_some]
  exact hd

mutual
theorem roundTrip_value : (m : GoValue) → m.roundTrips = true →
    ∃ cs d, encodeValue m = some cs ∧ Decodes cs d ∧ equalValue m d = true
  | .nil, _ => ⟨_, .null, rfl, decodes_null, rfl⟩
  | .bool b, _ => ⟨_, .bool b, rfl, decodes_bool b, by simp [equalValue]⟩
  | .int n, h => by
    simp only [GoValue.roundTrips, decide_eq_true_eq] at h
    exact ⟨_, .number (FormatInt n), rfl, decodes_int n h.1 h.2,
      by simp [equalValue, integerLiteralValue_FormatInt n h.1 h.2]⟩
  | .str s, _ => ⟨_, .string s, rfl, decodes_string s, by simp [equalValue]⟩
  | .slice xs, h => by
    obtain ⟨vs, ds, he, hd, heq⟩ :=
      roundTrip_elements xs (by simpa [GoValue.roundTrips] using h)
    exact ⟨_, .array ds, by simp [encodeValue, he], decodes_array vs ds hd,
      by simp [equalValue, heq]⟩
  | .nilSlice, h => by simp [GoValue.roundTrips] at h
  | .map entries, h => by
    simp only [GoValue.roundTrips, Bool.and_eq_true] at h
    obtain ⟨es, dl, he, hes, hdl, hdec, heq⟩ := roundTrip_entries entries h.2
    obtain ⟨d, hd, hde⟩ := decodes_map entries es dl h.1 hes hdl hdec heq
    exact ⟨_, d, by simp [encodeValue, he], hd, hde⟩
  | .nilMap, h => by simp [GoValue.roundTrips] at h
  | .struct _, h => by simp [GoValue.roundTrips] at h
  | .chan, h => by simp [GoValue.roundTrips] at h
theorem roundTrip_elements : (xs : List GoValue) → roundTripElements xs = true →
    ∃ vs ds, encodeElements xs = some vs ∧ List.Forall₂ Decodes vs ds
      ∧ equalElements xs ds = true
  | [], _ => ⟨[], [], rfl, List.Forall₂.nil, rfl⟩
  | x :: xs, h => by
    simp only [roundTripElements, Bool.and_eq_true] at h
    obtain ⟨v, d, he, hd, heq⟩ := roundTrip_value x h.1
    obtain ⟨vs, ds, hes, hds, heqs⟩ := roundTrip_elements xs h.2
    exact ⟨v :: vs, d :: ds, by simp [encodeElements, he, hes], List.Forall₂.cons hd hds,
      by simp [equalElements, heq, heqs]⟩
theorem roundTrip_entries : (entries : List (String × GoValue)) →
    roundTripEntries entries = true →
    ∃ (es : List (String × List Char)) (dl : List (String × JSONValue)),
      encodeEntries entries = some es
      ∧ es.map Prod.fst = entries.map Prod.fst
      ∧ dl.map Prod.fst = entries.map Prod.fst
      ∧ (∀ k v, (k, v) ∈ es → ∃ d, (k, d) ∈ dl ∧ Decodes v d)
      ∧ (∀ k x, (k, x) ∈ entries → ∃ d, (k, d) ∈ dl ∧ equalValue x d = true)
  | [], _ => ⟨[], [], rfl, rfl, rfl, by simp, by simp⟩
  | (k, x) :: rest, h => by
    simp only [roundTripEntries, Bool.and_eq_true] at h
    obtain ⟨v, d, he, hd, heq⟩ := roundTrip_value x h.1
    obtain ⟨es, dl, hes, hk1, hk2, hdec, hde⟩ := roundTrip_entries rest h.2
    refine ⟨(k, v) :: es, (k, d) :: dl, by simp [encodeEntries, he, hes], by simp [hk1],
      by simp [hk2], ?_, ?_⟩
    · intro k1 v1 hmem
      simp only [List.mem_cons, Prod.mk.injEq] at hmem
      rcases hmem with ⟨rfl, rfl⟩ | hmem
      · exact ⟨d, by simp, hd⟩
      · obtain ⟨d1, hm, hd1⟩ := hdec k1 v1 hmem
        exact ⟨d1, by simp [hm], hd1⟩
    · intro k1 x1 hmem
      simp only [List.mem_cons, Prod.mk.injEq] at hmem
      rcases hmem with ⟨rfl, rfl⟩ | hmem
      · exact ⟨d, by simp, heq⟩
      · obtain ⟨d1, hm, hd1⟩ := hde k1 x1 hmem
        exact ⟨d1, by simp [hm], hd1⟩
end

mutual
theorem deepEqual_of_equalValue : (m : GoValue) → (d : JSONValue) →
    m.isJSONValue = true → equalValue m d = true → deepEqual m d = true
  | .nil, d, _, h => by cases d <;> simp_all [equalValue, deepEqual]
  | .bool _, d, _, h => by cases d <;> simp_all [equalValue, deepEqual]
  | .int _, _, hj, _ => by simp [GoValue.isJSONValue] at hj
  | .str _, d, _, h => by cases d <;> simp_all [equalValue, deepEqual]
  | .slice xs, d, hj, h => by
    cases d with
    | array ys =>
      simp only [equalValue] at h
      simp only [GoValue.isJSONValue] at hj
      simp only [deepEqual]
      exact deepEqualElements_of_equalElements xs ys hj h
    | _ => simp [equalValue] at h
  | .nilSlice, _, hj, _ => by simp [GoValue.isJSONValue] at hj
  | .map entries, d, hj, h => by
    cases d with
    | object decoded =>
      simp only [equalValue, Bool.and_eq_true] at h
      simp only [GoValue.isJSONValue, Bool.and_eq_true] at hj
      simp only [deepEqual, Bool.and_eq_true]
      exact ⟨h.1, deepEqualEntries_of_equalEntries entries decoded hj.2 h.2⟩
    | _ => simp [equalValue] at h
  | .nilMap, _, hj, _ => by simp [GoValue.isJSONValue] at hj
  | .struct _, _, hj, _ => by simp [GoValue.isJSONValue] at hj
  | .chan, _, hj, _ => by simp [GoValue.isJSONValue] at hj
theorem deepEqualElements_of_equalElements : (xs : List GoValue) → (ys : List JSONValue) →
    isJSONElements xs = true → equalElements xs ys = true → deepEqualElements xs ys = true
  | [], ys, _, h => by simpa [equalElements, deepEqualElements] using h
  | x :: xs, ys, hj, h => by
    cases ys with
    | nil => simp [equalElements] at h
    | cons y rest =>
      simp only [equalElements, Bool.and_eq_true] at h
      simp only [isJSONElements, Bool.and_eq_true] at hj
      simp only [deepEqualElements, Bool.and_eq_true]
      exact ⟨deepEqual_of_equalValue x y hj.1 h.1,
        deepEqualElements_of_equalElements xs rest hj.2 h.2⟩
theorem deepEqualEntries_of_equalEntries : (entries : List (String × GoValue)) →
    (decoded : List (String × JSONValue)) →
    isJSONEntries entries = true → equalEntries entries decoded = true →
    deepEqualEntries entries decoded = true
  | [], _, _, _ => by simp [deepEqualEntries]
  | (k, x) :: rest, decoded, hj, h => by
    simp only [equalEntries, Bool.and_eq_true] at h
    simp only [isJSONEntries, Bool.and_eq_true] at hj
    simp only [deepEqualEntries, Bool.and_eq_true]
    refine ⟨?_, deepEqualEntries_of_equalEntries rest decoded hj.2 h.2⟩
    cases hl : List.lookup k decoded with
    | none => simp [hl] at h
    | some y =>
      have hxy : equalValue x y = true := by simpa [hl] using h.1
      simpa using deepEqual_of_equalValue x y hj.1 hxy
end

theorem unmarshal_of_decodes (cs : List Char) (d : JSONValue) (h : Decodes cs d) :
    UnmarshalInterface (String.mk cs) = (d, none) := by
  obtain ⟨⟨c, tail, hc, hstart⟩, hparse⟩ := h
  have hsp : skipSpace cs = cs := by
    rw [hc]; exact skipSpace_of_start c _ (valueStart_facts c hstart).1
  have := hparse [] (2 * cs.length + 1) rfl (le_refl _)
  simp only [List.append_nil] at this
  simp [UnmarshalInterface, hsp, this, skipSpace]

/-- C13, counterexample: with no cipher key and `Serialize` true the message
`9007199254740993` (an `int`) goes on the wire as that text, which decodes to the
`float64` 9007199254740992, another number; a nil `[]interface{}` goes out as `null`
and decodes to the nil interface, which is no slice; and the message `5` decodes to
the `float64` 5, the same number in a type that `reflect.DeepEqual` tells apart from
an `int`. -/
theorem payload_round_trip_int_counterexample :
    sampleBigIntOpts.pubnub.Config.CipherKey = "" ∧ sampleBigIntOpts.Serialize = true
    ∧ sampleBigIntOpts.buildPath sampleUtils
        = .ret (sampleBigIntOpts,
            "/publish/pub-key/sub-key/0/my%20channel/0/9007199254740993", none)
    ∧ Marshal sampleBigIntOpts.Message = ("9007199254740993", none)
    ∧ UnmarshalInterface "9007199254740993" = (.number "9007199254740993", none)
    ∧ integerLiteralValue "9007199254740993" = some 9007199254740992
    ∧ equalValue sampleBigIntOpts.Message (.number "9007199254740993") = false
    ∧ Marshal .nilSlice = ("null", none)
    ∧ UnmarshalInterface "null" = (.null, none)
    ∧ equalValue .nilSlice .null = false
    ∧ Marshal sampleIntOpts.Message = ("5", none)
    ∧ UnmarshalInterface "5" = (.number "5", none)
    ∧ equalValue sampleIntOpts.Message (.number "5") = true
    ∧ deepEqual sampleIntOpts.Message (.number "5") = false :=
  ⟨rfl, rfl, rfl, rfl, rfl, rfl, rfl, rfl, rfl, rfl, rfl, rfl, rfl, rfl⟩

/-- C13, amended: with no cipher key and `Serialize` true the payload placed on the
wire (in the path of a GET, as the body of a POST) is the JSON text of the message.
For a message made of nil, booleans, `int`s of magnitude at most `2 ^ 53`, strings,
non-nil `[]interface{}` and non-nil `map[string]interface{}` values, `json.Marshal`
succeeds and decoding that text yields a value equal to the message up to the type
of numbers, an `int` coming back as the `float64` of the same value; when the
message holds no number, the decoded value is equal to it as `reflect.DeepEqual`
decides; for a string message `s` the decoded payload is the string `s`. -/
theorem payload_round_trip (u : Utils) (o : publishOpts)
    (hkey : o.pubnub.Config.CipherKey = "") (hser : o.Serialize = true)
    (hmsg : o.Message.roundTrips = true) :
    ∃ payload d, Marshal o.Message = (payload, none)
      ∧ (o.UsePost = false → o.buildPath u = .ret (o, o.getPath u payload, none))
      ∧ (o.UsePost = true → o.buildBody u = .ret (o, payload, none))
      ∧ UnmarshalInterface payload = (d, none)
      ∧ equalValue o.Message d = true
      ∧ (o.Message.isJSONValue = true → deepEqual o.Message d = true)
      ∧ ∀ s, o.Message = .str s → d = .string s := by
  obtain ⟨cs, d, henc, hdec, heq⟩ := roundTrip_value o.Message hmsg
  have hm : Marshal o.Message = (String.mk cs, none) := by simp [Marshal, henc]
  refine ⟨String.mk cs, d, hm, ?_, ?_, unmarshal_of_decodes cs d hdec, heq,
    fun hj => deepEqual_of_equalValue o.Message d hj heq, ?_⟩
  · intro hpost
    simp [publishOpts.buildPath, hpost, hkey, hser, hm]
  · intro hpost
    simp [publishOpts.buildBody, hpost, hkey, hser, hm]
  · intro s hs
    rw [hs] at heq
    cases d <;> simp [equalValue] at heq
    rw [heq]

theorem payload_round_trip_witness :
    ∃ payload d, Marshal sampleNestedOpts.Message = (payload, none)
      ∧ (sampleNestedOpts.UsePost = false →
          sampleNestedOpts.buildPath sampleUtils
            = .ret (sampleNestedOpts, sampleNestedOpts.getPath sampleUtils payload, none))
      ∧ (sampleNestedOpts.UsePost = true →
          sampleNestedOpts.buildBody sampleUtils = .ret (sampleNestedOpts, payload, none))
      ∧ UnmarshalInterface payload = (d, none)
      ∧ equalValue sampleNestedOpts.Message d = true
      ∧ (sampleNestedOpts.Message.isJSONValue = true →
          deepEqual sampleNestedOpts.Message d = true)
      ∧ ∀ s, sampleNestedOpts.Message = .str s → d = .string s :=
  payload_round_trip sampleUtils sampleNestedOpts rfl rfl rfl

/-! ## The query and the builder -/

theorem lookup_mapAssign_eq {α : Type} (q : List (String × α)) (key : String) (x : α) :
    List.lookup key (mapAssign q key x) = some x := by
  induction q with
  | nil => simp [mapAssign, List.lookup]
  | cons e rest ih =>
    obtain ⟨k, y⟩ := e
    by_cases hk : k = key
    · simp [mapAssign, hk, List.lookup]
    · have hk2 : (key == k) = false := by simpa using fun h => hk h.symm
      simp [mapAssign, hk, List.lookup, hk2, ih]

theorem lookup_mapAssign_ne {α : Type} (q : List (String × α)) (key other : String) (x : α)
    (h : other ≠ key) : List.lookup other (mapAssign q key x) = List.lookup other q := by
  induction q with
  | nil =>
    have h2 : (other == key) = false := by simpa using h
    simp [mapAssign, List.lookup, h2]
  | cons e rest ih =>
    obtain ⟨k, y⟩ := e
    by_cases hk : k = key
    · have h2 : (other == k) = false := by simpa [hk] using h
      simp [mapAssign, hk, List.lookup, h2]
      have h3 : (other == key) = false := by simpa using h
      simp [h3]
    · by_cases hko : other = k
      · simp [mapAssign, hk, List.lookup, hko]
      · have h2 : (other == k) = false := by simpa using hko
        simp [mapAssign, hk, List.lookup, h2, ih]

theorem lookup_Set (q : Values) (k v key : String) :
    List.lookup key (Values.Set q k v) = if key = k then some [v] else List.lookup key q := by
  unfold Values.Set
  by_cases h : key = k
  · simp [h, lookup_mapAssign_eq]
  · simp [h, lookup_mapAssign_ne _ _ _ _ h]

theorem finishQuery_lookup (c : Client) (o : publishOpts) (q : Values) (key : String) :
    List.lookup key (o.finishQuery c q).2.1 =
      if key = "norep" ∧ o.DoNotReplicate = true then some ["true"]
      else if key = "seqn" then some [Itoa (c.getPublishSequence o.pubnub).1]
      else if key = "ttl" ∧ o.setTtl = true ∧ o.Ttl > 0 then some [Itoa o.Ttl]
      else if key = "store" ∧ o.setShouldStore = true then
        some [if o.ShouldStore then "1" else "0"]
      else List.lookup key q := by
  unfold publishOpts.finishQuery
  simp only []
  cases o.DoNotReplicate <;> cases o.setTtl <;> cases o.setShouldStore
    <;> cases o.ShouldStore <;> by_cases h5 : 0 < o.Ttl
    <;> by_cases h1 : key = "norep" <;> by_cases h2 : key = "seqn"
    <;> by_cases h3 : key = "ttl" <;> by_cases h4 : key = "store"
    <;> simp [h1, h2, h3, h4, h5, lookup_Set]

theorem finishQuery_state (c : Client) (o : publishOpts) (q : Values) :
    (o.finishQuery c q).1 = { o with pubnub := (c.getPublishSequence o.pubnub).2 }
      ∧ (o.finishQuery c q).2.2 = none := by
  simp [publishOpts.finishQuery]

/-- Counterexample to the query holding exactly `seqn`, `norep`, `ttl` and `meta` next
to the default query: after `ShouldStore(true)` the query of `buildQuery` also holds
`store=1`, which the default query does not hold. -/
theorem buildQuery_store_counterexample :
    List.lookup "store"
        (((newPublishBuilder sampleOpts.pubnub).ShouldStore true).opts.buildQuery
          sampleClient sampleUtils).2.1 = some ["1"]
    ∧ List.lookup "store"
        (sampleClient.defaultQuery sampleOpts.pubnub.Config.Uuid
          sampleOpts.pubnub.telemetryManager) = none
    ∧ (((newPublishBuilder sampleOpts.pubnub).ShouldStore true).opts.buildQuery
          sampleClient sampleUtils).2.1
        = [("pnsdk", ["PubNub-Go/4.0.0"]), ("uuid", ["client-1"]), ("store", ["1"]),
            ("seqn", ["1"])] :=
  ⟨by rfl, by rfl, by rfl⟩

/-- C14, amended: when `Meta` is nil or `ValueAsString` turns it into `metaText`,
`buildQuery` returns a nil error, the options with the client as one call of
`getPublishSequence` leaves it, and the default query in which exactly these keys are
set: `seqn`, to the decimal value drawn; `norep`, to `true`, iff `DoNotReplicate` is
set; `ttl`, to the decimal `Ttl`, iff `setTtl` is set and `Ttl > 0`; `store`, to `1`
or `0` after `ShouldStore`, iff `setShouldStore` is set; `meta`, to `metaText`, iff
`Meta` is not nil. When `ValueAsString` fails, `buildQuery` returns its error, an
empty query, and the options as they were, no value being drawn. -/
theorem buildQuery_parameters (c : Client) (u : Utils) (o : publishOpts) :
    (∀ metaText, (o.Meta = .nil ∨ u.ValueAsString o.Meta = (metaText, none)) →
        (o.buildQuery c u).1 = { o with pubnub := (c.getPublishSequence o.pubnub).2 }
        ∧ (o.buildQuery c u).2.2 = none
        ∧ ∀ key, List.lookup key (o.buildQuery c u).2.1 =
            if key = "norep" ∧ o.DoNotReplicate = true then some ["true"]
            else if key = "seqn" then some [Itoa (c.getPublishSequence o.pubnub).1]
            else if key = "ttl" ∧ o.setTtl = true ∧ o.Ttl > 0 then some [Itoa o.Ttl]
            else if key = "store" ∧ o.setShouldStore = true then
              some [if o.ShouldStore then "1" else "0"]
            else if key = "meta" ∧ o.Meta.isNil = false then some [metaText]
            else List.lookup key
              (c.defaultQuery o.pubnub.Config.Uuid o.pubnub.telemetryManager))
    ∧ (∀ metaText err, o.Meta ≠ .nil → u.ValueAsString o.Meta = (metaText, some err) →
        o.buildQuery c u = (o, [], some err)) := by
  constructor
  · intro metaText hmeta
    by_cases hnil : o.Meta = .nil
    · have h : o.buildQuery c u
          = o.finishQuery c (c.defaultQuery o.pubnub.Config.Uuid o.pubnub.telemetryManager) := by
        simp [publishOpts.buildQuery, hnil, GoValue.isNil]
      rw [h]
      refine ⟨(finishQuery_state c o _).1, (finishQuery_state c o _).2, ?_⟩
      intro key
      rw [finishQuery_lookup]
      simp [hnil, GoValue.isNil]
    · have hval : u.ValueAsString o.Meta = (metaText, none) := by
        rcases hmeta with h | h
        · exact absurd h hnil
        · exact h
      have hn : o.Meta.isNil = false := by
        cases hm : o.Meta.isNil
        · rfl
        · exact absurd ((GoValue.isNil_iff _).mp hm) hnil
      have h : o.buildQuery c u
          = o.finishQuery c
              (Values.Set (c.defaultQuery o.pubnub.Config.Uuid o.pubnub.telemetryManager)
                "meta" metaText) := by
        simp [publishOpts.buildQuery, hn, hval]
      rw [h]
      refine ⟨(finishQuery_state c o _).1, (finishQuery_state c o _).2, ?_⟩
      intro key
      rw [finishQuery_lookup, lookup_Set]
      simp [hn]
  · intro metaText err hnil hval
    have hn : o.Meta.isNil = false := by
      cases hm : o.Meta.isNil
      · rfl
      · exact absurd ((GoValue.isNil_iff _).mp hm) hnil
    simp [publishOpts.buildQuery, hn, hval]

theorem buildQuery_parameters_witness :
    (sampleOpts.buildQuery sampleClient sampleUtils).1
        = { sampleOpts with pubnub := (sampleClient.getPublishSequence sampleOpts.pubnub).2 }
    ∧ (sampleOpts.buildQuery sampleClient sampleUtils).2.2 = none :=
  ⟨((buildQuery_parameters sampleClient sampleUtils sampleOpts).1 "" (Or.inl rfl)).1,
    ((buildQuery_parameters sampleClient sampleUtils sampleOpts).1 "" (Or.inl rfl)).2.1⟩

theorem buildQuery_store (c : Client) (u : Utils) (o : publishOpts) :
    (o.buildQuery c u).2.1 = []
    ∨ List.lookup "store" (o.buildQuery c u).2.1 =
        if o.setShouldStore = true then some [if o.ShouldStore then "1" else "0"]
        else List.lookup "store"
          (c.defaultQuery o.pubnub.Config.Uuid o.pubnub.telemetryManager) := by
  unfold publishOpts.buildQuery
  split
  · right
    rw [finishQuery_lookup]
    simp
  · split
    · left; rfl
    · right
      rw [finishQuery_lookup, lookup_Set]
      simp

/-- C15: the `store` parameter after `ShouldStore`. The call `ShouldStore(false)`
clears `setShouldStore`, so `buildQuery` leaves `store` as the default query has it
and does not set `store=0`; after `ShouldStore(true)` it sets `store=1`. -/
theorem ShouldStore_false_leaves_store_unset (c : Client) (u : Utils) (b : publishBuilder) :
    (b.ShouldStore false).opts.setShouldStore = false
    ∧ (∀ q, List.lookup "store" ((b.ShouldStore false).opts.finishQuery c q).2.1
        = List.lookup "store" q)
    ∧ (∀ q, List.lookup "store" ((b.ShouldStore true).opts.finishQuery c q).2.1
        = some ["1"])
    ∧ (((b.ShouldStore false).opts.buildQuery c u).2.1 ≠ [] →
        List.lookup "store" ((b.ShouldStore false).opts.buildQuery c u).2.1
          = List.lookup "store"
              (c.defaultQuery b.opts.pubnub.Config.Uuid b.opts.pubnub.telemetryManager))
    ∧ (((newPublishBuilder sampleOpts.pubnub).ShouldStore false).opts.buildQuery
          sampleClient sampleUtils).2.1
        = [("pnsdk", ["PubNub-Go/4.0.0"]), ("uuid", ["client-1"]), ("seqn", ["1"])] := by
  refine ⟨rfl, ?_, ?_, ?_, by rfl⟩
  · intro q
    rw [finishQuery_lookup]
    simp [publishBuilder.ShouldStore]
  · intro q
    rw [finishQuery_lookup]
    simp [publishBuilder.ShouldStore]
  · intro hne
    rcases buildQuery_store c u (b.ShouldStore false).opts with h | h
    · exact absurd h hne
    · rw [h]
      simp [publishBuilder.ShouldStore]

/-- C16: what each setter records. Each setter returns the builder with its own
option set to the argument and every other option as it was, `Ttl` setting `setTtl`
as well; no setter checks its argument: `Channel("")` and `Message(nil)` give a
builder, whose options `validate` then rejects. `ShouldStore` does not set its
set-flag but assigns its argument to it: `ShouldStore(false)` clears
`setShouldStore`, also after `ShouldStore(true)`. -/
theorem setters_record_their_option (b : publishBuilder) :
    (∀ ch, (b.Channel ch).opts = { b.opts with Channel := ch })
    ∧ (∀ msg, (b.Message msg).opts = { b.opts with Message := msg })
    ∧ (∀ metadata, (b.Meta metadata).opts = { b.opts with Meta := metadata })
    ∧ (∀ post, (b.UsePost post).opts = { b.opts with UsePost := post })
    ∧ (∀ serialize, (b.Serialize serialize).opts = { b.opts with Serialize := serialize })
    ∧ (∀ repl, (b.DoNotReplicate repl).opts = { b.opts with DoNotReplicate := repl })
    ∧ (∀ tr, (b.Transport tr).opts = { b.opts with Transport := tr })
    ∧ (∀ ttl, (b.Ttl ttl).opts = { b.opts with Ttl := ttl, setTtl := true })
    ∧ (∀ store, (b.ShouldStore store).opts
        = { b.opts with ShouldStore := store, setShouldStore := store })
    ∧ (b.ShouldStore false).opts.setShouldStore = false
    ∧ ((b.ShouldStore true).ShouldStore false).opts.setShouldStore = false
    ∧ (b.Ttl 0).opts.setTtl = true
    ∧ (b.Channel "").opts.Channel = ""
    ∧ (b.Channel "").opts.validate ≠ none
    ∧ (b.Message .nil).opts.Message = .nil
    ∧ (b.Message .nil).opts.validate ≠ none := by
  refine ⟨fun _ => rfl, fun _ => rfl, fun _ => rfl, fun _ => rfl, fun _ => rfl,
    fun _ => rfl, fun _ => rfl, fun _ => rfl, ?_, rfl, rfl, rfl, rfl, ?_, rfl, ?_⟩
  · intro store
    cases store <;> rfl
  · simp only [publishBuilder.Channel, publishOpts.validate, publishOpts.config]
    split
    · simp
    · split
      · simp
      · simp
  · simp only [publishBuilder.Message, publishOpts.validate, publishOpts.config,
      GoValue.isNil]
    split
    · simp
    · split
      · simp
      · split <;> simp

theorem run_keeps_store_flag (call : SetterCall) (b : publishBuilder)
    (h : b.opts.setShouldStore = b.opts.ShouldStore) :
    (call.run b).opts.setShouldStore = (call.run b).opts.ShouldStore := by
  cases call with
  | ShouldStore store => cases store <;> rfl
  | _ => exact h

theorem runCalls_store_flag (calls : List SetterCall) (b : publishBuilder)
    (h : b.opts.setShouldStore = b.opts.ShouldStore) :
    (runCalls b calls).opts.setShouldStore = (runCalls b calls).opts.ShouldStore := by
  induction calls generalizing b with
  | nil => exact h
  | cons call rest ih => exact ih _ (run_keeps_store_flag call b h)

theorem run_setTtl (call : SetterCall) (b : publishBuilder) :
    (call.run b).opts.setTtl = (b.opts.setTtl || call.isTtl) := by
  cases call <;> simp [SetterCall.run, SetterCall.isTtl, publishBuilder.Ttl,
    publishBuilder.Channel, publishBuilder.Message, publishBuilder.Meta,
    publishBuilder.UsePost, publishBuilder.ShouldStore, publishBuilder.Serialize,
    publishBuilder.DoNotReplicate, publishBuilder.Transport]

theorem runCalls_setTtl (calls : List SetterCall) (b : publishBuilder) :
    (runCalls b calls).opts.setTtl = (b.opts.setTtl || calls.any SetterCall.isTtl) := by
  induction calls generalizing b with
  | nil => simp [runCalls]
  | cons call rest ih =>
    simp only [runCalls, List.any_cons]
    rw [ih, run_setTtl, Bool.or_assoc]

/-- C20: in every builder reached from `newPublishBuilder` or
`newPublishBuilderWithContext` by a sequence of setter calls, `setShouldStore` equals
`ShouldStore`, and `setTtl` is set iff one of the calls is a call of `Ttl`; so the
query of `buildQuery` is empty (on a `Meta` error), or has `store=1`, or has `store` as
the default query has it, and `store=0` only if the default query has it. -/
theorem reachable_builder_flags (pubnub : PubNub) (context : Option Context)
    (calls : List SetterCall) (b : publishBuilder)
    (hb : b = runCalls (newPublishBuilder pubnub) calls
      ∨ b = runCalls (newPublishBuilderWithContext pubnub context) calls) :
    b.opts.setShouldStore = b.opts.ShouldStore
    ∧ (b.opts.setTtl = true ↔ ∃ ttl, SetterCall.Ttl ttl ∈ calls)
    ∧ ∀ (c : Client) (u : Utils),
        ((b.opts.buildQuery c u).2.1 = []
          ∨ List.lookup "store" (b.opts.buildQuery c u).2.1 = some ["1"]
          ∨ List.lookup "store" (b.opts.buildQuery c u).2.1
              = List.lookup "store"
                  (c.defaultQuery b.opts.pubnub.Config.Uuid b.opts.pubnub.telemetryManager))
        ∧ (List.lookup "store" (b.opts.buildQuery c u).2.1 = some ["0"] →
            List.lookup "store"
              (c.defaultQuery b.opts.pubnub.Config.Uuid b.opts.pubnub.telemetryManager)
              = some ["0"]) := by
  have hflag : b.opts.setShouldStore = b.opts.ShouldStore := by
    rcases hb with hb | hb <;> rw [hb] <;> exact runCalls_store_flag calls _ rfl
  have httl : b.opts.setTtl = calls.any SetterCall.isTtl := by
    rcases hb with hb | hb <;> rw [hb, runCalls_setTtl] <;> rfl
  have hany : calls.any SetterCall.isTtl = true ↔ ∃ ttl, SetterCall.Ttl ttl ∈ calls := by
    rw [List.any_eq_true]
    constructor
    · rintro ⟨call, hmem, hcall⟩
      cases call with
      | Ttl ttl => exact ⟨ttl, hmem⟩
      | _ => simp [SetterCall.isTtl] at hcall
    · rintro ⟨ttl, hmem⟩
      exact ⟨_, hmem, rfl⟩
  refine ⟨hflag, by rw [httl]; exact hany, ?_⟩
  intro c u
  rcases buildQuery_store c u b.opts with h | h
  · exact ⟨Or.inl h, by rw [h]; simp⟩
  · cases hs : b.opts.setShouldStore
    · rw [hs] at h
      simp only [Bool.false_eq_true, if_false] at h
      exact ⟨Or.inr (Or.inr h), by rw [h]; exact id⟩
    · have hst : b.opts.ShouldStore = true := by rw [← hflag, hs]
      rw [hs, hst] at h
      simp only [if_true] at h
      exact ⟨Or.inr (Or.inl h), by rw [h]; simp⟩

theorem reachable_builder_flags_witness :
    (runCalls (newPublishBuilder sampleOpts.pubnub)
        [.ShouldStore true, .Channel "ch", .ShouldStore false, .Ttl 5]).opts.setShouldStore
      = (runCalls (newPublishBuilder sampleOpts.pubnub)
        [.ShouldStore true, .Channel "ch", .ShouldStore false, .Ttl 5]).opts.ShouldStore :=
  (reachable_builder_flags sampleOpts.pubnub none
    [.ShouldStore true, .Channel "ch", .ShouldStore false, .Ttl 5] _ (Or.inl rfl)).1

/-! ## Errors of building and of decoding -/

/-- Counterexample to a parsing-kind error naming the stage: for a message that has
no JSON text, `buildPath` and `buildBody` return the error of `json.Marshal` as it
is, an unsupported-type error, which is no error of the parsing kind and names no
stage. -/
theorem build_marshal_error_counterexample :
    Marshal .chan = ("", some .jsonUnsupportedType)
    ∧ ({ sampleOpts with Message := .chan, UsePost := false } : publishOpts).buildPath
          sampleUtils
        = .ret ({ sampleOpts with Message := .chan, UsePost := false }, "",
            some .jsonUnsupportedType)
    ∧ ({ sampleOpts with Message := .chan, UsePost := true } : publishOpts).buildBody
          sampleUtils
        = .ret ({ sampleOpts with Message := .chan, UsePost := true }, "",
            some .jsonUnsupportedType)
    ∧ ∀ msg body cause, Error.jsonUnsupportedType ≠ .responseParsing msg body cause :=
  ⟨by rfl, by rfl, by rfl, fun _ _ _ h => by cases h⟩

/-- C17, amended: without cipher key and with `Serialize` set, when `json.Marshal`
fails on the message with the error `err`, `buildPath` returns an empty path and
`buildBody` an empty body, each with `err` itself: the error is not wrapped and names
no stage. -/
theorem build_marshal_error (u : Utils) (o : publishOpts) (j : String) (err : Error)
    (hkey : o.pubnub.Config.CipherKey = "") (hser : o.Serialize = true)
    (hjson : Marshal o.Message = (j, some err)) :
    ({ o with UsePost := false } : publishOpts).buildPath u
      = .ret ({ o with UsePost := false }, "", some err)
    ∧ ({ o with UsePost := true } : publishOpts).buildBody u
      = .ret ({ o with UsePost := true }, "", some err) := by
  constructor
  · simp [publishOpts.buildPath, hkey, hser, hjson]
  · simp [publishOpts.buildBody, hkey, hser, hjson]

theorem build_marshal_error_witness :
    ({ sampleOpts with Message := .slice [.int 1, .chan], UsePost := false }
        : publishOpts).buildPath sampleUtils
      = .ret ({ sampleOpts with Message := .slice [.int 1, .chan], UsePost := false }, "",
          some .jsonUnsupportedType)
    ∧ ({ sampleOpts with Message := .slice [.int 1, .chan], UsePost := true }
        : publishOpts).buildBody sampleUtils
      = .ret ({ sampleOpts with Message := .slice [.int 1, .chan], UsePost := true }, "",
          some .jsonUnsupportedType) :=
  build_marshal_error sampleUtils { sampleOpts with Message := .slice [.int 1, .chan] } ""
    .jsonUnsupportedType rfl rfl (by rfl)

/-- C18: what `newPublishResponse` returns, and where it returns nothing. Whenever it
returns, the response is non-nil iff the error is nil, and the status is the one
passed in; on the body `[]` it panics and returns neither a response nor an error,
directly and through `Execute`. -/
theorem newPublishResponse_response_or_error :
    (∀ (σ : Type) (body : String) (status st : σ) (resp : Option PublishResponse)
        (err : Option Error),
        newPublishResponse body status = .ret (resp, st, err) →
        (resp.isSome = true ↔ err = none) ∧ st = status)
    ∧ newPublishResponse "[]" "200" = .panic (.indexOutOfRange 2 0)
    ∧ publishBuilder.Execute (fun _ => ("[]", "200", none)) { opts := sampleOpts }
        = .panic (.indexOutOfRange 2 0) := by
  refine ⟨?_, by rfl, by rfl⟩
  intro σ body status st resp err h
  unfold newPublishResponse at h
  repeat' split at h
  all_goals first
    | (cases h; done)
    | (cases h; simp [emptyPublishResponse])

/-! ## What building changes -/

theorem encryptProcessing_change (u : Utils) (o o1 : publishOpts) (cipherKey msg : String)
    (err : Option Error) (h : o.encryptProcessing u cipherKey = .ret (o1, msg, err)) :
    o1 = o ∨ o.pnOtherOverwritten u o1 cipherKey := by
  unfold publishOpts.encryptProcessing at h
  split at h
  · split at h <;> (cases h; exact Or.inl rfl)
  · split at h
    · cases h
    · rename_i v hv
      split at h
      · rename_i msgPart hpart
        have hp : mapIndex v "pn_other" = .str msgPart := by
          cases hi : mapIndex v "pn_other" <;> rw [hi] at hpart
            <;> simp [GoValue.asString] at hpart
          rw [hpart]
        split at h
        · cases h; exact Or.inl rfl
        · rename_i encMsg henc
          have hdis : o.pubnub.Config.DisablePNOtherProcessing = false := by
            cases hd : o.pubnub.Config.DisablePNOtherProcessing
            · rfl
            · simp_all
          split at h <;>
            (cases h; exact Or.inr ⟨v, msgPart, encMsg, hdis, hv, hp, henc, rfl⟩)
      · split at h <;> (cases h; exact Or.inl rfl)
    · split at h <;> (cases h; exact Or.inl rfl)
    · split at h <;> (cases h; exact Or.inl rfl)

/-- Counterexample to building leaving the request as it was: with the cipher key
`enigma`, building the path for `{"pn_other": "secret", "route": "A"}` overwrites the
`pn_other` entry of the message with its ciphertext, and building a second time from
the same options returns another path. -/
theorem build_overwrites_pn_other_counterexample :
    sampleCipherOpts.Message = .map [("pn_other", .str "secret"), ("route", .str "A")]
    ∧ sampleCipherOpts.buildPath sampleUtils
        = .ret ({ sampleCipherOpts with
              Message := .map [("pn_other", .str "enigma$\"terces\""), ("route", .str "A")] },
            "/publish/pub-key/sub-key/0/my%20channel/0/%7B%22pn_other%22%3A%22enigma%24%5C%22terces%5C%22%22%2C%22route%22%3A%22A%22%7D",
            none)
    ∧ ({ sampleCipherOpts with
          Message := .map [("pn_other", .str "enigma$\"terces\""), ("route", .str "A")] }
        : publishOpts).buildPath sampleUtils
        = .ret ({ sampleCipherOpts with
              Message := .map [("pn_other", .str "enigma$\"\"\\secret\"\\$amgine\""),
                ("route", .str "A")] },
            "/publish/pub-key/sub-key/0/my%20channel/0/%7B%22pn_other%22%3A%22enigma%24%5C%22%5C%22%5C%5Csecret%5C%22%5C%5C%24amgine%5C%22%22%2C%22route%22%3A%22A%22%7D",
            none)
    ∧ GoValue.str "secret" ≠ GoValue.str "enigma$\"terces\"" :=
  ⟨rfl, by rfl, by rfl, fun h => absurd (GoValue.str.inj h) (by decide)⟩


/-- C19, amended: `encryptProcessing`, `buildPath` and `buildBody` leave the options
as they were, but for one change: in partial mode (`DisablePNOtherProcessing` unset,
mapping message with a string under `pn_other`) the `pn_other` entry of the caller's
mapping is overwritten with its ciphertext, every other option and every other entry
staying as it was. `buildPath` makes the change only with a cipher key and `UsePost`
unset, `buildBody` only with a cipher key and `UsePost` set; without cipher key both
leave the options unchanged. -/
theorem build_changes_pn_other_only (u : Utils) (o o1 : publishOpts) (msg : String)
    (err : Option Error) :
    (∀ cipherKey, o.encryptProcessing u cipherKey = .ret (o1, msg, err) →
        o1 = o ∨ o.pnOtherOverwritten u o1 cipherKey)
    ∧ (o.buildPath u = .ret (o1, msg, err) →
        o1 = o
        ∨ (o.UsePost = false ∧ o.pubnub.Config.CipherKey ≠ ""
            ∧ o.pnOtherOverwritten u o1 o.pubnub.Config.CipherKey))
    ∧ (o.buildBody u = .ret (o1, msg, err) →
        o1 = o
        ∨ (o.UsePost = true ∧ o.pubnub.Config.CipherKey ≠ ""
            ∧ o.pnOtherOverwritten u o1 o.pubnub.Config.CipherKey))
    ∧ (∀ cipherKey, o.pnOtherOverwritten u o1 cipherKey →
        o1 = { o with Message := o1.Message }
        ∧ ∃ v v1, o.Message = .map v ∧ o1.Message = .map v1
            ∧ v1.map Prod.fst = v.map Prod.fst
            ∧ ∀ key, key ≠ "pn_other" → mapIndex v1 key = mapIndex v key) := by
  refine ⟨fun cipherKey h => encryptProcessing_change u o o1 cipherKey msg err h, ?_, ?_, ?_⟩
  · intro h
    unfold publishOpts.buildPath at h
    split at h
    · cases h; exact Or.inl rfl
    · rename_i hpost
      split at h
      · rename_i hkey
        split at h
        · cases h
        · rename_i o2 m2 e2 hr
          cases h
          rcases encryptProcessing_change u o o1 _ _ _ hr with h1 | h1
          · exact Or.inl h1
          · exact Or.inr ⟨by simpa using hpost, hkey, h1⟩
        · rename_i o2 m2 hr
          cases h
          rcases encryptProcessing_change u o o1 _ _ _ hr with h1 | h1
          · exact Or.inl h1
          · exact Or.inr ⟨by simpa using hpost, hkey, h1⟩
      · repeat' split at h
        all_goals (cases h; exact Or.inl rfl)
  · intro h
    unfold publishOpts.buildBody at h
    split at h
    · rename_i hpost
      split at h
      · rename_i hkey
        split at h
        · cases h
        · rename_i o2 m2 e2 hr
          cases h
          rcases encryptProcessing_change u o o1 _ _ _ hr with h1 | h1
          · exact Or.inl h1
          · exact Or.inr ⟨hpost, hkey, h1⟩
        · rename_i o2 m2 hr
          cases h
          rcases encryptProcessing_change u o o1 _ _ _ hr with h1 | h1
          · exact Or.inl h1
          · exact Or.inr ⟨hpost, hkey, h1⟩
      · repeat' split at h
        all_goals (cases h; exact Or.inl rfl)
    · cases h; exact Or.inl rfl
  · rintro cipherKey ⟨v, p, enc, -, hv, hp, -, h1⟩
    subst h1
    refine ⟨rfl, v, mapAssign v "pn_other" (.str enc), hv, rfl, ?_, ?_⟩
    · exact mapAssign_keys _ _ _ (by simp [hp])
    · intro key hkey
      exact mapIndex_mapAssign_ne _ _ _ _ hkey

theorem build_changes_pn_other_only_witness :
    ({ sampleCipherOpts with
        Message := .map [("pn_other", .str "enigma$\"terces\""), ("route", .str "A")] }
      : publishOpts) = sampleCipherOpts
    ∨ (sampleCipherOpts.UsePost = false ∧ sampleCipherOpts.pubnub.Config.CipherKey ≠ ""
        ∧ sampleCipherOpts.pnOtherOverwritten sampleUtils
            { sampleCipherOpts with
              Message := .map [("pn_other", .str "enigma$\"terces\""), ("route", .str "A")] }
            sampleCipherOpts.pubnub.Config.CipherKey) :=
  (build_changes_pn_other_only sampleUtils sampleCipherOpts
    { sampleCipherOpts with
      Message := .map [("pn_other", .str "enigma$\"terces\""), ("route", .str "A")] }
    "/publish/pub-key/sub-key/0/my%20channel/0/%7B%22pn_other%22%3A%22enigma%24%5C%22terces%5C%22%22%2C%22route%22%3A%22A%22%7D"
    none).2.1 (by rfl)

/-! ## The two constructors -/

theorem run_Serialize (call : SetterCall) (b : publishBuilder)
    (h : call.isSerialize = false) :
    (call.run b).opts.Serialize = b.opts.Serialize := by
  cases call <;> first
    | rfl
    | simp [SetterCall.isSerialize] at h

theorem runCalls_Serialize (calls : List SetterCall) (b : publishBuilder)
    (h : calls.any SetterCall.isSerialize = false) :
    (runCalls b calls).opts.Serialize = b.opts.Serialize := by
  induction calls generalizing b with
  | nil => rfl
  | cons call rest ih =>
    simp only [List.any_cons, Bool.or_eq_false_iff] at h
    simp only [runCalls]
    rw [ih _ h.2, run_Serialize call b h.1]

theorem run_agree (call : SetterCall) (b1 b2 : publishBuilder) (context : Option Context)
    (h : b2.opts = { b1.opts with Serialize := b2.opts.Serialize, ctx := context }) :
    (call.run b2).opts
      = { (call.run b1).opts with
          Serialize := (call.run b2).opts.Serialize, ctx := context } := by
  obtain ⟨o1⟩ := b1
  obtain ⟨o2⟩ := b2
  simp only at h
  cases call <;>
    (simp only [SetterCall.run, publishBuilder.Ttl, publishBuilder.Channel,
      publishBuilder.Message, publishBuilder.Meta, publishBuilder.UsePost,
      publishBuilder.ShouldStore, publishBuilder.Serialize, publishBuilder.DoNotReplicate,
      publishBuilder.Transport]
     rw [h])

theorem runCalls_agree (calls : List SetterCall) (b1 b2 : publishBuilder)
    (context : Option Context)
    (h : b2.opts = { b1.opts with Serialize := b2.opts.Serialize, ctx := context }) :
    (runCalls b2 calls).opts
      = { (runCalls b1 calls).opts with
          Serialize := (runCalls b2 calls).opts.Serialize, ctx := context } := by
  induction calls generalizing b1 b2 with
  | nil => exact h
  | cons call rest ih => exact ih _ _ (run_agree call b1 b2 context h)

/-- C21: the defaults of the two constructors. `newPublishBuilder` sets `Serialize`,
`newPublishBuilderWithContext` leaves it unset, and that is their only difference
next to the context, also after any sequence of setter calls; the difference stays
through every sequence of setter calls without a call of `Serialize`. For a channel and a mapping message the first builder
gives a path and, with `UsePost`, a body, and the second the error that the message
is not serialized. -/
theorem constructors_differ_on_Serialize (pubnub : PubNub) (context : Option Context) :
    (newPublishBuilder pubnub).opts.Serialize = true
    ∧ (newPublishBuilderWithContext pubnub context).opts.Serialize = false
    ∧ (newPublishBuilderWithContext pubnub context).opts
        = { (newPublishBuilder pubnub).opts with Serialize := false, ctx := context }
    ∧ (∀ calls : List SetterCall,
        (runCalls (newPublishBuilderWithContext pubnub context) calls).opts
          = { (runCalls (newPublishBuilder pubnub) calls).opts with
              Serialize :=
                (runCalls (newPublishBuilderWithContext pubnub context) calls).opts.Serialize,
              ctx := context })
    ∧ (∀ calls : List SetterCall, calls.any SetterCall.isSerialize = false →
        (runCalls (newPublishBuilder pubnub) calls).opts.Serialize = true
        ∧ (runCalls (newPublishBuilderWithContext pubnub context) calls).opts.Serialize
            = false)
    ∧ ((runCalls (newPublishBuilder sampleOpts.pubnub) sampleCalls).opts.buildPath
          sampleUtils
        = .ret ((runCalls (newPublishBuilder sampleOpts.pubnub) sampleCalls).opts,
            "/publish/pub-key/sub-key/0/my%20channel/0/%7B%22route%22%3A%22A%22%7D", none))
    ∧ ((runCalls (newPublishBuilderWithContext sampleOpts.pubnub (some 1))
          sampleCalls).opts.buildPath sampleUtils
        = .ret ((runCalls (newPublishBuilderWithContext sampleOpts.pubnub (some 1))
            sampleCalls).opts, "",
            some (.buildRequest "buildpath: Message is not JSON serialized.")))
    ∧ ((runCalls (newPublishBuilder sampleOpts.pubnub)
          (sampleCalls ++ [.UsePost true])).opts.buildBody sampleUtils
        = .ret ((runCalls (newPublishBuilder sampleOpts.pubnub)
            (sampleCalls ++ [.UsePost true])).opts, "\x7b\"route\":\"A\"\x7d", none))
    ∧ ((runCalls (newPublishBuilderWithContext sampleOpts.pubnub (some 1))
          (sampleCalls ++ [.UsePost true])).opts.buildBody sampleUtils
        = .ret ((runCalls (newPublishBuilderWithContext sampleOpts.pubnub (some 1))
            (sampleCalls ++ [.UsePost true])).opts, "",
            some (.buildRequest "buildBody: Message is not JSON serialized."))) := by
  refine ⟨rfl, rfl, rfl, fun calls => runCalls_agree calls _ _ context rfl, ?_,
    by rfl, by rfl, by rfl, by rfl⟩
  intro calls h
  exact ⟨runCalls_Serialize calls _ h, runCalls_Serialize calls _ h⟩

end Pubnub
